import Mathlib

/-!
# Verification of the fardels contract escrow / inventory / settlement engine

A shallow embedding of the listing ("fardel") marketplace engine found in
`src/contract/src/` (`exec.rs`, `fardel_state.rs`, `unpack_state.rs`,
`user_state.rs`, `social_state.rs`), together with proofs about it.

Modelling conventions:

* The prefixed key/value storage substrate (`cosmwasm_storage::PrefixedStorage`
  with `set_bin_data` / `get_bin_data`) is modelled as association lists with
  first-match lookup and replace-or-append update (`kvGet` / `kvSet`).
* The `secret_toolkit` `AppendStore` (an external library, not part of this
  repository) is modelled as an ideal Lean `List` with append, `get?` and
  `set`; its `u32` length/offset bookkeeping is modelled over `Nat`.
* Addresses (`CanonicalAddr` / `HumanAddr`) are modelled as `Nat`, and the
  `Api` canonical/human conversions as the identity.
* Machine integers are modelled as `Nat`.  Where the source's fixed width is
  the point of a computation (the `U256` commission arithmetic and the
  `low_u128` narrowing, and the `u128` commission accumulator), the bound is
  explicit (`% 2 ^ 128`, overflow checks against `2 ^ 256`).  The `u64`
  per-listing unpack counter is modelled as an unbounded `Nat`: the code never
  lets it exceed the (u16) inventory bound when one is set, and otherwise it
  grows by at most one per operation.
* `StdResult` is `Except StdErr`; a host-reverted error keeps the pre-call
  state (`execOp`).  A Rust panic (the out-of-bounds `sent_funds[0]` index in
  `try_unpack_fardel`) is modelled by an `Option` layer: `none` is the abort.
* The sale/purchase history writers of `tx_state.rs` (`append_sale_tx`,
  `append_purchase_tx`) only append to dedicated history logs that no code in
  the engine reads back; they are omitted from the state.
-/

set_option maxHeartbeats 1000000

namespace Fardels

/-! ## Key/value storage primitive

`set_bin_data` / `get_bin_data` over a prefixed namespace: an association
list with first-match lookup; `kvSet` overwrites the first binding of the key
or appends a fresh one. -/

def kvGet {κ β : Type} [DecidableEq κ] : List (κ × β) → κ → Option β
  | [], _ => none
  | (k, v) :: rest, key => if k = key then some v else kvGet rest key

def kvSet {κ β : Type} [DecidableEq κ] : List (κ × β) → κ → β → List (κ × β)
  | [], key, val => [(key, val)]
  | (k, v) :: rest, key, val =>
      if k = key then (k, val) :: rest else (k, v) :: kvSet rest key val

theorem kvGet_kvSet_same {κ β : Type} [DecidableEq κ] (l : List (κ × β)) (k : κ) (v : β) :
    kvGet (kvSet l k v) k = some v := by
  induction l with
  | nil => simp [kvGet, kvSet]
  | cons hd tl ih =>
      obtain ⟨k0, v0⟩ := hd
      by_cases h : k0 = k
      · simp [kvGet, kvSet, h]
      · simp [kvGet, kvSet, h, ih]

theorem kvGet_kvSet_diff {κ β : Type} [DecidableEq κ] (l : List (κ × β)) (k k' : κ) (v : β)
    (hne : k' ≠ k) : kvGet (kvSet l k v) k' = kvGet l k' := by
  induction l with
  | nil =>
      simp only [kvSet, kvGet]
      rw [if_neg (fun h => hne h.symm)]
  | cons hd tl ih =>
      obtain ⟨k0, v0⟩ := hd
      by_cases h : k0 = k
      · subst h
        simp only [kvSet, if_pos rfl, kvGet]
        rw [if_neg (fun h => hne h.symm), if_neg (fun h => hne h.symm)]
      · simp only [kvSet, if_neg h]
        by_cases h' : k0 = k'
        · simp [kvGet, h']
        · simp [kvGet, h', ih]

theorem kvGet_mem {κ β : Type} [DecidableEq κ] (l : List (κ × β)) (k : κ) (v : β)
    (h : kvGet l k = some v) : (k, v) ∈ l := by
  induction l with
  | nil => simp [kvGet] at h
  | cons hd tl ih =>
      obtain ⟨k0, v0⟩ := hd
      by_cases h0 : k0 = k
      · subst h0
        simp [kvGet] at h
        simp [h]
      · simp [kvGet, h0] at h
        exact List.mem_cons_of_mem _ (ih h)

theorem kvSet_mem {κ β : Type} [DecidableEq κ] (l : List (κ × β)) (k : κ) (v : β)
    {p : κ × β} (hp : p ∈ kvSet l k v) : p ∈ l ∨ p = (k, v) := by
  induction l with
  | nil => simp [kvSet] at hp; simp [hp]
  | cons hd tl ih =>
      obtain ⟨k0, v0⟩ := hd
      by_cases h0 : k0 = k
      · subst h0
        simp [kvSet] at hp
        rcases hp with h | h
        · right; simp [h]
        · left; exact List.mem_cons_of_mem _ h
      · simp [kvSet, h0] at hp
        rcases hp with h | h
        · left; simp [h]
        · rcases ih h with h' | h'
          · left; exact List.mem_cons_of_mem _ h'
          · right; exact h'

theorem kvSet_keys_nodup {κ β : Type} [DecidableEq κ] (l : List (κ × β)) (k : κ) (v : β)
    (h : (l.map Prod.fst).Nodup) : ((kvSet l k v).map Prod.fst).Nodup := by
  induction l with
  | nil => simp [kvSet]
  | cons hd tl ih =>
      obtain ⟨k0, v0⟩ := hd
      simp only [List.map_cons, List.nodup_cons] at h
      by_cases h0 : k0 = k
      · simpa [kvSet, h0] using h
      · have htl := ih h.2
        simp only [kvSet, if_neg h0, List.map_cons, List.nodup_cons]
        refine ⟨?_, htl⟩
        intro hmem
        simp only [List.mem_map] at hmem
        obtain ⟨p, hp, hfst⟩ := hmem
        rcases kvSet_mem tl k v hp with hin | rfl
        · exact h.1 (List.mem_map.mpr ⟨p, hin, hfst⟩)
        · exact h0 (by simpa using hfst.symm)

/-! ## Data model (`fardel_state.rs`, `unpack_state.rs`, `state.rs`) -/

/-- Canonical / human addresses, modelled as `Nat`. -/
abbrev Addr := Nat

/-- `cosmwasm_std::Coin`. -/
structure Coin where
  denom : String
  amount : Nat
deriving DecidableEq, Repr

/-- The denomination constant `DENOM = "uscrt"` from `contract.rs`. -/
def DENOM : String := "uscrt"

/-- `fardel_state::StoredFardel` (the immutable listing body).  The humanized
`Fardel` differs only in representation (`Uint128` wrappers, utf8 strings), so
one structure stands for both. -/
structure StoredFardel where
  global_id : Nat
  hash_id : Nat
  public_message : String
  tags : List String
  contents_data : String
  cost : Nat
  countable : Nat
  approval_req : Bool
  seal_time : Nat
  timestamp : Nat
deriving DecidableEq, Repr

/-- `unpack_state::UnpackedFardel` (one entry of a purchaser's unpack log). -/
structure UnpackedFardel where
  fardel_id : Nat
deriving DecidableEq, Repr

/-- `unpack_state::UnpackedStatus`. -/
structure UnpackedStatus where
  unpacked : Bool
deriving DecidableEq, Repr

/-- `unpack_state::PendingUnpackApproval` (one entry of an owner's pending
approval queue). -/
structure PendingUnpackApproval where
  fardel_id : Nat
  unpacker : Addr
  coin : Coin
  timestamp : Nat
  canceled : Bool
deriving DecidableEq, Repr

/-- `unpack_state::MyPendingUnpack` (the purchaser's "currently pending"
marker: queue offset plus flag). -/
structure MyPendingUnpack where
  pending_unpack_idx : Nat
  value : Bool
deriving DecidableEq, Repr

/-- `msg::Fee` / the `transaction_fee` part of `state::Constants`. -/
structure Fee where
  commission_rate_nom : Nat
  commission_rate_denom : Nat
deriving DecidableEq, Repr

/-- The slice of `state::Constants` the escrow engine reads. -/
structure Constants where
  admin : Addr
  transaction_fee : Fee
deriving DecidableEq, Repr

/-- `StdError`, restricted to the two constructors the engine produces. -/
inductive StdErr where
  | unauthorized : StdErr
  | generic : String → StdErr
deriving DecidableEq, Repr

/-- `StdResult`. -/
abbrev StdResult (α : Type) := Except StdErr α

/-- The whole prefixed-storage state the escrow engine touches.  Each field is
one storage namespace (the Rust `PREFIX_*` constant is noted). -/
structure State where
  /-- `PREFIX_FARDELS`: per-owner append log of listing bodies. -/
  fardels : List (Addr × List StoredFardel)
  /-- `PREFIX_ID_FARDEL_MAPPINGS`: global id → (owner, offset). -/
  idFardelMapping : List (Nat × (Addr × Nat))
  /-- `PREFIX_HASH_ID_MAPPINGS`: public hash id → global id. -/
  hashIdMapping : List (Nat × Nat)
  /-- `KEY_FARDEL_COUNT`: the global listing counter. -/
  fardelCount : Nat
  /-- `PREFIX_FARDEL_NUM_UNPACKS`: global id → units consumed. -/
  numUnpacks : List (Nat × Nat)
  /-- `PREFIX_SEALED`. -/
  sealedMap : List (Nat × Bool)
  /-- `PREFIX_HIDDEN`. -/
  hiddenMap : List (Nat × Bool)
  /-- `PREFIX_REMOVED`. -/
  removedMap : List (Nat × Bool)
  /-- `PREFIX_UNPACKED`: per-purchaser append log of completed unlocks. -/
  unpackedLog : List (Addr × List UnpackedFardel)
  /-- `PREFIX_ID_UNPACKED_MAPPINGS`: (purchaser, global id) → unlocked flag. -/
  unpackedMap : List ((Addr × Nat) × UnpackedStatus)
  /-- `PREFIX_PENDING_APPROVAL`: per-owner append log of pending approvals. -/
  pendingQueue : List (Addr × List PendingUnpackApproval)
  /-- `PREFIX_PENDING_START`: per-owner queue read cursor. -/
  pendingStartMap : List (Addr × Nat)
  /-- `PREFIX_ID_PENDING_UNPACKED_MAPPINGS`: (purchaser, global id) → marker. -/
  myPendingMap : List ((Addr × Nat) × MyPendingUnpack)
  /-- `PREFIX_BANNED` (`user_state.rs`). -/
  bannedMap : List (Addr × Bool)
  /-- `PREFIX_DEACTIVATED` (`user_state.rs`). -/
  deactivatedMap : List (Addr × Bool)
  /-- `PREFIX_BLOCKED` (`social_state.rs`): (blocker, blocked) → bool. -/
  blockedMap : List ((Addr × Addr) × Bool)
  /-- `Config::constants()`. -/
  constants : Constants
deriving DecidableEq, Repr

/-! ### `fardel_state.rs` accessors -/

/-- `get_total_fardel_count`. -/
def get_total_fardel_count (s : State) : Nat := s.fardelCount

/-- `get_fardel_unpack_count` (callers apply `unwrap_or 0`). -/
def get_fardel_unpack_count (s : State) (fardel_id : Nat) : Option Nat :=
  kvGet s.numUnpacks fardel_id

/-- `store_fardel_unpack_count`. -/
def store_fardel_unpack_count (s : State) (fardel_id n : Nat) : State :=
  { s with numUnpacks := kvSet s.numUnpacks fardel_id n }

/-- `increment_fardel_unpack_count`. -/
def increment_fardel_unpack_count (s : State) (fardel_id : Nat) : State :=
  let unpack_count := (get_fardel_unpack_count s fardel_id).getD 0
  store_fardel_unpack_count s fardel_id (unpack_count + 1)

/-- `decrement_fardel_unpack_count` (saturates at zero: a zero count is left
untouched and the caller is not informed). -/
def decrement_fardel_unpack_count (s : State) (fardel_id : Nat) : State :=
  let unpack_count := (get_fardel_unpack_count s fardel_id).getD 0
  if unpack_count < 1 then s
  else store_fardel_unpack_count s fardel_id (unpack_count - 1)

/-- `Fardel::sold_out`. -/
def sold_out (s : State) (f : StoredFardel) : Bool :=
  if 0 < f.countable then
    if f.countable ≤ (get_fardel_unpack_count s f.global_id).getD 0 then true else false
  else false

/-- `get_sealed_status`. -/
def get_sealed_status (s : State) (fardel_id : Nat) : Bool :=
  (kvGet s.sealedMap fardel_id).getD false

/-- `seal_fardel`. -/
def seal_fardel (s : State) (fardel_id : Nat) : State :=
  { s with sealedMap := kvSet s.sealedMap fardel_id true }

/-- `is_fardel_hidden`. -/
def is_fardel_hidden (s : State) (fardel_id : Nat) : Bool :=
  (kvGet s.hiddenMap fardel_id).getD false

/-- `hide_fardel`. -/
def hide_fardel (s : State) (fardel_id : Nat) : State :=
  { s with hiddenMap := kvSet s.hiddenMap fardel_id true }

/-- `unhide_fardel`. -/
def unhide_fardel (s : State) (fardel_id : Nat) : State :=
  { s with hiddenMap := kvSet s.hiddenMap fardel_id false }

/-- `is_fardel_removed`. -/
def is_fardel_removed (s : State) (fardel_id : Nat) : Bool :=
  (kvGet s.removedMap fardel_id).getD false

/-- `remove_fardel`. -/
def remove_fardel (s : State) (fardel_id : Nat) : State :=
  { s with removedMap := kvSet s.removedMap fardel_id true }

/-- `unremove_fardel`. -/
def unremove_fardel (s : State) (fardel_id : Nat) : State :=
  { s with removedMap := kvSet s.removedMap fardel_id false }

/-- `get_fardel_owner`. -/
def get_fardel_owner (s : State) (fardel_id : Nat) : StdResult Addr :=
  match kvGet s.idFardelMapping fardel_id with
  | none => .error (.generic "could not get fardel mapping")
  | some mapping => .ok mapping.1

/-- `get_fardel_by_global_id`. -/
def get_fardel_by_global_id (s : State) (fardel_id : Nat) :
    StdResult (Option StoredFardel) :=
  match kvGet s.idFardelMapping fardel_id with
  | none => .error (.generic "could not get fardel mapping")
  | some mapping =>
    match kvGet s.fardels mapping.1 with
    | none => .ok none
    | some lst =>
      match lst.get? mapping.2 with
      | none => .error (.generic "Could not get stored fardel")
      | some f => .ok (some f)

/-- `get_global_id_by_hash`. -/
def get_global_id_by_hash (s : State) (hash : Nat) : StdResult Nat :=
  match kvGet s.hashIdMapping hash with
  | none => .error (.generic "could not get global_id for hash_id")
  | some gid => .ok gid

/-- `get_fardel_by_hash`. -/
def get_fardel_by_hash (s : State) (hash : Nat) : StdResult (Option StoredFardel) :=
  match kvGet s.hashIdMapping hash with
  | none => .error (.generic "could not get global_id for hash_id")
  | some gid => get_fardel_by_global_id s gid

/-! ### `unpack_state.rs` accessors -/

/-- `get_unpacked_status_by_fardel_id`. -/
def get_unpacked_status_by_fardel_id (s : State) (unpacker : Addr) (fardel_id : Nat) :
    UnpackedStatus :=
  (kvGet s.unpackedMap (unpacker, fardel_id)).getD { unpacked := false }

/-- `store_unpack` = `push_unpack` followed by
`map_global_id_to_unpacked_by_unpacker` (the flag is only ever written
`true`). -/
def store_unpack (s : State) (unpacker : Addr) (fardel_id : Nat) : State :=
  let log := (kvGet s.unpackedLog unpacker).getD []
  let entry : UnpackedFardel := { fardel_id := fardel_id }
  let s1 := { s with unpackedLog := kvSet s.unpackedLog unpacker (log ++ [entry]) }
  { s1 with unpackedMap := kvSet s1.unpackedMap (unpacker, fardel_id) { unpacked := true } }

/-- `get_pending_start` (`unwrap_or 0`). -/
def get_pending_start (s : State) (owner : Addr) : Nat :=
  (kvGet s.pendingStartMap owner).getD 0

/-- `set_pending_start`. -/
def set_pending_start (s : State) (owner : Addr) (idx : Nat) : State :=
  { s with pendingStartMap := kvSet s.pendingStartMap owner idx }

/-- `map_global_id_to_pending_unpacked_by_unpacker`. -/
def map_global_id_to_pending_unpacked_by_unpacker (s : State) (global_id : Nat)
    (unpacker : Addr) (pending_unpack_idx : Nat) (value : Bool) : State :=
  let mp : MyPendingUnpack := { pending_unpack_idx := pending_unpack_idx, value := value }
  { s with myPendingMap := kvSet s.myPendingMap (unpacker, global_id) mp }

/-- `store_pending_unpack`: append the entry to the owner's queue, then point
the purchaser's marker at it. -/
def store_pending_unpack (s : State) (owner unpacker : Addr) (fardel_id : Nat)
    (sent_funds : Coin) (timestamp : Nat) : State :=
  let q := (kvGet s.pendingQueue owner).getD []
  let entry : PendingUnpackApproval :=
    { fardel_id := fardel_id, unpacker := unpacker, coin := sent_funds,
      timestamp := timestamp, canceled := false }
  let s1 := { s with pendingQueue := kvSet s.pendingQueue owner (q ++ [entry]) }
  map_global_id_to_pending_unpacked_by_unpacker s1 fardel_id unpacker (q.length) true

/-- `get_pending_unpack_approval`. -/
def get_pending_unpack_approval (s : State) (owner : Addr) (idx : Nat) :
    StdResult PendingUnpackApproval :=
  match kvGet s.pendingQueue owner with
  | none => .error (.generic "no pending unpacks for this owner")
  | some q =>
    match q.get? idx with
    | none => .error (.generic "could not get pending unpack")
    | some e => .ok e

/-- `get_pending_approvals_from_start`. -/
def get_pending_approvals_from_start (s : State) (owner : Addr) (number : Nat) :
    List PendingUnpackApproval :=
  let start := get_pending_start s owner
  (((kvGet s.pendingQueue owner).getD []).drop start).take number

/-- `get_pending_unpacked_status_by_fardel_id`. -/
def get_pending_unpacked_status_by_fardel_id (s : State) (unpacker : Addr)
    (fardel_id : Nat) : MyPendingUnpack :=
  (kvGet s.myPendingMap (unpacker, fardel_id)).getD
    { pending_unpack_idx := 0, value := false }

/-- `cancel_pending_unpack`. -/
def cancel_pending_unpack (s : State) (owner unpacker : Addr) (fardel_id : Nat) :
    StdResult State :=
  let my_pending_unpack := get_pending_unpacked_status_by_fardel_id s unpacker fardel_id
  if my_pending_unpack.value then
    match get_pending_unpack_approval s owner my_pending_unpack.pending_unpack_idx with
    | .error e => .error e
    | .ok pending_unpack_approval =>
      let updated := { pending_unpack_approval with canceled := true }
      let q := (kvGet s.pendingQueue owner).getD []
      let q1 := q.set my_pending_unpack.pending_unpack_idx updated
      let s1 := { s with pendingQueue := kvSet s.pendingQueue owner q1 }
      .ok (map_global_id_to_pending_unpacked_by_unpacker s1 fardel_id unpacker
        my_pending_unpack.pending_unpack_idx false)
  else
    .error (.generic "Cannot cancel unpack that is not pending.")

/-- `store_fardel`: the four index/body writes, the owner auto-unpack, and the
counter bump, returning the fresh global id. -/
def store_fardel (s : State) (hash_id : Nat) (owner : Addr) (public_message : String)
    (tags : List String) (contents_data : String) (cost countable : Nat)
    (approval_req : Bool) (seal_time timestamp : Nat) : State × Nat :=
  let global_id := get_total_fardel_count s
  let fardel : StoredFardel :=
    { global_id := global_id, hash_id := hash_id, public_message := public_message,
      tags := tags, contents_data := contents_data, cost := cost,
      countable := countable, approval_req := approval_req,
      seal_time := seal_time, timestamp := timestamp }
  let lst := (kvGet s.fardels owner).getD []
  let index := lst.length
  let s1 := { s with fardels := kvSet s.fardels owner (lst ++ [fardel]) }
  let s2 := { s1 with idFardelMapping := kvSet s1.idFardelMapping global_id (owner, index) }
  let s3 := { s2 with hashIdMapping := kvSet s2.hashIdMapping hash_id global_id }
  let s4 := store_fardel_unpack_count s3 global_id 0
  let s5 := store_unpack s4 owner global_id
  ({ s5 with fardelCount := global_id + 1 }, global_id)

/-! ### `user_state.rs` / `social_state.rs` accessors -/

/-- `is_banned`. -/
def is_banned (s : State) (account : Addr) : Bool :=
  (kvGet s.bannedMap account).getD false

/-- `store_account_ban`. -/
def store_account_ban (s : State) (account : Addr) (banned : Bool) : State :=
  { s with bannedMap := kvSet s.bannedMap account banned }

/-- `is_deactivated`. -/
def is_deactivated (s : State) (account : Addr) : Bool :=
  (kvGet s.deactivatedMap account).getD false

/-- `store_account_deactivated`. -/
def store_account_deactivated (s : State) (account : Addr) (deactivated : Bool) : State :=
  { s with deactivatedMap := kvSet s.deactivatedMap account deactivated }

/-- `is_blocked_by`. -/
def is_blocked_by (s : State) (blocker blocked : Addr) : Bool :=
  (kvGet s.blockedMap (blocker, blocked)).getD false

/-- `store_account_block`. -/
def store_account_block (s : State) (blocker blocked : Addr) (b : Bool) : State :=
  { s with blockedMap := kvSet s.blockedMap (blocker, blocked) b }

/-! ## Commission arithmetic

The contract computes commissions with `primitive_types::U256` through the
repository's `u256_math` wrappers.  `u256_math.rs` is declared in `lib.rs` but
is not present under `src/`, so its operations are modelled from the spec. -/

namespace U256Math

/-- Modelled from the spec: `u256_math::mul` — checked 256-bit multiplication
over optional operands ("an extended-width intermediate to prevent overflow";
`None` on overflow or a `None` operand). -/
def mul (a b : Option Nat) : Option Nat :=
  match a, b with
  | some x, some y => if x * y < 2 ^ 256 then some (x * y) else none
  | _, _ => none

/-- Modelled from the spec: `u256_math::div` — checked division (`None` on a
zero divisor or a `None` operand). -/
def div (a b : Option Nat) : Option Nat :=
  match a, b with
  | some x, some y => if y = 0 then none else some (x / y)
  | _, _ => none

/-- Modelled from the spec: `u256_math::sub` — checked subtraction (`None` on
underflow or a `None` operand). -/
def sub (a b : Option Nat) : Option Nat :=
  match a, b with
  | some x, some y => if y ≤ x then some (x - y) else none
  | _, _ => none

/-- `U256::low_u128`: the low 128 bits. -/
def low_u128 (x : Nat) : Nat := x % 2 ^ 128

end U256Math

/-- The settlement block duplicated verbatim in `try_unpack_fardel`
(`exec.rs:1237-1258`) and `try_approve_pending_unpacks` (`exec.rs:1039-1061`):
`commission = cost * nom / denom` over `U256`, `payment = cost - commission`,
both narrowed with `low_u128`.  Errors if a `u256_math` step returns `None`. -/
def settleCalc (constants : Constants) (cost : Nat) : StdResult (Nat × Nat) :=
  let cost_u256 := some cost
  let commission_rate_nom := some constants.transaction_fee.commission_rate_nom
  let commission_rate_denom := some constants.transaction_fee.commission_rate_denom
  match U256Math.div (U256Math.mul cost_u256 commission_rate_nom) commission_rate_denom with
  | none => .error (.generic "Cannot calculate commission")
  | some commission_amount =>
    match U256Math.sub cost_u256 (some commission_amount) with
    | none => .error (.generic "Cannot calculate payment")
    | some payment_amount =>
      .ok (U256Math.low_u128 payment_amount, U256Math.low_u128 commission_amount)

/-! ## Message-handling environment and responses -/

/-- The slice of `cosmwasm_std::Env` the handlers read. -/
structure Env where
  message_sender : Addr
  sent_funds : List Coin
  block_time : Nat
  contract_address : Addr
deriving DecidableEq, Repr

/-- `BankMsg::Send`. -/
structure BankMsg where
  from_address : Addr
  to_address : Addr
  amount : List Coin
deriving DecidableEq, Repr

/-- `ResponseStatus`. -/
inductive ResponseStatus where
  | success : ResponseStatus
  | failure : ResponseStatus
deriving DecidableEq, Repr

/-- `HandleResponse` together with the status/message/contents fields of the
`HandleAnswer` data it carries. -/
structure HandleResponse where
  messages : List BankMsg
  status : ResponseStatus
  msg : Option String
  contents_data : Option String := none
deriving DecidableEq, Repr

/-- A failure `HandleResponse` with no messages (the shape every rejection
branch of the handlers produces). -/
def failResp (m : String) : HandleResponse :=
  { messages := [], status := .failure, msg := some m }

/-! ## `try_unpack_fardel` (`exec.rs:1121-1334`) -/

/-- `try_unpack_fardel`.  The outer `Option` models the Rust panic on
`sent_coins[0]` when `sent_funds` is empty (the very first storage-free use of
the message); every other outcome is `some`: either a reverted `StdErr` or the
new state with the response. -/
def try_unpack_fardel (s : State) (env : Env) (fardel_hash : Nat) :
    Option (StdResult (State × HandleResponse)) :=
  match env.sent_funds with
  | [] => none
  | coin0 :: _ =>
    some (
      let message_sender := env.message_sender
      if coin0.denom ≠ DENOM then
        .ok (s, failResp "Wrong denomination.")
      else
        match get_fardel_by_hash s fardel_hash with
        | .error _ => .ok (s, failResp "Fardel is not available to unpack.")
        | .ok none => .ok (s, failResp "Fardel is not available to unpack.")
        | .ok (some f) =>
          let global_id := f.global_id
          match get_fardel_owner s global_id with
          | .error e => .error e
          | .ok owner =>
            if is_banned s owner || is_deactivated s owner
                || is_blocked_by s owner message_sender then
              .error .unauthorized
            else
              let cost := f.cost
              let sent_amount := coin0.amount
              if (get_unpacked_status_by_fardel_id s message_sender global_id).unpacked then
                .ok (s, failResp "You have already unpacked this fardel.")
              else if (get_pending_unpacked_status_by_fardel_id s message_sender
                  global_id).value then
                .ok (s, failResp "You have a currently pending unpack for this fardel.")
              else if get_sealed_status s global_id then
                .ok (s, failResp "Fardel has been sealed.")
              else if 0 < f.seal_time ∧ f.seal_time < env.block_time then
                .ok (seal_fardel s global_id, failResp "Fardel has been sealed.")
              else if sold_out s f then
                let s1 := if f.approval_req then s else seal_fardel s global_id
                .ok (s1, failResp "Fardel is sold out.")
              else if sent_amount ≠ cost then
                .ok (s, failResp "Didn't send correct amount of coins to unpack.")
              else
                -- "do the unpack"; `status` stays `Success` on this path, so
                -- the trailing refund branch of the source is dead code.
                let status := ResponseStatus.success
                if f.approval_req then
                  let s1 := store_pending_unpack s owner message_sender global_id coin0
                    env.block_time
                  let s2 := increment_fardel_unpack_count s1 global_id
                  let resp : HandleResponse :=
                    { messages := [], status := .success,
                      msg := some "Fardel unpack is pending approval by owner." }
                  .ok (s2, resp)
                else
                  let s1 := store_unpack s message_sender global_id
                  let s2 := increment_fardel_unpack_count s1 global_id
                  if status = ResponseStatus.success then
                    match settleCalc s2.constants cost with
                    | .error e => .error e
                    | .ok pc =>
                      let payment_amount := pc.1
                      let commission_amount := pc.2
                      let payMsg : BankMsg :=
                        { from_address := env.contract_address, to_address := owner,
                          amount := [{ denom := DENOM, amount := payment_amount }] }
                      let commissionMsgs : List BankMsg :=
                        if 0 < commission_amount then
                          [{ from_address := env.contract_address,
                             to_address := s2.constants.admin,
                             amount := [{ denom := DENOM, amount := commission_amount }] }]
                        else []
                      let resp : HandleResponse :=
                        { messages := payMsg :: commissionMsgs, status := .success,
                          msg := none, contents_data := some f.contents_data }
                      .ok (s2, resp)
                  else
                    -- return coins to sender if there was a Failure (dead)
                    let refundMsg : BankMsg :=
                      { from_address := env.contract_address,
                        to_address := env.message_sender, amount := env.sent_funds }
                    let resp : HandleResponse :=
                      { messages := [refundMsg], status := status, msg := none }
                    .ok (s, resp))

/-! ## `try_approve_pending_unpacks` (`exec.rs:999-1119`) -/

/-- The body of the `for pending_approval in pending_approvals` loop: for each
(non-canceled) entry, write the Unpack Record, settle, push the payment to the
caller, and accumulate the commission (a `u128` sum, hence `% 2 ^ 128`).
Neither the queue, the cursor, nor the purchaser's pending marker is
touched. -/
def approve_loop (constants : Constants) (env : Env) :
    List PendingUnpackApproval → State → List BankMsg → Nat →
    StdResult (State × List BankMsg × Nat)
  | [], s, messages, total_commission => .ok (s, messages, total_commission)
  | pending_approval :: rest, s, messages, total_commission =>
    let s1 := store_unpack s pending_approval.unpacker pending_approval.fardel_id
    let cost := pending_approval.coin.amount
    match settleCalc constants cost with
    | .error e => .error e
    | .ok pc =>
      let payment_amount := pc.1
      let commission_amount := pc.2
      let payMsg : BankMsg :=
        { from_address := env.contract_address, to_address := env.message_sender,
          amount := [{ denom := DENOM, amount := payment_amount }] }
      approve_loop constants env rest s1 (messages ++ [payMsg])
        ((total_commission + commission_amount) % 2 ^ 128)

/-- `try_approve_pending_unpacks`. -/
def try_approve_pending_unpacks (s : State) (env : Env) (number : Option Int) :
    StdResult (State × HandleResponse) :=
  let number := number.getD 10
  if number < 1 then
    .ok (s, failResp "invalid number of unpacks to approve")
  else
    let owner := env.message_sender
    let pending_approvals := get_pending_approvals_from_start s owner number.toNat
    let new_idx := get_pending_start s owner + pending_approvals.length
    let pending_approvals := pending_approvals.filter (fun pu => !pu.canceled)
    let constants := s.constants
    match approve_loop constants env pending_approvals s [] 0 with
    | .error e => .error e
    | .ok res =>
      let s1 := res.1
      let messages := res.2.1
      let total_commission := res.2.2
      let s2 := set_pending_start s1 owner new_idx
      let commissionMsg : BankMsg :=
        { from_address := env.contract_address, to_address := constants.admin,
          amount := [{ denom := DENOM, amount := total_commission }] }
      let messages :=
        if 0 < total_commission then messages ++ [commissionMsg] else messages
      .ok (s2, { messages := messages, status := .success, msg := none })

/-! ## `try_cancel_pending` (`exec.rs:1336-1379`) -/

/-- `try_cancel_pending`.  Note the pre-`cancel` lookups propagate errors (the
whole call reverts), while a missing fardel body only flips the status flag
and the refund is the listing's current `cost`, not the held coin. -/
def try_cancel_pending (s : State) (env : Env) (fardel_hash : Nat) :
    StdResult (State × HandleResponse) :=
  match get_global_id_by_hash s fardel_hash with
  | .error e => .error e
  | .ok fardel_id =>
    match get_fardel_owner s fardel_id with
    | .error e => .error e
    | .ok owner =>
      let statusRefundMsg : ResponseStatus × Nat × Option String :=
        match get_fardel_by_global_id s fardel_id with
        | .error _ => (.success, 0, none)      -- unreachable: `?` propagates below
        | .ok (some fardel) => (.success, fardel.cost, none)
        | .ok none => (.failure, 0, some "No fardel with that id found.")
      match get_fardel_by_global_id s fardel_id with
      | .error e => .error e
      | .ok _ =>
        let status := statusRefundMsg.1
        let refund := statusRefundMsg.2.1
        let msg := statusRefundMsg.2.2
        let unpacker := env.message_sender
        match cancel_pending_unpack s owner unpacker fardel_id with
        | .error e => .error e
        | .ok s1 =>
          let s2 := decrement_fardel_unpack_count s1 fardel_id
          let messages : List BankMsg :=
            if status = ResponseStatus.success then
              [{ from_address := env.contract_address, to_address := env.message_sender,
                 amount := [{ denom := DENOM, amount := refund }] }]
            else []
          .ok (s2, { messages := messages, status := status, msg := msg })

/-! ## Owner / admin flag handlers (`exec.rs:250-287`, `894-997`) -/

/-- `try_seal_fardel`. -/
def try_seal_fardel (s : State) (env : Env) (fardel_hash : Nat) :
    StdResult (State × HandleResponse) :=
  match get_fardel_by_hash s fardel_hash with
  | .ok _ =>
    match get_global_id_by_hash s fardel_hash with
    | .error e => .error e
    | .ok global_id =>
      match get_fardel_owner s global_id with
      | .error e => .error e
      | .ok owner =>
        if owner = env.message_sender then
          .ok (seal_fardel s global_id,
            { messages := [], status := .success, msg := none })
        else
          .ok (s, failResp "You are not the owner of that fardel.")
  | .error _ => .ok (s, failResp "No Fardel with given id.")

/-- `try_hide_fardel`. -/
def try_hide_fardel (s : State) (env : Env) (fardel_hash : Nat) :
    StdResult (State × HandleResponse) :=
  match get_fardel_by_hash s fardel_hash with
  | .ok _ =>
    match get_global_id_by_hash s fardel_hash with
    | .error e => .error e
    | .ok global_id =>
      match get_fardel_owner s global_id with
      | .error e => .error e
      | .ok owner =>
        if owner = env.message_sender then
          .ok (hide_fardel s global_id,
            { messages := [], status := .success, msg := none })
        else
          .ok (s, failResp "You are not the owner of that fardel.")
  | .error _ => .ok (s, failResp "No Fardel with given id.")

/-- `try_unhide_fardel`. -/
def try_unhide_fardel (s : State) (env : Env) (fardel_hash : Nat) :
    StdResult (State × HandleResponse) :=
  match get_fardel_by_hash s fardel_hash with
  | .ok _ =>
    match get_global_id_by_hash s fardel_hash with
    | .error e => .error e
    | .ok global_id =>
      match get_fardel_owner s global_id with
      | .error e => .error e
      | .ok owner =>
        if owner = env.message_sender then
          .ok (unhide_fardel s global_id,
            { messages := [], status := .success, msg := none })
        else
          .ok (s, failResp "You are not the owner of that fardel.")
  | .error _ => .ok (s, failResp "No Fardel with given id.")

/-- `try_remove_fardel` (admin only; `removed` selects remove / unremove). -/
def try_remove_fardel (s : State) (env : Env) (fardel_hash : Nat) (removed : Bool) :
    StdResult (State × HandleResponse) :=
  if env.message_sender ≠ s.constants.admin then
    .error .unauthorized
  else
    match get_fardel_by_hash s fardel_hash with
    | .ok _ =>
      match get_global_id_by_hash s fardel_hash with
      | .error e => .error e
      | .ok global_id =>
        if removed then
          .ok (remove_fardel s global_id,
            { messages := [], status := .success, msg := none })
        else
          .ok (unremove_fardel s global_id,
            { messages := [], status := .success, msg := none })
    | .error _ => .ok (s, failResp "No Fardel with given id.")

/-! ## The system's operations and reachable states

One serialized host transaction per operation: an `Err` (or a panic) reverts
every storage write, a response — `Success` or `Failure` — commits them. -/

/-- One invocation of a mutating engine entry point.  `carry` is `store_fardel`
(the creation core of `try_carry_fardel`; the surrounding size/price
validation only rejects — making creation unconditional here only enlarges the
reachable state set).  `ban` / `deactivate` / `blockAcct` are the
external-collaborator toggles read by `try_unpack_fardel` step 1. -/
inductive Op where
  | carry (env : Env) (hash_id : Nat) (public_message : String) (tags : List String)
      (contents_data : String) (cost countable : Nat) (approval_req : Bool)
      (seal_time : Nat) : Op
  | unpack (env : Env) (fardel_hash : Nat) : Op
  | approve (env : Env) (number : Option Int) : Op
  | cancel (env : Env) (fardel_hash : Nat) : Op
  | sealF (env : Env) (fardel_hash : Nat) : Op
  | hideF (env : Env) (fardel_hash : Nat) : Op
  | unhideF (env : Env) (fardel_hash : Nat) : Op
  | removeF (env : Env) (fardel_hash : Nat) (removed : Bool) : Op
  | ban (account : Addr) (b : Bool) : Op
  | deactivate (account : Addr) (b : Bool) : Op
  | blockAcct (blocker blocked : Addr) (b : Bool) : Op

/-- Run one operation against the state: commit the new state on a response,
keep the old state on a reverted error or panic. -/
def execOp (s : State) : Op → State
  | .carry env hash_id public_message tags contents_data cost countable approval_req
      seal_time =>
    (store_fardel s hash_id env.message_sender public_message tags contents_data cost
      countable approval_req seal_time env.block_time).1
  | .unpack env fardel_hash =>
    match try_unpack_fardel s env fardel_hash with
    | some (.ok res) => res.1
    | _ => s
  | .approve env number =>
    match try_approve_pending_unpacks s env number with
    | .ok res => res.1
    | .error _ => s
  | .cancel env fardel_hash =>
    match try_cancel_pending s env fardel_hash with
    | .ok res => res.1
    | .error _ => s
  | .sealF env fardel_hash =>
    match try_seal_fardel s env fardel_hash with
    | .ok res => res.1
    | .error _ => s
  | .hideF env fardel_hash =>
    match try_hide_fardel s env fardel_hash with
    | .ok res => res.1
    | .error _ => s
  | .unhideF env fardel_hash =>
    match try_unhide_fardel s env fardel_hash with
    | .ok res => res.1
    | .error _ => s
  | .removeF env fardel_hash removed =>
    match try_remove_fardel s env fardel_hash removed with
    | .ok res => res.1
    | .error _ => s
  | .ban account b => store_account_ban s account b
  | .deactivate account b => store_account_deactivated s account b
  | .blockAcct blocker blocked b => store_account_block s blocker blocked b

/-- The state right after `init`: empty storage, configured constants. -/
def initState (c : Constants) : State :=
  { fardels := [], idFardelMapping := [], hashIdMapping := [], fardelCount := 0,
    numUnpacks := [], sealedMap := [], hiddenMap := [], removedMap := [],
    unpackedLog := [], unpackedMap := [], pendingQueue := [], pendingStartMap := [],
    myPendingMap := [], bannedMap := [], deactivatedMap := [], blockedMap := [],
    constants := c }

/-- States reachable from `initState c` by running operations. -/
inductive Reachable (c : Constants) : State → Prop where
  | init : Reachable c (initState c)
  | step {s : State} (op : Op) : Reachable c s → Reachable c (execOp s op)

/-! ## Claim C9: `try_unpack_fardel` aborts exactly on empty attached funds -/

/-- C9.  `try_unpack_fardel` indexes `sent_funds[0]` unconditionally: with an
empty attached-funds list evaluation aborts (the `none` outcome, the modelled
out-of-bounds panic) and no typed `Failure` response is produced; with at
least one coin attached the function always evaluates to an outcome.  So the
function is total exactly under the precondition that at least one coin is
sent. -/
theorem unpack_panics_iff_no_funds (s : State) (env : Env) (fardel_hash : Nat) :
    try_unpack_fardel s env fardel_hash = none ↔ env.sent_funds = [] := by
  unfold try_unpack_fardel
  cases env.sent_funds <;> simp

/-! ## Branch-by-branch evaluation of `try_unpack_fardel`

One lemma per outcome of the check chain, each under the guards that steer
evaluation into that branch.  These drive every later proof about
`try_unpack_fardel`. -/

@[simp]
theorem store_unpack_constants (s : State) (u : Addr) (fid : Nat) :
    (store_unpack s u fid).constants = s.constants := rfl

@[simp]
theorem store_pending_unpack_constants (s : State) (o u : Addr) (fid : Nat) (c : Coin)
    (t : Nat) : (store_pending_unpack s o u fid c t).constants = s.constants := rfl

@[simp]
theorem increment_fardel_unpack_count_constants (s : State) (fid : Nat) :
    (increment_fardel_unpack_count s fid).constants = s.constants := rfl

section UnpackEval

variable (s : State) (env : Env) (fardel_hash : Nat) (coin0 : Coin) (rest : List Coin)

theorem unpack_eval_wrong_denom (henv : env.sent_funds = coin0 :: rest)
    (hden : coin0.denom ≠ DENOM) :
    try_unpack_fardel s env fardel_hash = some (.ok (s, failResp "Wrong denomination.")) := by
  unfold try_unpack_fardel
  rw [henv]
  simp [hden]

theorem unpack_eval_not_found (henv : env.sent_funds = coin0 :: rest)
    (hden : coin0.denom = DENOM) (e : StdErr)
    (hfar : get_fardel_by_hash s fardel_hash = .error e) :
    try_unpack_fardel s env fardel_hash =
      some (.ok (s, failResp "Fardel is not available to unpack.")) := by
  unfold try_unpack_fardel
  rw [henv]
  simp [hden, hfar]

theorem unpack_eval_not_found_none (henv : env.sent_funds = coin0 :: rest)
    (hden : coin0.denom = DENOM)
    (hfar : get_fardel_by_hash s fardel_hash = .ok none) :
    try_unpack_fardel s env fardel_hash =
      some (.ok (s, failResp "Fardel is not available to unpack.")) := by
  unfold try_unpack_fardel
  rw [henv]
  simp [hden, hfar]

variable (f : StoredFardel)

theorem unpack_eval_no_owner (henv : env.sent_funds = coin0 :: rest)
    (hden : coin0.denom = DENOM)
    (hfar : get_fardel_by_hash s fardel_hash = .ok (some f)) (e : StdErr)
    (hown : get_fardel_owner s f.global_id = .error e) :
    try_unpack_fardel s env fardel_hash = some (.error e) := by
  unfold try_unpack_fardel
  rw [henv]
  simp [hden, hfar, hown]

variable (owner : Addr)

theorem unpack_eval_blocked (henv : env.sent_funds = coin0 :: rest)
    (hden : coin0.denom = DENOM)
    (hfar : get_fardel_by_hash s fardel_hash = .ok (some f))
    (hown : get_fardel_owner s f.global_id = .ok owner)
    (hblk : (is_banned s owner || is_deactivated s owner
      || is_blocked_by s owner env.message_sender) = true) :
    try_unpack_fardel s env fardel_hash = some (.error .unauthorized) := by
  unfold try_unpack_fardel
  rw [henv]
  simp [hden, hfar, hown, hblk]

theorem unpack_eval_already_unpacked (henv : env.sent_funds = coin0 :: rest)
    (hden : coin0.denom = DENOM)
    (hfar : get_fardel_by_hash s fardel_hash = .ok (some f))
    (hown : get_fardel_owner s f.global_id = .ok owner)
    (hblk : (is_banned s owner || is_deactivated s owner
      || is_blocked_by s owner env.message_sender) = false)
    (hunp : (get_unpacked_status_by_fardel_id s env.message_sender
      f.global_id).unpacked = true) :
    try_unpack_fardel s env fardel_hash =
      some (.ok (s, failResp "You have already unpacked this fardel.")) := by
  unfold try_unpack_fardel
  rw [henv]
  simp [hden, hfar, hown, hblk, hunp]

theorem unpack_eval_already_pending (henv : env.sent_funds = coin0 :: rest)
    (hden : coin0.denom = DENOM)
    (hfar : get_fardel_by_hash s fardel_hash = .ok (some f))
    (hown : get_fardel_owner s f.global_id = .ok owner)
    (hblk : (is_banned s owner || is_deactivated s owner
      || is_blocked_by s owner env.message_sender) = false)
    (hunp : (get_unpacked_status_by_fardel_id s env.message_sender
      f.global_id).unpacked = false)
    (hpen : (get_pending_unpacked_status_by_fardel_id s env.message_sender
      f.global_id).value = true) :
    try_unpack_fardel s env fardel_hash =
      some (.ok (s, failResp "You have a currently pending unpack for this fardel.")) := by
  unfold try_unpack_fardel
  rw [henv]
  simp [hden, hfar, hown, hblk, hunp, hpen]

theorem unpack_eval_sealed (henv : env.sent_funds = coin0 :: rest)
    (hden : coin0.denom = DENOM)
    (hfar : get_fardel_by_hash s fardel_hash = .ok (some f))
    (hown : get_fardel_owner s f.global_id = .ok owner)
    (hblk : (is_banned s owner || is_deactivated s owner
      || is_blocked_by s owner env.message_sender) = false)
    (hunp : (get_unpacked_status_by_fardel_id s env.message_sender
      f.global_id).unpacked = false)
    (hpen : (get_pending_unpacked_status_by_fardel_id s env.message_sender
      f.global_id).value = false)
    (hsea : get_sealed_status s f.global_id = true) :
    try_unpack_fardel s env fardel_hash =
      some (.ok (s, failResp "Fardel has been sealed.")) := by
  unfold try_unpack_fardel
  rw [henv]
  simp [hden, hfar, hown, hblk, hunp, hpen, hsea]

theorem unpack_eval_expired (henv : env.sent_funds = coin0 :: rest)
    (hden : coin0.denom = DENOM)
    (hfar : get_fardel_by_hash s fardel_hash = .ok (some f))
    (hown : get_fardel_owner s f.global_id = .ok owner)
    (hblk : (is_banned s owner || is_deactivated s owner
      || is_blocked_by s owner env.message_sender) = false)
    (hunp : (get_unpacked_status_by_fardel_id s env.message_sender
      f.global_id).unpacked = false)
    (hpen : (get_pending_unpacked_status_by_fardel_id s env.message_sender
      f.global_id).value = false)
    (hsea : get_sealed_status s f.global_id = false)
    (hexp : 0 < f.seal_time ∧ f.seal_time < env.block_time) :
    try_unpack_fardel s env fardel_hash =
      some (.ok (seal_fardel s f.global_id, failResp "Fardel has been sealed.")) := by
  unfold try_unpack_fardel
  rw [henv]
  simp [hden, hfar, hown, hblk, hunp, hpen, hsea, hexp]

theorem unpack_eval_sold_out (henv : env.sent_funds = coin0 :: rest)
    (hden : coin0.denom = DENOM)
    (hfar : get_fardel_by_hash s fardel_hash = .ok (some f))
    (hown : get_fardel_owner s f.global_id = .ok owner)
    (hblk : (is_banned s owner || is_deactivated s owner
      || is_blocked_by s owner env.message_sender) = false)
    (hunp : (get_unpacked_status_by_fardel_id s env.message_sender
      f.global_id).unpacked = false)
    (hpen : (get_pending_unpacked_status_by_fardel_id s env.message_sender
      f.global_id).value = false)
    (hsea : get_sealed_status s f.global_id = false)
    (hexp : ¬(0 < f.seal_time ∧ f.seal_time < env.block_time))
    (hsold : sold_out s f = true) :
    try_unpack_fardel s env fardel_hash =
      some (.ok ((if f.approval_req then s else seal_fardel s f.global_id),
        failResp "Fardel is sold out.")) := by
  unfold try_unpack_fardel
  rw [henv]
  simp [hden, hfar, hown, hblk, hunp, hpen, hsea, hexp, hsold]

theorem unpack_eval_payment_mismatch (henv : env.sent_funds = coin0 :: rest)
    (hden : coin0.denom = DENOM)
    (hfar : get_fardel_by_hash s fardel_hash = .ok (some f))
    (hown : get_fardel_owner s f.global_id = .ok owner)
    (hblk : (is_banned s owner || is_deactivated s owner
      || is_blocked_by s owner env.message_sender) = false)
    (hunp : (get_unpacked_status_by_fardel_id s env.message_sender
      f.global_id).unpacked = false)
    (hpen : (get_pending_unpacked_status_by_fardel_id s env.message_sender
      f.global_id).value = false)
    (hsea : get_sealed_status s f.global_id = false)
    (hexp : ¬(0 < f.seal_time ∧ f.seal_time < env.block_time))
    (hsold : sold_out s f = false)
    (hamt : coin0.amount ≠ f.cost) :
    try_unpack_fardel s env fardel_hash =
      some (.ok (s, failResp "Didn't send correct amount of coins to unpack.")) := by
  unfold try_unpack_fardel
  rw [henv]
  simp [hden, hfar, hown, hblk, hunp, hpen, hsea, hexp, hsold, hamt]

theorem unpack_eval_pending_path (henv : env.sent_funds = coin0 :: rest)
    (hden : coin0.denom = DENOM)
    (hfar : get_fardel_by_hash s fardel_hash = .ok (some f))
    (hown : get_fardel_owner s f.global_id = .ok owner)
    (hblk : (is_banned s owner || is_deactivated s owner
      || is_blocked_by s owner env.message_sender) = false)
    (hunp : (get_unpacked_status_by_fardel_id s env.message_sender
      f.global_id).unpacked = false)
    (hpen : (get_pending_unpacked_status_by_fardel_id s env.message_sender
      f.global_id).value = false)
    (hsea : get_sealed_status s f.global_id = false)
    (hexp : ¬(0 < f.seal_time ∧ f.seal_time < env.block_time))
    (hsold : sold_out s f = false)
    (hamt : coin0.amount = f.cost)
    (happ : f.approval_req = true) :
    try_unpack_fardel s env fardel_hash =
      some (.ok (increment_fardel_unpack_count
          (store_pending_unpack s owner env.message_sender f.global_id coin0
            env.block_time) f.global_id,
        { messages := [], status := .success,
          msg := some "Fardel unpack is pending approval by owner." })) := by
  unfold try_unpack_fardel
  rw [henv]
  simp [hden, hfar, hown, hblk, hunp, hpen, hsea, hexp, hsold, hamt, happ]

theorem unpack_eval_settle_err (henv : env.sent_funds = coin0 :: rest)
    (hden : coin0.denom = DENOM)
    (hfar : get_fardel_by_hash s fardel_hash = .ok (some f))
    (hown : get_fardel_owner s f.global_id = .ok owner)
    (hblk : (is_banned s owner || is_deactivated s owner
      || is_blocked_by s owner env.message_sender) = false)
    (hunp : (get_unpacked_status_by_fardel_id s env.message_sender
      f.global_id).unpacked = false)
    (hpen : (get_pending_unpacked_status_by_fardel_id s env.message_sender
      f.global_id).value = false)
    (hsea : get_sealed_status s f.global_id = false)
    (hexp : ¬(0 < f.seal_time ∧ f.seal_time < env.block_time))
    (hsold : sold_out s f = false)
    (hamt : coin0.amount = f.cost)
    (happ : f.approval_req = false) (e : StdErr)
    (hsettle : settleCalc s.constants f.cost = .error e) :
    try_unpack_fardel s env fardel_hash = some (.error e) := by
  unfold try_unpack_fardel
  rw [henv]
  simp [hden, hfar, hown, hblk, hunp, hpen, hsea, hexp, hsold, hamt, happ, hsettle]

theorem unpack_eval_direct_path (henv : env.sent_funds = coin0 :: rest)
    (hden : coin0.denom = DENOM)
    (hfar : get_fardel_by_hash s fardel_hash = .ok (some f))
    (hown : get_fardel_owner s f.global_id = .ok owner)
    (hblk : (is_banned s owner || is_deactivated s owner
      || is_blocked_by s owner env.message_sender) = false)
    (hunp : (get_unpacked_status_by_fardel_id s env.message_sender
      f.global_id).unpacked = false)
    (hpen : (get_pending_unpacked_status_by_fardel_id s env.message_sender
      f.global_id).value = false)
    (hsea : get_sealed_status s f.global_id = false)
    (hexp : ¬(0 < f.seal_time ∧ f.seal_time < env.block_time))
    (hsold : sold_out s f = false)
    (hamt : coin0.amount = f.cost)
    (happ : f.approval_req = false) (pc : Nat × Nat)
    (hsettle : settleCalc s.constants f.cost = .ok pc) :
    try_unpack_fardel s env fardel_hash =
      some (.ok (increment_fardel_unpack_count
          (store_unpack s env.message_sender f.global_id) f.global_id,
        { messages :=
            { from_address := env.contract_address, to_address := owner,
              amount := [{ denom := DENOM, amount := pc.1 }] } ::
            (if 0 < pc.2 then
              [{ from_address := env.contract_address, to_address := s.constants.admin,
                 amount := [{ denom := DENOM, amount := pc.2 }] }]
            else []),
          status := .success, msg := none,
          contents_data := some f.contents_data })) := by
  unfold try_unpack_fardel
  rw [henv]
  simp [hden, hfar, hown, hblk, hunp, hpen, hsea, hexp, hsold, hamt, happ, hsettle]

end UnpackEval

/-- Frame property of every committed rejection of `try_unpack_fardel`: the
response carries no messages, and no storage namespace changes except
(possibly) the sealed latch, which can only be set. -/
theorem unpack_failure_frame (s : State) (env : Env) (fardel_hash : Nat)
    (s' : State) (resp : HandleResponse)
    (heq : try_unpack_fardel s env fardel_hash = some (.ok (s', resp)))
    (hfail : resp.status = .failure) :
    resp.messages = [] ∧
    s'.fardels = s.fardels ∧ s'.idFardelMapping = s.idFardelMapping ∧
    s'.hashIdMapping = s.hashIdMapping ∧ s'.fardelCount = s.fardelCount ∧
    s'.numUnpacks = s.numUnpacks ∧ s'.hiddenMap = s.hiddenMap ∧
    s'.removedMap = s.removedMap ∧ s'.unpackedLog = s.unpackedLog ∧
    s'.unpackedMap = s.unpackedMap ∧ s'.pendingQueue = s.pendingQueue ∧
    s'.pendingStartMap = s.pendingStartMap ∧ s'.myPendingMap = s.myPendingMap ∧
    s'.bannedMap = s.bannedMap ∧ s'.deactivatedMap = s.deactivatedMap ∧
    s'.blockedMap = s.blockedMap ∧ s'.constants = s.constants ∧
    (s'.sealedMap = s.sealedMap ∨
      ∃ g, s'.sealedMap = kvSet s.sealedMap g true) := by
  cases henv : env.sent_funds with
  | nil =>
    unfold try_unpack_fardel at heq
    rw [henv] at heq
    simp at heq
  | cons coin0 rest =>
    by_cases hden : coin0.denom = DENOM
    case neg =>
      rw [unpack_eval_wrong_denom s env fardel_hash coin0 rest henv hden] at heq
      simp only [Option.some.injEq, Except.ok.injEq, Prod.mk.injEq] at heq
      obtain ⟨rfl, rfl⟩ := heq
      simp [failResp]
    case pos =>
    rcases hfar : get_fardel_by_hash s fardel_hash with e | fopt
    · rw [unpack_eval_not_found s env fardel_hash coin0 rest henv hden e hfar] at heq
      simp only [Option.some.injEq, Except.ok.injEq, Prod.mk.injEq] at heq
      obtain ⟨rfl, rfl⟩ := heq
      simp [failResp]
    rcases fopt with _ | f
    · rw [unpack_eval_not_found_none s env fardel_hash coin0 rest henv hden hfar] at heq
      simp only [Option.some.injEq, Except.ok.injEq, Prod.mk.injEq] at heq
      obtain ⟨rfl, rfl⟩ := heq
      simp [failResp]
    rcases hown : get_fardel_owner s f.global_id with e | owner
    · rw [unpack_eval_no_owner s env fardel_hash coin0 rest f henv hden hfar e hown] at heq
      simp at heq
    cases hblk : (is_banned s owner || is_deactivated s owner
        || is_blocked_by s owner env.message_sender)
    case true =>
      rw [unpack_eval_blocked s env fardel_hash coin0 rest f owner henv hden hfar hown
        hblk] at heq
      simp at heq
    case false =>
    cases hunp : (get_unpacked_status_by_fardel_id s env.message_sender
        f.global_id).unpacked
    case true =>
      rw [unpack_eval_already_unpacked s env fardel_hash coin0 rest f owner henv hden hfar
        hown hblk hunp] at heq
      simp only [Option.some.injEq, Except.ok.injEq, Prod.mk.injEq] at heq
      obtain ⟨rfl, rfl⟩ := heq
      simp [failResp]
    case false =>
    cases hpen : (get_pending_unpacked_status_by_fardel_id s env.message_sender
        f.global_id).value
    case true =>
      rw [unpack_eval_already_pending s env fardel_hash coin0 rest f owner henv hden hfar
        hown hblk hunp hpen] at heq
      simp only [Option.some.injEq, Except.ok.injEq, Prod.mk.injEq] at heq
      obtain ⟨rfl, rfl⟩ := heq
      simp [failResp]
    case false =>
    cases hsea : get_sealed_status s f.global_id
    case true =>
      rw [unpack_eval_sealed s env fardel_hash coin0 rest f owner henv hden hfar hown hblk
        hunp hpen hsea] at heq
      simp only [Option.some.injEq, Except.ok.injEq, Prod.mk.injEq] at heq
      obtain ⟨rfl, rfl⟩ := heq
      simp [failResp]
    case false =>
    by_cases hexp : 0 < f.seal_time ∧ f.seal_time < env.block_time
    case pos =>
      rw [unpack_eval_expired s env fardel_hash coin0 rest f owner henv hden hfar hown hblk
        hunp hpen hsea hexp] at heq
      simp only [Option.some.injEq, Except.ok.injEq, Prod.mk.injEq] at heq
      obtain ⟨rfl, rfl⟩ := heq
      refine ⟨by simp [failResp], rfl, rfl, rfl, rfl, rfl, rfl, rfl, rfl, rfl, rfl, rfl,
        rfl, rfl, rfl, rfl, rfl, Or.inr ⟨f.global_id, rfl⟩⟩
    case neg =>
    cases hsold : sold_out s f
    case true =>
      rw [unpack_eval_sold_out s env fardel_hash coin0 rest f owner henv hden hfar hown
        hblk hunp hpen hsea hexp hsold] at heq
      cases happ : f.approval_req
      case true =>
        rw [happ] at heq
        simp only [if_true, Option.some.injEq, Except.ok.injEq, Prod.mk.injEq] at heq
        obtain ⟨rfl, rfl⟩ := heq
        simp [failResp]
      case false =>
        rw [happ] at heq
        simp only [if_false, Option.some.injEq, Except.ok.injEq, Prod.mk.injEq] at heq
        obtain ⟨rfl, rfl⟩ := heq
        refine ⟨by simp [failResp], rfl, rfl, rfl, rfl, rfl, rfl, rfl, rfl, rfl, rfl, rfl,
          rfl, rfl, rfl, rfl, rfl, Or.inr ⟨f.global_id, rfl⟩⟩
    case false =>
    by_cases hamt : coin0.amount = f.cost
    case neg =>
      rw [unpack_eval_payment_mismatch s env fardel_hash coin0 rest f owner henv hden hfar
        hown hblk hunp hpen hsea hexp hsold hamt] at heq
      simp only [Option.some.injEq, Except.ok.injEq, Prod.mk.injEq] at heq
      obtain ⟨rfl, rfl⟩ := heq
      simp [failResp]
    case pos =>
    cases happ : f.approval_req
    case true =>
      rw [unpack_eval_pending_path s env fardel_hash coin0 rest f owner henv hden hfar hown
        hblk hunp hpen hsea hexp hsold hamt happ] at heq
      simp only [Option.some.injEq, Except.ok.injEq, Prod.mk.injEq] at heq
      obtain ⟨rfl, rfl⟩ := heq
      simp at hfail
    case false =>
    rcases hsettle : settleCalc s.constants f.cost with e | pc
    · rw [unpack_eval_settle_err s env fardel_hash coin0 rest f owner henv hden hfar hown
        hblk hunp hpen hsea hexp hsold hamt happ e hsettle] at heq
      simp at heq
    · rw [unpack_eval_direct_path s env fardel_hash coin0 rest f owner henv hden hfar hown
        hblk hunp hpen hsea hexp hsold hamt happ pc hsettle] at heq
      simp only [Option.some.injEq, Except.ok.injEq, Prod.mk.injEq] at heq
      obtain ⟨rfl, rfl⟩ := heq
      simp at hfail

/-! ## Concrete fixtures

A configured engine (operator account `0`, the default 3/1000 commission
rate), an owner account `1`, purchasers `2` and `3`, the contract at
address `99`. -/

/-- The default commission rate of `validation.rs` (3/1000). -/
def default_transaction_fee : Fee :=
  { commission_rate_nom := 3, commission_rate_denom := 1000 }

def testConstants : Constants := { admin := 0, transaction_fee := default_transaction_fee }

/-- A call envelope from `sender` carrying `amt` uscrt at logical time `t`. -/
def callEnv (sender amt t : Nat) : Env :=
  { message_sender := sender, sent_funds := [{ denom := DENOM, amount := amt }],
    block_time := t, contract_address := 99 }

/-! ## Claim C10: rejected unpacks return no bank messages -/

/-- C10.  Whenever `try_unpack_fardel` commits a `Failure` response — wrong
denomination, unresolvable id, already unpacked, already pending, sealed,
expired, sold out, or wrong payment amount — that response carries no bank
messages at all: the coins sent with the rejected call are not refunded by the
engine (the source's refund branch is guarded by `status == Success` and is
unreachable, since `status` is still `Success` when it is tested). -/
theorem rejected_unpack_has_no_messages (s : State) (env : Env) (fardel_hash : Nat)
    (s' : State) (resp : HandleResponse)
    (heq : try_unpack_fardel s env fardel_hash = some (.ok (s', resp)))
    (hfail : resp.status = .failure) : resp.messages = [] :=
  (unpack_failure_frame s env fardel_hash s' resp heq hfail).1

/-- The state after creating a one-unit, direct-settlement listing (public id
7, price 100) and selling its only unit to purchaser 2. -/
def soldOutState : State :=
  execOp (execOp (initState testConstants)
    (.carry (callEnv 1 100 1) 7 "pm" [] "secret" 100 1 false 0))
    (.unpack (callEnv 2 100 2) 7)

/-- Witness for C10: the concrete sold-out rejection of purchaser 3 in the
one-unit direct-sale scenario returns no messages. -/
theorem rejected_unpack_has_no_messages_witness :
    try_unpack_fardel soldOutState (callEnv 3 100 3) 7 =
      some (.ok (seal_fardel soldOutState 0, failResp "Fardel is sold out.")) ∧
    (failResp "Fardel is sold out.").status = .failure ∧
    (failResp "Fardel is sold out.").messages = [] :=
  ⟨rfl, rfl,
    rejected_unpack_has_no_messages soldOutState (callEnv 3 100 3) 7
      (seal_fardel soldOutState 0) (failResp "Fardel is sold out.")
      rfl rfl⟩

/-! ## Claim C7: what a rejected unpack leaves behind -/

/-- C7, amended.  Every rejected (`Failure`) `request_unpack` takes no
reservation (`units_consumed` unchanged), appends no pending queue entry,
writes no pending marker, no Unpack Record and no other storage — with the
one exception that a `Sealed`-by-expiry or `SoldOut` rejection may latch the
listing's sealed flag to `true` (the spec's own lazy-expiry / sold-out
latch).  Reverted (`Err`) outcomes discard all writes by the host's
transaction semantics (`execOp`). -/
theorem rejected_unpack_state_frame (s : State) (env : Env) (fardel_hash : Nat)
    (s' : State) (resp : HandleResponse)
    (heq : try_unpack_fardel s env fardel_hash = some (.ok (s', resp)))
    (hfail : resp.status = .failure) :
    s'.numUnpacks = s.numUnpacks ∧ s'.pendingQueue = s.pendingQueue ∧
    s'.myPendingMap = s.myPendingMap ∧ s'.pendingStartMap = s.pendingStartMap ∧
    s'.unpackedLog = s.unpackedLog ∧ s'.unpackedMap = s.unpackedMap ∧
    s'.fardels = s.fardels ∧ s'.idFardelMapping = s.idFardelMapping ∧
    s'.hashIdMapping = s.hashIdMapping ∧ s'.fardelCount = s.fardelCount ∧
    s'.hiddenMap = s.hiddenMap ∧ s'.removedMap = s.removedMap ∧
    s'.bannedMap = s.bannedMap ∧ s'.deactivatedMap = s.deactivatedMap ∧
    s'.blockedMap = s.blockedMap ∧ s'.constants = s.constants ∧
    (s'.sealedMap = s.sealedMap ∨ ∃ g, s'.sealedMap = kvSet s.sealedMap g true) := by
  obtain ⟨-, h1, h2, h3, h4, h5, h6, h7, h8, h9, h10, h11, h12, h13, h14, h15, h16, h17⟩ :=
    unpack_failure_frame s env fardel_hash s' resp heq hfail
  exact ⟨h5, h10, h12, h11, h8, h9, h1, h2, h3, h4, h6, h7, h13, h14, h15, h16, h17⟩

/-- Witness for the amended C7: the sold-out rejection of purchaser 3 changes
no storage except the sealed latch. -/
theorem rejected_unpack_state_frame_witness :
    (seal_fardel soldOutState 0).numUnpacks = soldOutState.numUnpacks ∧
    (seal_fardel soldOutState 0).pendingQueue = soldOutState.pendingQueue ∧
    (seal_fardel soldOutState 0).myPendingMap = soldOutState.myPendingMap := by
  obtain ⟨h1, h2, h3, -⟩ :=
    rejected_unpack_state_frame soldOutState (callEnv 3 100 3) 7
      (seal_fardel soldOutState 0) (failResp "Fardel is sold out.") rfl rfl
  exact ⟨h1, h2, h3⟩

/-- A listing with `seal_deadline = 5`, still open at creation time 1. -/
def expiryState : State :=
  execOp (initState testConstants) (.carry (callEnv 1 100 1) 9 "pm" [] "secret" 100 0 false 5)

/-- Counterexample to C7 as stated: at logical time 10 the deadline has
passed, so purchaser 2's `request_unpack` is rejected (`Failure`, "Fardel has
been sealed.") — yet the storage state after the call differs from the state
before it: the rejection itself latches `sealed = true`. -/
theorem rejected_unpack_changes_state :
    try_unpack_fardel expiryState (callEnv 2 100 10) 9 =
      some (.ok (seal_fardel expiryState 0, failResp "Fardel has been sealed.")) ∧
    (failResp "Fardel has been sealed.").status = .failure ∧
    seal_fardel expiryState 0 ≠ expiryState ∧
    get_sealed_status expiryState 0 = false ∧
    get_sealed_status (seal_fardel expiryState 0) 0 = true :=
  ⟨rfl, rfl, by decide, by decide, by decide⟩

/-! ## Claim C2: where the payment check sits -/

/-- The state after creating an unlimited direct-settlement listing (public id
7, price 100) and settling one unlock for purchaser 2. -/
def unpackedState : State :=
  execOp (execOp (initState testConstants)
    (.carry (callEnv 1 100 1) 7 "pm" [] "secret" 100 0 false 0))
    (.unpack (callEnv 2 100 2) 7)

/-- Counterexample to C2 as stated: purchaser 2 has already unpacked listing 7
and now pays 55 instead of the price 100.  The claim says a wrong payment is
rejected with `PaymentMismatch` *regardless of the purchaser's unpacked
state*; the code instead answers `AlreadyUnpacked`, because the payment check
is the last check of the chain, not the second. -/
theorem wrong_payment_after_unpack_gets_already_unpacked :
    try_unpack_fardel unpackedState (callEnv 2 55 3) 7 =
      some (.ok (unpackedState, failResp "You have already unpacked this fardel.")) ∧
    failResp "You have already unpacked this fardel." ≠
      failResp "Didn't send correct amount of coins to unpack." :=
  ⟨rfl, by decide⟩

/-- C2, amended.  The `PaymentMismatch` check sits at the *end* of the check
chain, not at step 2: a call whose `paid_amount` differs from the listing's
price is rejected with the payment-mismatch failure (and no state change)
only when the identification, denomination, block, already-unpacked,
already-pending, sealed, expiry and sold-out checks have all passed first. -/
theorem payment_mismatch_is_last_check (s : State) (env : Env) (fardel_hash : Nat)
    (coin0 : Coin) (rest : List Coin) (f : StoredFardel) (owner : Addr)
    (henv : env.sent_funds = coin0 :: rest)
    (hden : coin0.denom = DENOM)
    (hfar : get_fardel_by_hash s fardel_hash = .ok (some f))
    (hown : get_fardel_owner s f.global_id = .ok owner)
    (hblk : (is_banned s owner || is_deactivated s owner
      || is_blocked_by s owner env.message_sender) = false)
    (hunp : (get_unpacked_status_by_fardel_id s env.message_sender
      f.global_id).unpacked = false)
    (hpen : (get_pending_unpacked_status_by_fardel_id s env.message_sender
      f.global_id).value = false)
    (hsea : get_sealed_status s f.global_id = false)
    (hexp : ¬(0 < f.seal_time ∧ f.seal_time < env.block_time))
    (hsold : sold_out s f = false)
    (hamt : coin0.amount ≠ f.cost) :
    try_unpack_fardel s env fardel_hash =
      some (.ok (s, failResp "Didn't send correct amount of coins to unpack.")) :=
  unpack_eval_payment_mismatch s env fardel_hash coin0 rest f owner henv hden hfar hown
    hblk hunp hpen hsea hexp hsold hamt

/-- The fresh unlimited listing of the C2 scenario, before any purchase. -/
def freshListingState : State :=
  execOp (initState testConstants) (.carry (callEnv 1 100 1) 7 "pm" [] "secret" 100 0 false 0)

/-- The body that `carry` stores for the fixture listing. -/
def freshListingFardel : StoredFardel :=
  { global_id := 0, hash_id := 7, public_message := "pm", tags := [],
    contents_data := "secret", cost := 100, countable := 0, approval_req := false,
    seal_time := 0, timestamp := 1 }

/-- Witness for the amended C2: a fresh purchaser paying 55 for the 100-priced
listing is rejected with the payment-mismatch failure. -/
theorem payment_mismatch_is_last_check_witness :
    try_unpack_fardel freshListingState (callEnv 2 55 2) 7 =
      some (.ok (freshListingState,
        failResp "Didn't send correct amount of coins to unpack.")) :=
  payment_mismatch_is_last_check freshListingState (callEnv 2 55 2) 7
    { denom := DENOM, amount := 55 } [] freshListingFardel 1
    rfl rfl rfl rfl (by decide) (by decide) (by decide) (by decide)
    (by decide) (by decide) (by decide)

/-! ## Claims C1 and C3: settlement is not terminal

`try_approve_pending_unpacks` writes the Unpack Record and advances the
cursor, but neither marks the queue entry `canceled` nor clears the
purchaser's "currently pending" marker.  A purchaser can therefore cancel
*after* settlement: the cancel succeeds, refunds the escrowed amount, and
decrements `units_consumed` — after which the freed (phantom) unit can be
sold again, breaking inventory conservation. -/

/-- A one-unit, approval-required listing (public id 42, price 100). -/
def approvalListingState : State :=
  execOp (initState testConstants) (.carry (callEnv 1 100 1) 42 "pm" [] "secret" 100 1 true 0)

/-- ... after purchaser 2's pending request. -/
def pendingState : State :=
  execOp approvalListingState (.unpack (callEnv 2 100 2) 42)

/-- ... after the owner's batch approval settles that request. -/
def settledState : State :=
  execOp pendingState (.approve (callEnv 1 100 3) none)

/-- ... after purchaser 2 cancels *after settlement* (C1's failing input). -/
def cancelAfterSettleState : State :=
  execOp settledState (.cancel (callEnv 2 100 4) 42)

/-- The refund instruction the phantom cancel emits: 100 uscrt from the
contract back to purchaser 2. -/
def refundBankMsg : BankMsg :=
  { from_address := 99, to_address := 2, amount := [{ denom := DENOM, amount := 100 }] }

/-- C1 (code bug).  In `settledState` purchaser 2's request has been settled
by `approve_pending` (the Unpack Record exists and the reserved unit is still
consumed), yet the purchaser's pending marker is still set, so a subsequent
`cancel_pending` *succeeds*: it returns `Success`, emits a 100-uscrt refund to
the purchaser, decrements `units_consumed` from 1 to 0, and leaves the Unpack
Record in place — the settled purchaser keeps the unlock and gets the money
back, contradicting "both transitions are terminal and exclusive". -/
theorem cancel_after_settlement_succeeds :
    (get_unpacked_status_by_fardel_id settledState 2 0).unpacked = true ∧
    (get_pending_unpacked_status_by_fardel_id settledState 2 0).value = true ∧
    (get_fardel_unpack_count settledState 0).getD 0 = 1 ∧
    try_cancel_pending settledState (callEnv 2 100 4) 42 =
      .ok (cancelAfterSettleState,
        { messages := [refundBankMsg], status := .success, msg := none }) ∧
    (get_fardel_unpack_count cancelAfterSettleState 0).getD 0 = 0 ∧
    (get_unpacked_status_by_fardel_id cancelAfterSettleState 2 0).unpacked = true :=
  ⟨by decide, by decide, by decide, rfl, by decide, by decide⟩

/-- ... after purchaser 3 requests the unit freed by the phantom cancel. -/
def secondPendingState : State :=
  execOp cancelAfterSettleState (.unpack (callEnv 3 100 5) 42)

/-- ... after the owner's second batch approval settles purchaser 3 too. -/
def oversoldState : State :=
  execOp secondPendingState (.approve (callEnv 1 100 6) none)

/-- C3 (code bug).  The listing has `inventory_limit = 1`, but after the
settle-then-cancel sequence purchaser 3's `request_unpack` — the (N+1)th
non-canceled reservation request — is *accepted* as pending (not rejected
with `SoldOut`), and after the second approval two settled Unpack Records
exist for a one-unit listing: the settled-plus-pending count 2 exceeds N = 1,
violating inventory conservation. -/
theorem one_unit_listing_sold_twice :
    get_fardel_by_hash oversoldState 42 = .ok (some
      { global_id := 0, hash_id := 42, public_message := "pm", tags := [],
        contents_data := "secret", cost := 100, countable := 1, approval_req := true,
        seal_time := 0, timestamp := 1 }) ∧
    try_unpack_fardel cancelAfterSettleState (callEnv 3 100 5) 42 =
      some (.ok (secondPendingState,
        { messages := [], status := .success,
          msg := some "Fardel unpack is pending approval by owner." })) ∧
    (get_unpacked_status_by_fardel_id oversoldState 2 0).unpacked = true ∧
    (get_unpacked_status_by_fardel_id oversoldState 3 0).unpacked = true ∧
    kvGet oversoldState.unpackedLog 2 = some [{ fardel_id := 0 }] ∧
    kvGet oversoldState.unpackedLog 3 = some [{ fardel_id := 0 }] :=
  ⟨rfl, rfl, by decide, by decide, by decide, by decide⟩

/-! ## Claim C4: the commission split is exact and overflow-safe -/

/-- C4.  For every `u128` amount and every configured rate with
`nominator ≤ denominator` (and a nonzero denominator, without which no rate is
defined), the settlement block — the code duplicated verbatim on the
direct-settlement path (`exec.rs:1237-1258`) and the batch-approval path
(`exec.rs:1039-1061`), embedded once as `settleCalc` — widens to 256 bits
before multiplying, so `amount * nominator` cannot overflow; it computes
`commission = floor(amount * nominator / denominator)` and
`payment = amount - commission`, both exactly representable in `u128`
(`low_u128` narrows nothing away), with `payment + commission = amount`
exactly and `commission ≤ amount`. -/
theorem commission_split_exact (amount nom denom : Nat) (admin : Addr)
    (hAmt : amount < 2 ^ 128) (hNom : nom ≤ denom) (hDenPos : 0 < denom)
    (hDen : denom < 2 ^ 128) :
    U256Math.mul (some amount) (some nom) = some (amount * nom) ∧
    settleCalc { admin := admin, transaction_fee :=
        { commission_rate_nom := nom, commission_rate_denom := denom } } amount =
      .ok (amount - amount * nom / denom, amount * nom / denom) ∧
    (amount - amount * nom / denom) + amount * nom / denom = amount ∧
    amount * nom / denom ≤ amount := by
  have hcomm_le : amount * nom / denom ≤ amount := by
    have h1 : amount * nom / denom ≤ amount * denom / denom :=
      Nat.div_le_div_right (Nat.mul_le_mul_left _ hNom)
    simpa [Nat.mul_div_cancel _ hDenPos] using h1
  have hmul_lt : amount * nom < 2 ^ 256 := by
    have hn : nom < 2 ^ 128 := lt_of_le_of_lt hNom hDen
    calc amount * nom < 2 ^ 128 * 2 ^ 128 :=
          Nat.mul_lt_mul_of_lt_of_lt hAmt hn
      _ = 2 ^ 256 := by norm_num
  have hpay_lt : amount - amount * nom / denom < 2 ^ 128 :=
    lt_of_le_of_lt (Nat.sub_le _ _) hAmt
  have hcomm_lt : amount * nom / denom < 2 ^ 128 := lt_of_le_of_lt hcomm_le hAmt
  refine ⟨?_, ?_, Nat.sub_add_cancel hcomm_le, hcomm_le⟩
  · unfold U256Math.mul
    dsimp only
    rw [if_pos hmul_lt]
  · unfold settleCalc U256Math.mul U256Math.div U256Math.sub U256Math.low_u128
    dsimp only
    rw [if_pos hmul_lt]
    dsimp only
    rw [if_neg hDenPos.ne']
    dsimp only
    rw [if_pos hcomm_le]
    dsimp only
    rw [Nat.mod_eq_of_lt hpay_lt, Nat.mod_eq_of_lt hcomm_lt]

/-- Witness for C4 at the configured default rate: settling 1000 uscrt at
3/1000 pays 997 to the owner and 3 to the operator. -/
theorem commission_split_exact_witness :
    U256Math.mul (some 1000) (some 3) = some 3000 ∧
    settleCalc { admin := 0, transaction_fee := default_transaction_fee } 1000 =
      .ok (997, 3) ∧ 997 + 3 = 1000 ∧ (3 : Nat) ≤ 1000 := by
  have h := commission_split_exact 1000 3 1000 0 (by norm_num) (by norm_num)
    (by norm_num) (by norm_num)
  simpa [default_transaction_fee] using h

/-! ## Claim C8: the sealed flag is a one-way latch -/

theorem get_sealed_status_of_eq {s' s : State} (h : s'.sealedMap = s.sealedMap)
    (g : Nat) : get_sealed_status s' g = get_sealed_status s g := by
  unfold get_sealed_status
  rw [h]

theorem get_sealed_status_seal_mono (s : State) (x g : Nat)
    (h : get_sealed_status s g = true) :
    get_sealed_status (seal_fardel s x) g = true := by
  unfold get_sealed_status at h
  unfold get_sealed_status seal_fardel
  by_cases hx : g = x
  · subst hx
    simp [kvGet_kvSet_same]
  · rw [kvGet_kvSet_diff _ _ _ _ hx]
    exact h

@[simp]
theorem store_unpack_sealedMap (s : State) (u : Addr) (fid : Nat) :
    (store_unpack s u fid).sealedMap = s.sealedMap := rfl

@[simp]
theorem store_pending_unpack_sealedMap (s : State) (o u : Addr) (fid : Nat) (c : Coin)
    (t : Nat) : (store_pending_unpack s o u fid c t).sealedMap = s.sealedMap := rfl

@[simp]
theorem increment_fardel_unpack_count_sealedMap (s : State) (fid : Nat) :
    (increment_fardel_unpack_count s fid).sealedMap = s.sealedMap := rfl

@[simp]
theorem decrement_fardel_unpack_count_sealedMap (s : State) (fid : Nat) :
    (decrement_fardel_unpack_count s fid).sealedMap = s.sealedMap := by
  unfold decrement_fardel_unpack_count
  dsimp only
  split
  · rfl
  · rfl

@[simp]
theorem set_pending_start_sealedMap (s : State) (o : Addr) (i : Nat) :
    (set_pending_start s o i).sealedMap = s.sealedMap := rfl

@[simp]
theorem store_fardel_sealedMap (s : State) (h : Nat) (o : Addr) (pm : String)
    (tg : List String) (cd : String) (c n : Nat) (a : Bool) (st t : Nat) :
    (store_fardel s h o pm tg cd c n a st t).1.sealedMap = s.sealedMap := rfl

theorem cancel_pending_unpack_sealedMap (s : State) (o u : Addr) (fid : Nat)
    (s1 : State) (heq : cancel_pending_unpack s o u fid = .ok s1) :
    s1.sealedMap = s.sealedMap := by
  unfold cancel_pending_unpack at heq
  by_cases hv : (get_pending_unpacked_status_by_fardel_id s u fid).value
  · rw [if_pos hv] at heq
    rcases hga : get_pending_unpack_approval s o
        (get_pending_unpacked_status_by_fardel_id s u fid).pending_unpack_idx with e | ee
    · rw [hga] at heq
      simp at heq
    · rw [hga] at heq
      simp only [Except.ok.injEq] at heq
      subst heq
      rfl
  · rw [if_neg hv] at heq
    simp at heq

theorem approve_loop_sealedMap (c : Constants) (env : Env)
    (es : List PendingUnpackApproval) :
    ∀ (s : State) (msgs : List BankMsg) (tot : Nat)
      (r : State × List BankMsg × Nat),
      approve_loop c env es s msgs tot = .ok r → r.1.sealedMap = s.sealedMap := by
  induction es with
  | nil =>
    intro s msgs tot r heq
    unfold approve_loop at heq
    simp only [Except.ok.injEq] at heq
    subst heq
    rfl
  | cons e rest ih =>
    intro s msgs tot r heq
    unfold approve_loop at heq
    dsimp only at heq
    rcases hs : settleCalc c e.coin.amount with er | pc
    · rw [hs] at heq
      simp at heq
    · rw [hs] at heq
      dsimp only at heq
      have := ih _ _ _ _ heq
      simpa using this

theorem try_approve_sealedMap (s : State) (env : Env) (number : Option Int)
    (s' : State) (resp : HandleResponse)
    (heq : try_approve_pending_unpacks s env number = .ok (s', resp)) :
    s'.sealedMap = s.sealedMap := by
  unfold try_approve_pending_unpacks at heq
  by_cases hn : (number.getD 10) < 1
  · rw [if_pos hn] at heq
    simp only [Except.ok.injEq, Prod.mk.injEq] at heq
    obtain ⟨rfl, -⟩ := heq
    rfl
  · rw [if_neg hn] at heq
    dsimp only at heq
    rcases hloop : approve_loop s.constants env
        ((get_pending_approvals_from_start s env.message_sender
          (number.getD 10).toNat).filter (fun pu => !pu.canceled)) s [] 0 with e | r
    · rw [hloop] at heq
      simp at heq
    · rw [hloop] at heq
      dsimp only at heq
      simp only [Except.ok.injEq, Prod.mk.injEq] at heq
      obtain ⟨rfl, -⟩ := heq
      have := approve_loop_sealedMap s.constants env _ _ _ _ _ hloop
      simpa [set_pending_start] using this

theorem try_cancel_sealedMap (s : State) (env : Env) (fardel_hash : Nat)
    (s' : State) (resp : HandleResponse)
    (heq : try_cancel_pending s env fardel_hash = .ok (s', resp)) :
    s'.sealedMap = s.sealedMap := by
  unfold try_cancel_pending at heq
  rcases hgid : get_global_id_by_hash s fardel_hash with e | fid
  · rw [hgid] at heq; simp at heq
  rw [hgid] at heq
  dsimp only at heq
  rcases hown : get_fardel_owner s fid with e | owner
  · rw [hown] at heq; simp at heq
  rw [hown] at heq
  dsimp only at heq
  rcases hfar : get_fardel_by_global_id s fid with e | fopt
  · rw [hfar] at heq; simp at heq
  rw [hfar] at heq
  dsimp only at heq
  rcases hcan : cancel_pending_unpack s owner env.message_sender fid with e | s1
  · rw [hcan] at heq; simp at heq
  rw [hcan] at heq
  dsimp only at heq
  simp only [Except.ok.injEq, Prod.mk.injEq] at heq
  obtain ⟨rfl, -⟩ := heq
  rw [decrement_fardel_unpack_count_sealedMap]
  exact cancel_pending_unpack_sealedMap s owner env.message_sender fid s1 hcan

/-- Every committed outcome of `try_unpack_fardel` leaves the sealed map
unchanged or latches one listing to `true`. -/
theorem try_unpack_sealedMap (s : State) (env : Env) (fardel_hash : Nat)
    (s' : State) (resp : HandleResponse)
    (heq : try_unpack_fardel s env fardel_hash = some (.ok (s', resp))) :
    s'.sealedMap = s.sealedMap ∨ ∃ g, s'.sealedMap = kvSet s.sealedMap g true := by
  cases henv : env.sent_funds with
  | nil =>
    unfold try_unpack_fardel at heq
    rw [henv] at heq
    simp at heq
  | cons coin0 rest =>
    by_cases hden : coin0.denom = DENOM
    case neg =>
      rw [unpack_eval_wrong_denom s env fardel_hash coin0 rest henv hden] at heq
      simp only [Option.some.injEq, Except.ok.injEq, Prod.mk.injEq] at heq
      obtain ⟨rfl, -⟩ := heq
      exact Or.inl rfl
    case pos =>
    rcases hfar : get_fardel_by_hash s fardel_hash with e | fopt
    · rw [unpack_eval_not_found s env fardel_hash coin0 rest henv hden e hfar] at heq
      simp only [Option.some.injEq, Except.ok.injEq, Prod.mk.injEq] at heq
      obtain ⟨rfl, -⟩ := heq
      exact Or.inl rfl
    rcases fopt with _ | f
    · rw [unpack_eval_not_found_none s env fardel_hash coin0 rest henv hden hfar] at heq
      simp only [Option.some.injEq, Except.ok.injEq, Prod.mk.injEq] at heq
      obtain ⟨rfl, -⟩ := heq
      exact Or.inl rfl
    rcases hown : get_fardel_owner s f.global_id with e | owner
    · rw [unpack_eval_no_owner s env fardel_hash coin0 rest f henv hden hfar e hown] at heq
      simp at heq
    cases hblk : (is_banned s owner || is_deactivated s owner
        || is_blocked_by s owner env.message_sender)
    case true =>
      rw [unpack_eval_blocked s env fardel_hash coin0 rest f owner henv hden hfar hown
        hblk] at heq
      simp at heq
    case false =>
    cases hunp : (get_unpacked_status_by_fardel_id s env.message_sender
        f.global_id).unpacked
    case true =>
      rw [unpack_eval_already_unpacked s env fardel_hash coin0 rest f owner henv hden hfar
        hown hblk hunp] at heq
      simp only [Option.some.injEq, Except.ok.injEq, Prod.mk.injEq] at heq
      obtain ⟨rfl, -⟩ := heq
      exact Or.inl rfl
    case false =>
    cases hpen : (get_pending_unpacked_status_by_fardel_id s env.message_sender
        f.global_id).value
    case true =>
      rw [unpack_eval_already_pending s env fardel_hash coin0 rest f owner henv hden hfar
        hown hblk hunp hpen] at heq
      simp only [Option.some.injEq, Except.ok.injEq, Prod.mk.injEq] at heq
      obtain ⟨rfl, -⟩ := heq
      exact Or.inl rfl
    case false =>
    cases hsea : get_sealed_status s f.global_id
    case true =>
      rw [unpack_eval_sealed s env fardel_hash coin0 rest f owner henv hden hfar hown hblk
        hunp hpen hsea] at heq
      simp only [Option.some.injEq, Except.ok.injEq, Prod.mk.injEq] at heq
      obtain ⟨rfl, -⟩ := heq
      exact Or.inl rfl
    case false =>
    by_cases hexp : 0 < f.seal_time ∧ f.seal_time < env.block_time
    case pos =>
      rw [unpack_eval_expired s env fardel_hash coin0 rest f owner henv hden hfar hown hblk
        hunp hpen hsea hexp] at heq
      simp only [Option.some.injEq, Except.ok.injEq, Prod.mk.injEq] at heq
      obtain ⟨rfl, -⟩ := heq
      exact Or.inr ⟨f.global_id, rfl⟩
    case neg =>
    cases hsold : sold_out s f
    case true =>
      rw [unpack_eval_sold_out s env fardel_hash coin0 rest f owner henv hden hfar hown
        hblk hunp hpen hsea hexp hsold] at heq
      cases happ : f.approval_req
      case true =>
        rw [happ] at heq
        simp only [if_true, Option.some.injEq, Except.ok.injEq, Prod.mk.injEq] at heq
        obtain ⟨rfl, -⟩ := heq
        exact Or.inl rfl
      case false =>
        rw [happ] at heq
        simp only [if_false, Option.some.injEq, Except.ok.injEq, Prod.mk.injEq] at heq
        obtain ⟨rfl, -⟩ := heq
        exact Or.inr ⟨f.global_id, rfl⟩
    case false =>
    by_cases hamt : coin0.amount = f.cost
    case neg =>
      rw [unpack_eval_payment_mismatch s env fardel_hash coin0 rest f owner henv hden hfar
        hown hblk hunp hpen hsea hexp hsold hamt] at heq
      simp only [Option.some.injEq, Except.ok.injEq, Prod.mk.injEq] at heq
      obtain ⟨rfl, -⟩ := heq
      exact Or.inl rfl
    case pos =>
    cases happ : f.approval_req
    case true =>
      rw [unpack_eval_pending_path s env fardel_hash coin0 rest f owner henv hden hfar hown
        hblk hunp hpen hsea hexp hsold hamt happ] at heq
      simp only [Option.some.injEq, Except.ok.injEq, Prod.mk.injEq] at heq
      obtain ⟨rfl, -⟩ := heq
      exact Or.inl rfl
    case false =>
    rcases hsettle : settleCalc s.constants f.cost with e | pc
    · rw [unpack_eval_settle_err s env fardel_hash coin0 rest f owner henv hden hfar hown
        hblk hunp hpen hsea hexp hsold hamt happ e hsettle] at heq
      simp at heq
    · rw [unpack_eval_direct_path s env fardel_hash coin0 rest f owner henv hden hfar hown
        hblk hunp hpen hsea hexp hsold hamt happ pc hsettle] at heq
      simp only [Option.some.injEq, Except.ok.injEq, Prod.mk.injEq] at heq
      obtain ⟨rfl, -⟩ := heq
      exact Or.inl rfl

theorem try_seal_sealedMap (s : State) (env : Env) (fardel_hash : Nat)
    (s' : State) (resp : HandleResponse)
    (heq : try_seal_fardel s env fardel_hash = .ok (s', resp)) :
    s'.sealedMap = s.sealedMap ∨ ∃ g, s'.sealedMap = kvSet s.sealedMap g true := by
  unfold try_seal_fardel at heq
  rcases hfar : get_fardel_by_hash s fardel_hash with e | fopt
  · rw [hfar] at heq
    simp only [Except.ok.injEq, Prod.mk.injEq] at heq
    obtain ⟨rfl, -⟩ := heq
    exact Or.inl rfl
  rw [hfar] at heq
  dsimp only at heq
  rcases hgid : get_global_id_by_hash s fardel_hash with e | gid
  · rw [hgid] at heq; simp at heq
  rw [hgid] at heq
  dsimp only at heq
  rcases hown : get_fardel_owner s gid with e | owner
  · rw [hown] at heq; simp at heq
  rw [hown] at heq
  dsimp only at heq
  by_cases hsdr : owner = env.message_sender
  · rw [if_pos hsdr] at heq
    simp only [Except.ok.injEq, Prod.mk.injEq] at heq
    obtain ⟨rfl, -⟩ := heq
    exact Or.inr ⟨gid, rfl⟩
  · rw [if_neg hsdr] at heq
    simp only [Except.ok.injEq, Prod.mk.injEq] at heq
    obtain ⟨rfl, -⟩ := heq
    exact Or.inl rfl

theorem try_hide_sealedMap (s : State) (env : Env) (fardel_hash : Nat)
    (s' : State) (resp : HandleResponse)
    (heq : try_hide_fardel s env fardel_hash = .ok (s', resp)) :
    s'.sealedMap = s.sealedMap := by
  unfold try_hide_fardel at heq
  rcases hfar : get_fardel_by_hash s fardel_hash with e | fopt
  · rw [hfar] at heq
    simp only [Except.ok.injEq, Prod.mk.injEq] at heq
    obtain ⟨rfl, -⟩ := heq
    rfl
  rw [hfar] at heq
  dsimp only at heq
  rcases hgid : get_global_id_by_hash s fardel_hash with e | gid
  · rw [hgid] at heq; simp at heq
  rw [hgid] at heq
  dsimp only at heq
  rcases hown : get_fardel_owner s gid with e | owner
  · rw [hown] at heq; simp at heq
  rw [hown] at heq
  dsimp only at heq
  by_cases hsdr : owner = env.message_sender
  · rw [if_pos hsdr] at heq
    simp only [Except.ok.injEq, Prod.mk.injEq] at heq
    obtain ⟨rfl, -⟩ := heq
    rfl
  · rw [if_neg hsdr] at heq
    simp only [Except.ok.injEq, Prod.mk.injEq] at heq
    obtain ⟨rfl, -⟩ := heq
    rfl

theorem try_unhide_sealedMap (s : State) (env : Env) (fardel_hash : Nat)
    (s' : State) (resp : HandleResponse)
    (heq : try_unhide_fardel s env fardel_hash = .ok (s', resp)) :
    s'.sealedMap = s.sealedMap := by
  unfold try_unhide_fardel at heq
  rcases hfar : get_fardel_by_hash s fardel_hash with e | fopt
  · rw [hfar] at heq
    simp only [Except.ok.injEq, Prod.mk.injEq] at heq
    obtain ⟨rfl, -⟩ := heq
    rfl
  rw [hfar] at heq
  dsimp only at heq
  rcases hgid : get_global_id_by_hash s fardel_hash with e | gid
  · rw [hgid] at heq; simp at heq
  rw [hgid] at heq
  dsimp only at heq
  rcases hown : get_fardel_owner s gid with e | owner
  · rw [hown] at heq; simp at heq
  rw [hown] at heq
  dsimp only at heq
  by_cases hsdr : owner = env.message_sender
  · rw [if_pos hsdr] at heq
    simp only [Except.ok.injEq, Prod.mk.injEq] at heq
    obtain ⟨rfl, -⟩ := heq
    rfl
  · rw [if_neg hsdr] at heq
    simp only [Except.ok.injEq, Prod.mk.injEq] at heq
    obtain ⟨rfl, -⟩ := heq
    rfl

theorem try_remove_sealedMap (s : State) (env : Env) (fardel_hash : Nat) (removed : Bool)
    (s' : State) (resp : HandleResponse)
    (heq : try_remove_fardel s env fardel_hash removed = .ok (s', resp)) :
    s'.sealedMap = s.sealedMap := by
  unfold try_remove_fardel at heq
  by_cases hadm : env.message_sender = s.constants.admin
  case neg =>
    rw [if_pos (by simpa using hadm)] at heq
    simp at heq
  case pos =>
  rw [if_neg (by simpa using hadm)] at heq
  rcases hfar : get_fardel_by_hash s fardel_hash with e | fopt
  · rw [hfar] at heq
    simp only [Except.ok.injEq, Prod.mk.injEq] at heq
    obtain ⟨rfl, -⟩ := heq
    rfl
  rw [hfar] at heq
  dsimp only at heq
  rcases hgid : get_global_id_by_hash s fardel_hash with e | gid
  · rw [hgid] at heq; simp at heq
  rw [hgid] at heq
  dsimp only at heq
  cases removed
  · rw [if_neg (by simp)] at heq
    simp only [Except.ok.injEq, Prod.mk.injEq] at heq
    obtain ⟨rfl, -⟩ := heq
    rfl
  · rw [if_pos rfl] at heq
    simp only [Except.ok.injEq, Prod.mk.injEq] at heq
    obtain ⟨rfl, -⟩ := heq
    rfl

/-- C8.  Seal monotonicity: once a listing's `sealed` flag is `true`, no
operation of the system — creation, seal, hide/unhide, remove/unremove,
request_unpack, approve_pending, cancel_pending, or a ban/deactivate/block
toggle — ever makes it `false` again (and read-only queries cannot write at
all, so none ever observes `sealed = false` again). -/
theorem sealed_is_permanent (s : State) (op : Op) (g : Nat)
    (h : get_sealed_status s g = true) :
    get_sealed_status (execOp s op) g = true := by
  cases op with
  | carry env hash pm tg cd c n a st =>
    simp only [execOp]
    rw [get_sealed_status_of_eq (store_fardel_sealedMap s hash env.message_sender
      pm tg cd c n a st env.block_time) g]
    exact h
  | unpack env fh =>
    simp only [execOp]
    rcases hr : try_unpack_fardel s env fh with - | r
    · exact h
    rcases r with e | p
    · exact h
    show get_sealed_status p.1 g = true
    rcases try_unpack_sealedMap s env fh p.1 p.2 (by rw [hr]) with hsame | ⟨x, hx⟩
    · rw [get_sealed_status_of_eq hsame g]; exact h
    · have hx2 : p.1.sealedMap = (seal_fardel s x).sealedMap := hx
      rw [get_sealed_status_of_eq hx2 g]
      exact get_sealed_status_seal_mono s x g h
  | approve env number =>
    simp only [execOp]
    rcases hr : try_approve_pending_unpacks s env number with e | p
    · exact h
    show get_sealed_status p.1 g = true
    rw [get_sealed_status_of_eq (try_approve_sealedMap s env number p.1 p.2
      (by rw [hr])) g]
    exact h
  | cancel env fh =>
    simp only [execOp]
    rcases hr : try_cancel_pending s env fh with e | p
    · exact h
    show get_sealed_status p.1 g = true
    rw [get_sealed_status_of_eq (try_cancel_sealedMap s env fh p.1 p.2 (by rw [hr])) g]
    exact h
  | sealF env fh =>
    simp only [execOp]
    rcases hr : try_seal_fardel s env fh with e | p
    · exact h
    show get_sealed_status p.1 g = true
    rcases try_seal_sealedMap s env fh p.1 p.2 (by rw [hr]) with hsame | ⟨x, hx⟩
    · rw [get_sealed_status_of_eq hsame g]; exact h
    · have hx2 : p.1.sealedMap = (seal_fardel s x).sealedMap := hx
      rw [get_sealed_status_of_eq hx2 g]
      exact get_sealed_status_seal_mono s x g h
  | hideF env fh =>
    simp only [execOp]
    rcases hr : try_hide_fardel s env fh with e | p
    · exact h
    show get_sealed_status p.1 g = true
    rw [get_sealed_status_of_eq (try_hide_sealedMap s env fh p.1 p.2 (by rw [hr])) g]
    exact h
  | unhideF env fh =>
    simp only [execOp]
    rcases hr : try_unhide_fardel s env fh with e | p
    · exact h
    show get_sealed_status p.1 g = true
    rw [get_sealed_status_of_eq (try_unhide_sealedMap s env fh p.1 p.2 (by rw [hr])) g]
    exact h
  | removeF env fh rm =>
    simp only [execOp]
    rcases hr : try_remove_fardel s env fh rm with e | p
    · exact h
    show get_sealed_status p.1 g = true
    rw [get_sealed_status_of_eq (try_remove_sealedMap s env fh rm p.1 p.2 (by rw [hr])) g]
    exact h
  | ban a b => exact h
  | deactivate a b => exact h
  | blockAcct x y b => exact h

/-- Witness for C8: the auto-sealed sold-out listing stays sealed across a
further operation (purchaser 3 retrying). -/
theorem sealed_is_permanent_witness :
    get_sealed_status (execOp soldOutState (.unpack (callEnv 3 100 3) 7)) 0 = true ∧
    get_sealed_status
      (execOp (execOp soldOutState (.unpack (callEnv 3 100 3) 7))
        (.unpack (callEnv 3 100 4) 7)) 0 = true := by
  constructor
  · decide
  · exact sealed_is_permanent (execOp soldOutState (.unpack (callEnv 3 100 3) 7))
      (.unpack (callEnv 3 100 4) 7) 0 (by decide)

/-! ## Derived views of the state (for the reachable-state invariants) -/

/-- The owner's pending-approval queue (empty if never created). -/
def queueOf (s : State) (o : Addr) : List PendingUnpackApproval :=
  (kvGet s.pendingQueue o).getD []

/-- The purchaser's unpack log (empty if never created). -/
def logOf (s : State) (u : Addr) : List UnpackedFardel :=
  (kvGet s.unpackedLog u).getD []

/-- The stored `units_consumed` counter of a listing (0 if never written). -/
def countOf (s : State) (fid : Nat) : Nat :=
  (get_fardel_unpack_count s fid).getD 0

/-- The "already unpacked" flag of a (purchaser, listing) pair. -/
def flagOf (s : State) (u : Addr) (fid : Nat) : Bool :=
  (get_unpacked_status_by_fardel_id s u fid).unpacked

/-- The "currently pending" marker of a (purchaser, listing) pair. -/
def markerOf (s : State) (u : Addr) (fid : Nat) : MyPendingUnpack :=
  get_pending_unpacked_status_by_fardel_id s u fid

/-- How many purchasers currently hold a set pending marker for `fid`. -/
def livePendings (s : State) (fid : Nat) : Nat :=
  (s.myPendingMap.filter (fun kv => kv.1.2 == fid && kv.2.value)).length

/-- The cumulative state effect of the `approve_pending` loop: one
`store_unpack` per processed entry. -/
def storeUnpacksFold (s : State) (es : List PendingUnpackApproval) : State :=
  es.foldl (fun st e => store_unpack st e.unpacker e.fardel_id) s

/-! ### Counting filtered entries across a `kvSet` -/

theorem kvSet_filter_length {κ β : Type} [DecidableEq κ] (l : List (κ × β)) (k : κ)
    (v' : β) (p : κ × β → Bool) (hnd : (l.map Prod.fst).Nodup) :
    ((kvSet l k v').filter p).length +
      (match kvGet l k with
       | some v => if p (k, v) then 1 else 0
       | none => 0) =
    (l.filter p).length + (if p (k, v') then 1 else 0) := by
  induction l with
  | nil =>
      simp only [kvSet, kvGet, List.filter]
      cases hp : p (k, v') <;> simp [hp]
  | cons hd tl ih =>
      obtain ⟨k0, v0⟩ := hd
      simp only [List.map_cons, List.nodup_cons] at hnd
      by_cases h0 : k0 = k
      · subst h0
        simp only [kvSet, if_pos rfl, kvGet, List.filter]
        cases hp0 : p (k0, v0) <;> cases hp1 : p (k0, v') <;>
          simp +arith [hp0, hp1]
      · have := ih hnd.2
        simp only [kvSet, if_neg h0, kvGet, List.filter]
        cases hp0 : p (k0, v0) <;> simp [hp0, h0] <;> omega

theorem filter_length_pos_of_mem {κ β : Type} (l : List (κ × β)) (p : κ × β → Bool)
    {kv : κ × β} (hm : kv ∈ l) (hp : p kv = true) : 0 < (l.filter p).length := by
  have : kv ∈ l.filter p := List.mem_filter.mpr ⟨hm, hp⟩
  exact List.length_pos.mpr (fun h => by simp [h] at this)

/-! ### Effect of the primitive writes on the derived views -/

theorem countOf_store_count (s : State) (fid n x : Nat) :
    countOf (store_fardel_unpack_count s fid n) x = if x = fid then n else countOf s x := by
  unfold countOf get_fardel_unpack_count store_fardel_unpack_count
  by_cases hx : x = fid
  · subst hx
    simp [kvGet_kvSet_same]
  · simp [kvGet_kvSet_diff _ _ _ _ hx, hx]

theorem countOf_increment (s : State) (fid x : Nat) :
    countOf (increment_fardel_unpack_count s fid) x =
      if x = fid then countOf s x + 1 else countOf s x := by
  unfold increment_fardel_unpack_count
  rw [countOf_store_count]
  by_cases hx : x = fid
  · subst hx; simp [countOf, get_fardel_unpack_count]
  · simp [hx]

theorem countOf_decrement (s : State) (fid x : Nat) :
    countOf (decrement_fardel_unpack_count s fid) x =
      if x = fid then countOf s x - 1 else countOf s x := by
  unfold decrement_fardel_unpack_count
  dsimp only
  split
  · rename_i hlt
    have h0 : countOf s fid = 0 := by
      unfold countOf
      omega
    by_cases hx : x = fid
    · subst hx; simp [h0]
    · simp [hx]
  · rw [countOf_store_count]
    rename_i hge
    by_cases hx : x = fid
    · subst hx
      simp [countOf, get_fardel_unpack_count]
    · simp [hx]

theorem flagOf_store_unpack (s : State) (u : Addr) (fid : Nat) (u' : Addr) (x : Nat) :
    flagOf (store_unpack s u fid) u' x =
      if (u', x) = (u, fid) then true else flagOf s u' x := by
  unfold flagOf get_unpacked_status_by_fardel_id store_unpack
  dsimp only
  by_cases hx : (u', x) = (u, fid)
  · rw [if_pos hx, hx]
    simp [kvGet_kvSet_same]
  · rw [if_neg hx]
    rw [kvGet_kvSet_diff _ _ _ _ hx]

theorem logOf_store_unpack (s : State) (u : Addr) (fid : Nat) (u' : Addr) :
    logOf (store_unpack s u fid) u' =
      if u' = u then logOf s u' ++ [{ fardel_id := fid }] else logOf s u' := by
  unfold logOf store_unpack
  dsimp only
  by_cases hu : u' = u
  · subst hu
    simp [kvGet_kvSet_same]
  · rw [kvGet_kvSet_diff _ _ _ _ hu]
    simp [hu]

@[simp]
theorem store_unpack_pendingQueue (s : State) (u : Addr) (fid : Nat) :
    (store_unpack s u fid).pendingQueue = s.pendingQueue := rfl

@[simp]
theorem store_unpack_pendingStartMap (s : State) (u : Addr) (fid : Nat) :
    (store_unpack s u fid).pendingStartMap = s.pendingStartMap := rfl

@[simp]
theorem store_unpack_myPendingMap (s : State) (u : Addr) (fid : Nat) :
    (store_unpack s u fid).myPendingMap = s.myPendingMap := rfl

@[simp]
theorem store_unpack_numUnpacks (s : State) (u : Addr) (fid : Nat) :
    (store_unpack s u fid).numUnpacks = s.numUnpacks := rfl

@[simp]
theorem store_unpack_idFardelMapping (s : State) (u : Addr) (fid : Nat) :
    (store_unpack s u fid).idFardelMapping = s.idFardelMapping := rfl

@[simp]
theorem store_unpack_fardels (s : State) (u : Addr) (fid : Nat) :
    (store_unpack s u fid).fardels = s.fardels := rfl

@[simp]
theorem store_unpack_fardelCount (s : State) (u : Addr) (fid : Nat) :
    (store_unpack s u fid).fardelCount = s.fardelCount := rfl

@[simp]
theorem store_unpack_hashIdMapping (s : State) (u : Addr) (fid : Nat) :
    (store_unpack s u fid).hashIdMapping = s.hashIdMapping := rfl

@[simp]
theorem increment_core (s : State) (fid : Nat) :
    (increment_fardel_unpack_count s fid).pendingQueue = s.pendingQueue ∧
    (increment_fardel_unpack_count s fid).pendingStartMap = s.pendingStartMap ∧
    (increment_fardel_unpack_count s fid).myPendingMap = s.myPendingMap ∧
    (increment_fardel_unpack_count s fid).idFardelMapping = s.idFardelMapping ∧
    (increment_fardel_unpack_count s fid).fardels = s.fardels ∧
    (increment_fardel_unpack_count s fid).fardelCount = s.fardelCount ∧
    (increment_fardel_unpack_count s fid).unpackedLog = s.unpackedLog ∧
    (increment_fardel_unpack_count s fid).unpackedMap = s.unpackedMap :=
  ⟨rfl, rfl, rfl, rfl, rfl, rfl, rfl, rfl⟩

theorem markerOf_map_pending (s : State) (gid : Nat) (u : Addr) (i : Nat) (b : Bool)
    (u' : Addr) (x : Nat) :
    markerOf (map_global_id_to_pending_unpacked_by_unpacker s gid u i b) u' x =
      if (u', x) = (u, gid) then { pending_unpack_idx := i, value := b }
      else markerOf s u' x := by
  unfold markerOf get_pending_unpacked_status_by_fardel_id
    map_global_id_to_pending_unpacked_by_unpacker
  dsimp only
  by_cases hx : (u', x) = (u, gid)
  · rw [if_pos hx, hx]
    simp [kvGet_kvSet_same]
  · rw [if_neg hx, kvGet_kvSet_diff _ _ _ _ hx]

@[simp]
theorem map_pending_core (s : State) (gid : Nat) (u : Addr) (i : Nat) (b : Bool) :
    (map_global_id_to_pending_unpacked_by_unpacker s gid u i b).pendingQueue =
      s.pendingQueue ∧
    (map_global_id_to_pending_unpacked_by_unpacker s gid u i b).pendingStartMap =
      s.pendingStartMap ∧
    (map_global_id_to_pending_unpacked_by_unpacker s gid u i b).numUnpacks =
      s.numUnpacks ∧
    (map_global_id_to_pending_unpacked_by_unpacker s gid u i b).idFardelMapping =
      s.idFardelMapping ∧
    (map_global_id_to_pending_unpacked_by_unpacker s gid u i b).fardels = s.fardels ∧
    (map_global_id_to_pending_unpacked_by_unpacker s gid u i b).fardelCount =
      s.fardelCount ∧
    (map_global_id_to_pending_unpacked_by_unpacker s gid u i b).unpackedLog =
      s.unpackedLog ∧
    (map_global_id_to_pending_unpacked_by_unpacker s gid u i b).unpackedMap =
      s.unpackedMap :=
  ⟨rfl, rfl, rfl, rfl, rfl, rfl, rfl, rfl⟩

@[simp]
theorem map_pending_myPendingMap (s : State) (gid : Nat) (u : Addr) (i : Nat) (b : Bool) :
    (map_global_id_to_pending_unpacked_by_unpacker s gid u i b).myPendingMap =
      kvSet s.myPendingMap (u, gid) { pending_unpack_idx := i, value := b } := rfl

/-- Setting a pending marker adjusts the live-pending count of exactly the
affected listing, by the difference of the old and new flag values. -/
theorem livePendings_map_pending (s : State) (gid : Nat) (u : Addr) (i : Nat) (b : Bool)
    (hnd : (s.myPendingMap.map Prod.fst).Nodup) (x : Nat) :
    livePendings (map_global_id_to_pending_unpacked_by_unpacker s gid u i b) x +
      (if (markerOf s u gid).value ∧ gid = x then 1 else 0) =
    livePendings s x + (if b ∧ gid = x then 1 else 0) := by
  unfold livePendings
  rw [map_pending_myPendingMap]
  have hmaster := kvSet_filter_length s.myPendingMap (u, gid)
    { pending_unpack_idx := i, value := b }
    (fun kv => kv.1.2 == x && kv.2.value) hnd
  unfold markerOf get_pending_unpacked_status_by_fardel_id
  rcases hget : kvGet s.myPendingMap (u, gid) with - | mp
  · rw [hget] at hmaster
    simp only [hget] at *
    by_cases hgx : gid = x
    · subst hgx
      simp only [Option.getD_none] at *
      cases b <;> simp_all
    · simp only [Option.getD_none] at *
      simp [hgx] at hmaster ⊢
      omega
  · rw [hget] at hmaster
    simp only [hget, Option.getD_some]
    obtain ⟨mpi, mpv⟩ := mp
    by_cases hgx : gid = x
    · subst hgx
      cases mpv <;> cases b <;> simp_all
    · simp [hgx] at hmaster ⊢
      omega

/-- A set marker witnesses at least one live pending for its listing. -/
theorem livePendings_pos (s : State) (u : Addr) (fid : Nat)
    (h : (markerOf s u fid).value = true) : 0 < livePendings s fid := by
  unfold markerOf get_pending_unpacked_status_by_fardel_id at h
  rcases hget : kvGet s.myPendingMap (u, fid) with - | mp
  · rw [hget] at h
    simp at h
  · rw [hget] at h
    simp only [Option.getD_some] at h
    exact filter_length_pos_of_mem _ _ (kvGet_mem _ _ _ hget) (by simp [h])

@[simp]
theorem store_pending_unpack_core (s : State) (o u : Addr) (fid : Nat) (c : Coin)
    (t : Nat) :
    (store_pending_unpack s o u fid c t).numUnpacks = s.numUnpacks ∧
    (store_pending_unpack s o u fid c t).idFardelMapping = s.idFardelMapping ∧
    (store_pending_unpack s o u fid c t).fardels = s.fardels ∧
    (store_pending_unpack s o u fid c t).fardelCount = s.fardelCount ∧
    (store_pending_unpack s o u fid c t).unpackedLog = s.unpackedLog ∧
    (store_pending_unpack s o u fid c t).unpackedMap = s.unpackedMap ∧
    (store_pending_unpack s o u fid c t).pendingStartMap = s.pendingStartMap :=
  ⟨rfl, rfl, rfl, rfl, rfl, rfl, rfl⟩

theorem store_pending_unpack_myPendingMap (s : State) (o u : Addr) (fid : Nat) (c : Coin)
    (t : Nat) :
    (store_pending_unpack s o u fid c t).myPendingMap =
      kvSet s.myPendingMap (u, fid)
        { pending_unpack_idx := (queueOf s o).length, value := true } := rfl

theorem store_pending_unpack_queueOf (s : State) (o u : Addr) (fid : Nat) (c : Coin)
    (t : Nat) (o' : Addr) :
    queueOf (store_pending_unpack s o u fid c t) o' =
      if o' = o then
        queueOf s o' ++
          [{ fardel_id := fid, unpacker := u, coin := c, timestamp := t,
             canceled := false }]
      else queueOf s o' := by
  unfold queueOf store_pending_unpack map_global_id_to_pending_unpacked_by_unpacker
  dsimp only
  by_cases ho : o' = o
  · subst ho
    simp [kvGet_kvSet_same]
  · rw [kvGet_kvSet_diff _ _ _ _ ho]
    simp [ho]

theorem markerOf_store_pending (s : State) (o u : Addr) (fid : Nat) (c : Coin) (t : Nat)
    (u' : Addr) (x : Nat) :
    markerOf (store_pending_unpack s o u fid c t) u' x =
      if (u', x) = (u, fid) then
        { pending_unpack_idx := (queueOf s o).length, value := true }
      else markerOf s u' x := by
  unfold markerOf get_pending_unpacked_status_by_fardel_id
  rw [store_pending_unpack_myPendingMap]
  by_cases hx : (u', x) = (u, fid)
  · rw [if_pos hx, hx]
    simp [kvGet_kvSet_same]
  · rw [if_neg hx, kvGet_kvSet_diff _ _ _ _ hx]

theorem kvGet_eq_of_mem_nodup {κ β : Type} [DecidableEq κ] {l : List (κ × β)}
    {k : κ} {v : β} (hnd : (l.map Prod.fst).Nodup) (hm : (k, v) ∈ l) :
    kvGet l k = some v := by
  induction l with
  | nil => simp at hm
  | cons hd tl ih =>
      obtain ⟨k0, v0⟩ := hd
      simp only [List.map_cons, List.nodup_cons] at hnd
      rcases List.mem_cons.mp hm with h | h
      · cases h
        simp [kvGet]
      · have hk : k0 ≠ k := by
          intro hk0
          subst hk0
          exact hnd.1 (List.mem_map.mpr ⟨(k0, v), h, rfl⟩)
        simp only [kvGet, if_neg hk]
        exact ih hnd.2 h

/-! ## The reachable-state invariant

Everything the at-most-once-unlock and cancellation claims need, stated over
the association-list storage so that it is decidable at a concrete state. -/

structure Inv (s : State) : Prop where
  /-- marker-map keys are unique (storage keys are). -/
  marker_keys_nodup : (s.myPendingMap.map Prod.fst).Nodup
  /-- queue-map keys are unique. -/
  queue_keys_nodup : (s.pendingQueue.map Prod.fst).Nodup
  /-- unpack-log keys are unique. -/
  log_keys_nodup : (s.unpackedLog.map Prod.fst).Nodup
  /-- every mapped listing id is below the global counter. -/
  mapping_fresh : ∀ kv ∈ s.idFardelMapping, kv.1 < s.fardelCount
  /-- every counted listing id is below the global counter. -/
  counts_fresh : ∀ kv ∈ s.numUnpacks, kv.1 < s.fardelCount
  /-- every flagged listing id is below the global counter. -/
  flags_fresh : ∀ kv ∈ s.unpackedMap, kv.1.2 < s.fardelCount
  /-- every marked listing id is below the global counter. -/
  markers_fresh : ∀ kv ∈ s.myPendingMap, kv.1.2 < s.fardelCount
  /-- every logged listing id is below the global counter. -/
  logs_fresh : ∀ kv ∈ s.unpackedLog, ∀ e ∈ kv.2, e.fardel_id < s.fardelCount
  /-- every queued listing id is below the global counter. -/
  queues_fresh : ∀ kv ∈ s.pendingQueue, ∀ e ∈ kv.2, e.fardel_id < s.fardelCount
  /-- the id → (owner, offset) mapping points at a stored body carrying the
  same id. -/
  mapping_valid : ∀ kv ∈ s.idFardelMapping,
    ∃ f, ((kvGet s.fardels kv.2.1).getD []).get? kv.2.2 = some f ∧ f.global_id = kv.1
  /-- every logged unlock has its point-lookup flag set. -/
  log_flag : ∀ kv ∈ s.unpackedLog, ∀ e ∈ kv.2, flagOf s kv.1 e.fardel_id = true
  /-- at-most-once: no purchaser's log repeats a listing id. -/
  log_nodup : ∀ kv ∈ s.unpackedLog, (kv.2.map UnpackedFardel.fardel_id).Nodup
  /-- a live queue entry (at or past the cursor, not canceled) belongs to a
  pair with no Unpack Record, and the purchaser's marker points exactly at
  it. -/
  live_entry : ∀ kv ∈ s.pendingQueue, ∀ i, get_pending_start s kv.1 ≤ i →
    ∀ e, kv.2.get? i = some e → e.canceled = false →
      flagOf s e.unpacker e.fardel_id = false ∧
      markerOf s e.unpacker e.fardel_id = { pending_unpack_idx := i, value := true }
  /-- a set marker points at a non-canceled entry (for this purchaser and
  listing) of the listing owner's queue. -/
  marker_sound : ∀ kv ∈ s.myPendingMap, kv.2.value = true →
    ∃ o i2, kvGet s.idFardelMapping kv.1.2 = some (o, i2) ∧
      ∃ e, (queueOf s o).get? kv.2.pending_unpack_idx = some e ∧
        e.unpacker = kv.1.1 ∧ e.fardel_id = kv.1.2 ∧ e.canceled = false
  /-- every queue entry lives in its listing owner's queue and holds exactly
  the listing's price in `uscrt`. -/
  entry_coin : ∀ kv ∈ s.pendingQueue, ∀ e ∈ kv.2,
    ∃ i2 f, kvGet s.idFardelMapping e.fardel_id = some (kv.1, i2) ∧
      ((kvGet s.fardels kv.1).getD []).get? i2 = some f ∧
      e.coin.amount = f.cost ∧ e.coin.denom = DENOM
  /-- live pending reservations never exceed the stored unit counter. -/
  count_ge : ∀ kv ∈ s.myPendingMap, livePendings s kv.1.2 ≤ countOf s kv.1.2

/-- The invariant only reads these nine storage namespaces; operations that
leave them all unchanged preserve it. -/
theorem Inv.of_core_eq {s' s : State} (h : Inv s)
    (h1 : s'.myPendingMap = s.myPendingMap)
    (h2 : s'.pendingQueue = s.pendingQueue)
    (h3 : s'.unpackedLog = s.unpackedLog)
    (h4 : s'.unpackedMap = s.unpackedMap)
    (h5 : s'.idFardelMapping = s.idFardelMapping)
    (h6 : s'.numUnpacks = s.numUnpacks)
    (h7 : s'.pendingStartMap = s.pendingStartMap)
    (h8 : s'.fardels = s.fardels)
    (h9 : s'.fardelCount = s.fardelCount) : Inv s' := by
  have hflag : ∀ u x, flagOf s' u x = flagOf s u x := by
    intro u x
    unfold flagOf get_unpacked_status_by_fardel_id
    rw [h4]
  have hmark : ∀ u x, markerOf s' u x = markerOf s u x := by
    intro u x
    unfold markerOf get_pending_unpacked_status_by_fardel_id
    rw [h1]
  have hq : ∀ o, queueOf s' o = queueOf s o := by
    intro o
    unfold queueOf
    rw [h2]
  have hc : ∀ x, countOf s' x = countOf s x := by
    intro x
    unfold countOf get_fardel_unpack_count
    rw [h6]
  have hlv : ∀ x, livePendings s' x = livePendings s x := by
    intro x
    unfold livePendings
    rw [h1]
  have hst : ∀ o, get_pending_start s' o = get_pending_start s o := by
    intro o
    unfold get_pending_start
    rw [h7]
  refine ⟨?_, ?_, ?_, ?_, ?_, ?_, ?_, ?_, ?_, ?_, ?_, ?_, ?_, ?_, ?_, ?_⟩
  · rw [h1]; exact h.marker_keys_nodup
  · rw [h2]; exact h.queue_keys_nodup
  · rw [h3]; exact h.log_keys_nodup
  · rw [h5, h9]; exact h.mapping_fresh
  · rw [h6, h9]; exact h.counts_fresh
  · rw [h4, h9]; exact h.flags_fresh
  · rw [h1, h9]; exact h.markers_fresh
  · rw [h3, h9]; exact h.logs_fresh
  · rw [h2, h9]; exact h.queues_fresh
  · rw [h5, h8]; exact h.mapping_valid
  · rw [h3]
    intro kv hkv e he
    rw [hflag]
    exact h.log_flag kv hkv e he
  · rw [h3]; exact h.log_nodup
  · rw [h2]
    intro kv hkv i hi e he hc'
    rw [hflag, hmark]
    exact h.live_entry kv hkv i (by rw [hst] at hi; exact hi) e he hc'
  · rw [h1]
    intro kv hkv hv
    obtain ⟨o, i2, hmap, e, hget, he1, he2, he3⟩ := h.marker_sound kv hkv hv
    exact ⟨o, i2, by rw [h5]; exact hmap, e, by rw [hq]; exact hget, he1, he2, he3⟩
  · rw [h2]
    intro kv hkv e he
    obtain ⟨i2, f, hmap, hgetf, hc1, hc2⟩ := h.entry_coin kv hkv e he
    exact ⟨i2, f, by rw [h5]; exact hmap, by rw [h8]; exact hgetf, hc1, hc2⟩
  · rw [h1]
    intro kv hkv
    rw [hlv, hc]
    exact h.count_ge kv hkv

/-- The initial state satisfies the invariant. -/
theorem Inv_initState (c : Constants) : Inv (initState c) := by
  refine ⟨?_, ?_, ?_, ?_, ?_, ?_, ?_, ?_, ?_, ?_, ?_, ?_, ?_, ?_, ?_, ?_⟩ <;>
    simp [initState]

/-! ### Invariant preservation: creation -/

theorem flagOf_of_map_eq {s' s : State} (u0 : Addr) (f0 : Nat)
    (h : s'.unpackedMap = kvSet s.unpackedMap (u0, f0) { unpacked := true })
    (u : Addr) (x : Nat) :
    flagOf s' u x = if (u, x) = (u0, f0) then true else flagOf s u x := by
  unfold flagOf get_unpacked_status_by_fardel_id
  rw [h]
  by_cases hx : (u, x) = (u0, f0)
  · rw [if_pos hx, hx]
    simp [kvGet_kvSet_same]
  · rw [if_neg hx, kvGet_kvSet_diff _ _ _ _ hx]

theorem Inv_store_fardel (s : State) (h : Inv s) (hash : Nat) (owner : Addr)
    (pm : String) (tg : List String) (cd : String) (c n : Nat) (a : Bool)
    (st t : Nat) : Inv (store_fardel s hash owner pm tg cd c n a st t).1 := by
  set gid := s.fardelCount with hgid
  set lst := (kvGet s.fardels owner).getD [] with hlst
  set lg := (kvGet s.unpackedLog owner).getD [] with hlg
  set fb : StoredFardel :=
    { global_id := gid, hash_id := hash, public_message := pm, tags := tg,
      contents_data := cd, cost := c, countable := n, approval_req := a,
      seal_time := st, timestamp := t } with hfb
  set s' := (store_fardel s hash owner pm tg cd c n a st t).1 with hs'
  have e1 : s'.fardels = kvSet s.fardels owner (lst ++ [fb]) := rfl
  have e2 : s'.idFardelMapping = kvSet s.idFardelMapping gid (owner, lst.length) := rfl
  have e4 : s'.numUnpacks = kvSet s.numUnpacks gid 0 := rfl
  have e5 : s'.unpackedLog = kvSet s.unpackedLog owner
    (lg ++ [{ fardel_id := gid }]) := rfl
  have e6 : s'.unpackedMap = kvSet s.unpackedMap (owner, gid) { unpacked := true } := rfl
  have e7 : s'.pendingQueue = s.pendingQueue := rfl
  have e8 : s'.pendingStartMap = s.pendingStartMap := rfl
  have e9 : s'.myPendingMap = s.myPendingMap := rfl
  have e10 : s'.fardelCount = gid + 1 := rfl
  have hflag : ∀ u x, flagOf s' u x = if (u, x) = (owner, gid) then true
      else flagOf s u x := flagOf_of_map_eq owner gid e6
  have hmark : ∀ u x, markerOf s' u x = markerOf s u x := by
    intro u x
    unfold markerOf get_pending_unpacked_status_by_fardel_id
    rw [e9]
  have hcount : ∀ x, x ≠ gid → countOf s' x = countOf s x := by
    intro x hx
    unfold countOf get_fardel_unpack_count
    rw [e4, kvGet_kvSet_diff _ _ _ _ hx]
  have hlive : ∀ x, livePendings s' x = livePendings s x := by
    intro x
    unfold livePendings
    rw [e9]
  have hlg_mem : ∀ e ∈ lg, e.fardel_id < gid := by
    intro e he
    rcases hk : kvGet s.unpackedLog owner with - | l0
    · rw [hlg, hk] at he
      simp at he
    · rw [hlg, hk] at he
      exact h.logs_fresh (owner, l0) (kvGet_mem _ _ _ hk) e he
  refine ⟨?_, ?_, ?_, ?_, ?_, ?_, ?_, ?_, ?_, ?_, ?_, ?_, ?_, ?_, ?_, ?_⟩
  · rw [e9]; exact h.marker_keys_nodup
  · rw [e7]; exact h.queue_keys_nodup
  · rw [e5]; exact kvSet_keys_nodup _ _ _ h.log_keys_nodup
  · rw [e2, e10]
    intro kv hkv
    rcases kvSet_mem _ _ _ hkv with hold | rfl
    · exact lt_trans (h.mapping_fresh kv hold) (Nat.lt_succ_self _)
    · exact Nat.lt_succ_self _
  · rw [e4, e10]
    intro kv hkv
    rcases kvSet_mem _ _ _ hkv with hold | rfl
    · exact lt_trans (h.counts_fresh kv hold) (Nat.lt_succ_self _)
    · exact Nat.lt_succ_self _
  · rw [e6, e10]
    intro kv hkv
    rcases kvSet_mem _ _ _ hkv with hold | rfl
    · exact lt_trans (h.flags_fresh kv hold) (Nat.lt_succ_self _)
    · exact Nat.lt_succ_self _
  · rw [e9, e10]
    intro kv hkv
    exact lt_trans (h.markers_fresh kv hkv) (Nat.lt_succ_self _)
  · rw [e5, e10]
    intro kv hkv e he
    rcases kvSet_mem _ _ _ hkv with hold | rfl
    · exact lt_trans (h.logs_fresh kv hold e he) (Nat.lt_succ_self _)
    · rcases List.mem_append.mp he with h1 | h1
      · exact lt_trans (hlg_mem e h1) (Nat.lt_succ_self _)
      · simp at h1
        rw [h1]
        exact Nat.lt_succ_self _
  · rw [e7, e10]
    intro kv hkv e he
    exact lt_trans (h.queues_fresh kv hkv e he) (Nat.lt_succ_self _)
  · rw [e2]
    intro kv hkv
    rcases kvSet_mem _ _ _ hkv with hold | rfl
    · obtain ⟨f, hf, hfid⟩ := h.mapping_valid kv hold
      refine ⟨f, ?_, hfid⟩
      rw [e1]
      by_cases ho : kv.2.1 = owner
      · rw [ho, kvGet_kvSet_same]
        rw [ho] at hf
        simp only [Option.getD_some]
        obtain ⟨hn, -⟩ := List.get?_eq_some.mp hf
        rw [List.get?_append hn]
        exact hf
      · rw [kvGet_kvSet_diff _ _ _ _ ho]
        exact hf
    · refine ⟨fb, ?_, rfl⟩
      rw [e1]
      simp only [kvGet_kvSet_same, Option.getD_some]
      exact List.get?_concat_length lst fb
  · rw [e5]
    intro kv hkv e he
    rcases kvSet_mem _ _ _ hkv with hold | rfl
    · rw [hflag]
      by_cases hp : (kv.1, e.fardel_id) = (owner, gid)
      · rw [if_pos hp]
      · rw [if_neg hp]
        exact h.log_flag kv hold e he
    · rw [hflag]
      rcases List.mem_append.mp he with h1 | h1
      · by_cases hp : (owner, e.fardel_id) = (owner, gid)
        · rw [if_pos hp]
        · rw [if_neg hp]
          rcases hk : kvGet s.unpackedLog owner with - | l0
          · rw [hlg, hk] at h1
            simp at h1
          · rw [hlg, hk] at h1
            exact h.log_flag (owner, l0) (kvGet_mem _ _ _ hk) e h1
      · simp at h1
        rw [h1]
        simp
  · rw [e5]
    intro kv hkv
    rcases kvSet_mem _ _ _ hkv with hold | rfl
    · exact h.log_nodup kv hold
    · rw [List.map_append]
      simp only [List.map_cons, List.map_nil]
      rw [List.nodup_append]
      refine ⟨?_, List.nodup_singleton _, ?_⟩
      · rcases hk : kvGet s.unpackedLog owner with - | l0
        · rw [hlg, hk]
          simp
        · rw [hlg, hk]
          exact h.log_nodup (owner, l0) (kvGet_mem _ _ _ hk)
      · intro x hx
        simp only [List.mem_singleton]
        intro hxg
        rw [hxg] at hx
        obtain ⟨e, he, hei⟩ := List.mem_map.mp hx
        exact absurd (hlg_mem e he) (by rw [hei]; omega)
  · rw [e7]
    intro kv hkv i hi e he hcanc
    have hst : get_pending_start s' kv.1 = get_pending_start s kv.1 := by
      unfold get_pending_start
      rw [e8]
    rw [hst] at hi
    obtain ⟨hf, hm⟩ := h.live_entry kv hkv i hi e he hcanc
    constructor
    · rw [hflag]
      have hfr : e.fardel_id < gid := h.queues_fresh kv hkv e (List.get?_mem he)
      rw [if_neg (by
        intro hp
        have : e.fardel_id = gid := congrArg Prod.snd hp
        omega)]
      exact hf
    · rw [hmark]
      exact hm
  · rw [e9]
    intro kv hkv hv
    obtain ⟨o, i2, hmap, e, hget, he1, he2, he3⟩ := h.marker_sound kv hkv hv
    have hfr : kv.1.2 < gid := h.markers_fresh kv hkv
    refine ⟨o, i2, ?_, e, ?_, he1, he2, he3⟩
    · rw [e2, kvGet_kvSet_diff _ _ _ _ (by omega)]
      exact hmap
    · have : queueOf s' o = queueOf s o := by
        unfold queueOf
        rw [e7]
      rw [this]
      exact hget
  · rw [e7]
    intro kv hkv e he
    obtain ⟨i2, f, hmap, hgetf, hc1, hc2⟩ := h.entry_coin kv hkv e he
    have hfr : e.fardel_id < gid := h.queues_fresh kv hkv e he
    refine ⟨i2, f, ?_, ?_, hc1, hc2⟩
    · rw [e2, kvGet_kvSet_diff _ _ _ _ (by omega)]
      exact hmap
    · rw [e1]
      by_cases ho : kv.1 = owner
      · rw [ho, kvGet_kvSet_same]
        rw [ho] at hgetf
        simp only [Option.getD_some]
        obtain ⟨hn, -⟩ := List.get?_eq_some.mp hgetf
        rw [List.get?_append hn]
        exact hgetf
      · rw [kvGet_kvSet_diff _ _ _ _ ho]
        exact hgetf
  · rw [e9]
    intro kv hkv
    rw [hlive]
    have hfr : kv.1.2 < gid := h.markers_fresh kv hkv
    rw [hcount _ (by omega)]
    exact h.count_ge kv hkv

/-! ### Invariant preservation: the unpack paths -/

/-- Resolving a listing through its public hash lands on the body addressed
by the id → (owner, offset) mapping of the id the body itself carries. -/
theorem resolve_fardel (s : State) (h : Inv s) (fh : Nat) (f : StoredFardel)
    (hfar : get_fardel_by_hash s fh = .ok (some f)) :
    ∃ o i2, kvGet s.idFardelMapping f.global_id = some (o, i2) ∧
      ((kvGet s.fardels o).getD []).get? i2 = some f := by
  unfold get_fardel_by_hash at hfar
  rcases hh : kvGet s.hashIdMapping fh with - | gid0
  · rw [hh] at hfar
    simp at hfar
  rw [hh] at hfar
  dsimp only at hfar
  unfold get_fardel_by_global_id at hfar
  rcases hm : kvGet s.idFardelMapping gid0 with - | m
  · rw [hm] at hfar
    simp at hfar
  rw [hm] at hfar
  dsimp only at hfar
  rcases hfl : kvGet s.fardels m.1 with - | l0
  · rw [hfl] at hfar
    simp at hfar
  rw [hfl] at hfar
  dsimp only at hfar
  rcases hg : l0.get? m.2 with - | f0
  · rw [hg] at hfar
    simp at hfar
  rw [hg] at hfar
  dsimp only at hfar
  simp only [Except.ok.injEq, Option.some.injEq] at hfar
  subst hfar
  obtain ⟨f1, hf1, hfid⟩ := h.mapping_valid (gid0, m) (kvGet_mem _ _ _ hm)
  rw [hfl] at hf1
  simp only [Option.getD_some] at hf1
  have : f1 = f0 := by
    rw [show (gid0, m).2.2 = m.2 from rfl] at hf1
    rw [hg] at hf1
    exact (Option.some.injEq .. ▸ hf1).symm
  subst this
  rw [show (gid0, m).1 = gid0 from rfl] at hfid
  rw [hfid]
  exact ⟨m.1, m.2, by rw [hm], by rw [hfl]; simpa using hg⟩

/-- In an invariant state, live pendings never exceed the stored counter, for
every listing id. -/
theorem livePendings_le (s : State) (h : Inv s) (x : Nat) :
    livePendings s x ≤ countOf s x := by
  rcases Nat.eq_zero_or_pos (livePendings s x) with h0 | h0
  · omega
  · unfold livePendings at h0
    have hne : s.myPendingMap.filter (fun kv => kv.1.2 == x && kv.2.value) ≠ [] := by
      intro hnil
      rw [hnil] at h0
      simp at h0
    obtain ⟨kv, hkv⟩ := List.exists_mem_of_ne_nil _ hne
    have hmem := List.mem_filter.mp hkv
    have hx : kv.1.2 = x := by
      have := hmem.2
      simp only [Bool.and_eq_true, beq_iff_eq] at this
      exact this.1
    have := h.count_ge kv hmem.1
    rw [hx] at this
    exact this

theorem Inv_direct_unpack (s : State) (h : Inv s) (u : Addr) (f : StoredFardel)
    (fh : Nat) (hfar : get_fardel_by_hash s fh = .ok (some f))
    (hunp : flagOf s u f.global_id = false)
    (hpen : (markerOf s u f.global_id).value = false) :
    Inv (increment_fardel_unpack_count (store_unpack s u f.global_id) f.global_id) := by
  obtain ⟨o0, i0, hmap0, -⟩ := resolve_fardel s h fh f hfar
  have hgfr : f.global_id < s.fardelCount :=
    h.mapping_fresh (f.global_id, (o0, i0)) (kvGet_mem _ _ _ hmap0)
  set gid := f.global_id with hgid
  set lg := (kvGet s.unpackedLog u).getD [] with hlg
  set s' := increment_fardel_unpack_count (store_unpack s u gid) gid with hs'
  have e1 : s'.fardels = s.fardels := rfl
  have e2 : s'.idFardelMapping = s.idFardelMapping := rfl
  have e4 : s'.numUnpacks = kvSet s.numUnpacks gid (countOf s gid + 1) := rfl
  have e5 : s'.unpackedLog = kvSet s.unpackedLog u (lg ++ [{ fardel_id := gid }]) := rfl
  have e6 : s'.unpackedMap = kvSet s.unpackedMap (u, gid) { unpacked := true } := rfl
  have e7 : s'.pendingQueue = s.pendingQueue := rfl
  have e8 : s'.pendingStartMap = s.pendingStartMap := rfl
  have e9 : s'.myPendingMap = s.myPendingMap := rfl
  have e10 : s'.fardelCount = s.fardelCount := rfl
  have hflag : ∀ u' x, flagOf s' u' x = if (u', x) = (u, gid) then true
      else flagOf s u' x := flagOf_of_map_eq u gid e6
  have hmark : ∀ u' x, markerOf s' u' x = markerOf s u' x := by
    intro u' x
    unfold markerOf get_pending_unpacked_status_by_fardel_id
    rw [e9]
  have hcount : ∀ x, countOf s' x = if x = gid then countOf s gid + 1
      else countOf s x := by
    intro x
    unfold countOf get_fardel_unpack_count
    rw [e4]
    by_cases hx : x = gid
    · rw [if_pos hx, hx, kvGet_kvSet_same]
      rfl
    · rw [if_neg hx, kvGet_kvSet_diff _ _ _ _ hx]
  have hlive : ∀ x, livePendings s' x = livePendings s x := by
    intro x
    unfold livePendings
    rw [e9]
  have hlg_flag : ∀ e ∈ lg, flagOf s u e.fardel_id = true := by
    intro e he
    rcases hk : kvGet s.unpackedLog u with - | l0
    · rw [hlg, hk] at he
      simp at he
    · rw [hlg, hk] at he
      exact h.log_flag (u, l0) (kvGet_mem _ _ _ hk) e he
  refine ⟨?_, ?_, ?_, ?_, ?_, ?_, ?_, ?_, ?_, ?_, ?_, ?_, ?_, ?_, ?_, ?_⟩
  · rw [e9]; exact h.marker_keys_nodup
  · rw [e7]; exact h.queue_keys_nodup
  · rw [e5]; exact kvSet_keys_nodup _ _ _ h.log_keys_nodup
  · rw [e2, e10]; exact h.mapping_fresh
  · rw [e4, e10]
    intro kv hkv
    rcases kvSet_mem _ _ _ hkv with hold | rfl
    · exact h.counts_fresh kv hold
    · exact hgfr
  · rw [e6, e10]
    intro kv hkv
    rcases kvSet_mem _ _ _ hkv with hold | rfl
    · exact h.flags_fresh kv hold
    · exact hgfr
  · rw [e9, e10]; exact h.markers_fresh
  · rw [e5, e10]
    intro kv hkv e he
    rcases kvSet_mem _ _ _ hkv with hold | rfl
    · exact h.logs_fresh kv hold e he
    · rcases List.mem_append.mp he with h1 | h1
      · rcases hk : kvGet s.unpackedLog u with - | l0
        · rw [hlg, hk] at h1
          simp at h1
        · rw [hlg, hk] at h1
          exact h.logs_fresh (u, l0) (kvGet_mem _ _ _ hk) e h1
      · simp at h1
        rw [h1]
        exact hgfr
  · rw [e7, e10]; exact h.queues_fresh
  · rw [e2]
    intro kv hkv
    obtain ⟨f1, hf1, hfid⟩ := h.mapping_valid kv hkv
    exact ⟨f1, by rw [e1]; exact hf1, hfid⟩
  · rw [e5]
    intro kv hkv e he
    rw [hflag]
    rcases kvSet_mem _ _ _ hkv with hold | rfl
    · by_cases hp : (kv.1, e.fardel_id) = (u, gid)
      · rw [if_pos hp]
      · rw [if_neg hp]
        exact h.log_flag kv hold e he
    · rcases List.mem_append.mp he with h1 | h1
      · by_cases hp : (u, e.fardel_id) = (u, gid)
        · rw [if_pos hp]
        · rw [if_neg hp]
          exact hlg_flag e h1
      · simp at h1
        rw [h1]
        simp
  · rw [e5]
    intro kv hkv
    rcases kvSet_mem _ _ _ hkv with hold | rfl
    · exact h.log_nodup kv hold
    · rw [List.map_append]
      simp only [List.map_cons, List.map_nil]
      rw [List.nodup_append]
      refine ⟨?_, List.nodup_singleton _, ?_⟩
      · rcases hk : kvGet s.unpackedLog u with - | l0
        · rw [hlg, hk]
          simp
        · rw [hlg, hk]
          exact h.log_nodup (u, l0) (kvGet_mem _ _ _ hk)
      · intro x hx
        simp only [List.mem_singleton]
        intro hxg
        rw [hxg] at hx
        obtain ⟨e, he, hei⟩ := List.mem_map.mp hx
        have := hlg_flag e he
        rw [hei] at this
        rw [this] at hunp
        exact absurd hunp (by simp)
  · rw [e7]
    intro kv hkv i hi e he hcanc
    have hst : get_pending_start s' kv.1 = get_pending_start s kv.1 := by
      unfold get_pending_start
      rw [e8]
    rw [hst] at hi
    obtain ⟨hf, hm⟩ := h.live_entry kv hkv i hi e he hcanc
    constructor
    · rw [hflag]
      rw [if_neg (by
        intro hp
        have hu : e.unpacker = u := congrArg Prod.fst hp
        have hx : e.fardel_id = gid := congrArg Prod.snd hp
        rw [hu, hx] at hm
        rw [hm] at hpen
        simp at hpen)]
      exact hf
    · rw [hmark]
      exact hm
  · rw [e9]
    intro kv hkv hv
    obtain ⟨o, i2, hmapv, e, hget, he1, he2, he3⟩ := h.marker_sound kv hkv hv
    refine ⟨o, i2, by rw [e2]; exact hmapv, e, ?_, he1, he2, he3⟩
    have : queueOf s' o = queueOf s o := by
      unfold queueOf
      rw [e7]
    rw [this]
    exact hget
  · rw [e7]
    intro kv hkv e he
    obtain ⟨i2, f1, hmapv, hgetf, hc1, hc2⟩ := h.entry_coin kv hkv e he
    exact ⟨i2, f1, by rw [e2]; exact hmapv, by rw [e1]; exact hgetf, hc1, hc2⟩
  · rw [e9]
    intro kv hkv
    rw [hlive, hcount]
    by_cases hx : kv.1.2 = gid
    · rw [if_pos hx, hx]
      have := livePendings_le s h gid
      omega
    · rw [if_neg hx]
      exact h.count_ge kv hkv

theorem markerOf_of_map_eq {s' s : State} (u0 : Addr) (f0 i : Nat) (b : Bool)
    (h : s'.myPendingMap = kvSet s.myPendingMap (u0, f0)
      { pending_unpack_idx := i, value := b }) (u : Addr) (x : Nat) :
    markerOf s' u x = if (u, x) = (u0, f0) then { pending_unpack_idx := i, value := b }
      else markerOf s u x := by
  unfold markerOf get_pending_unpacked_status_by_fardel_id
  rw [h]
  by_cases hx : (u, x) = (u0, f0)
  · rw [if_pos hx, hx]
    simp [kvGet_kvSet_same]
  · rw [if_neg hx, kvGet_kvSet_diff _ _ _ _ hx]

theorem Inv_pending_unpack (s : State) (h : Inv s) (u : Addr) (f : StoredFardel)
    (fh : Nat) (o : Addr) (coin0 : Coin) (t : Nat)
    (hfar : get_fardel_by_hash s fh = .ok (some f))
    (hown : get_fardel_owner s f.global_id = .ok o)
    (hunp : flagOf s u f.global_id = false)
    (hpen : (markerOf s u f.global_id).value = false)
    (hamt : coin0.amount = f.cost)
    (hden : coin0.denom = DENOM) :
    Inv (increment_fardel_unpack_count
      (store_pending_unpack s o u f.global_id coin0 t) f.global_id) := by
  obtain ⟨o0, i0, hmap0, hbody0⟩ := resolve_fardel s h fh f hfar
  have ho0 : o0 = o := by
    unfold get_fardel_owner at hown
    rw [hmap0] at hown
    simpa using hown
  subst ho0
  have hgfr : f.global_id < s.fardelCount :=
    h.mapping_fresh (f.global_id, (o0, i0)) (kvGet_mem _ _ _ hmap0)
  set gid := f.global_id with hgid
  set q := queueOf s o0 with hq0
  set entry : PendingUnpackApproval :=
    { fardel_id := gid, unpacker := u, coin := coin0, timestamp := t,
      canceled := false } with hentry
  set s' := increment_fardel_unpack_count
    (store_pending_unpack s o0 u gid coin0 t) gid with hs'
  have e1 : s'.fardels = s.fardels := rfl
  have e2 : s'.idFardelMapping = s.idFardelMapping := rfl
  have e4 : s'.numUnpacks = kvSet s.numUnpacks gid (countOf s gid + 1) := rfl
  have e5 : s'.unpackedLog = s.unpackedLog := rfl
  have e6 : s'.unpackedMap = s.unpackedMap := rfl
  have e7 : s'.pendingQueue = kvSet s.pendingQueue o0 (q ++ [entry]) := rfl
  have e8 : s'.pendingStartMap = s.pendingStartMap := rfl
  have e9 : s'.myPendingMap = kvSet s.myPendingMap (u, gid)
    { pending_unpack_idx := q.length, value := true } := rfl
  have e10 : s'.fardelCount = s.fardelCount := rfl
  have hflag : ∀ u' x, flagOf s' u' x = flagOf s u' x := by
    intro u' x
    unfold flagOf get_unpacked_status_by_fardel_id
    rw [e6]
  have hmark : ∀ u' x, markerOf s' u' x =
      if (u', x) = (u, gid) then { pending_unpack_idx := q.length, value := true }
      else markerOf s u' x := markerOf_of_map_eq u gid q.length true e9
  have hqof : ∀ o', queueOf s' o' = if o' = o0 then q ++ [entry] else queueOf s o' := by
    intro o'
    unfold queueOf
    rw [e7]
    by_cases ho : o' = o0
    · rw [if_pos ho, ho, kvGet_kvSet_same]
      rfl
    · rw [if_neg ho, kvGet_kvSet_diff _ _ _ _ ho]
  have hcount : ∀ x, countOf s' x = if x = gid then countOf s gid + 1
      else countOf s x := by
    intro x
    unfold countOf get_fardel_unpack_count
    rw [e4]
    by_cases hx : x = gid
    · rw [if_pos hx, hx, kvGet_kvSet_same]
      rfl
    · rw [if_neg hx, kvGet_kvSet_diff _ _ _ _ hx]
  have hstart : ∀ o', get_pending_start s' o' = get_pending_start s o' := by
    intro o'
    unfold get_pending_start
    rw [e8]
  have hlive : ∀ x, livePendings s' x =
      livePendings s x + (if gid = x then 1 else 0) := by
    intro x
    have hmaster := kvSet_filter_length s.myPendingMap (u, gid)
      { pending_unpack_idx := q.length, value := true }
      (fun kv => kv.1.2 == x && kv.2.value) h.marker_keys_nodup
    unfold livePendings
    rw [e9]
    unfold markerOf get_pending_unpacked_status_by_fardel_id at hpen
    rcases hget : kvGet s.myPendingMap (u, gid) with - | mp
    · rw [hget] at hmaster
      simp only at hmaster
      by_cases hgx : gid = x
      · subst hgx
        simp at hmaster ⊢
        omega
      · simp [hgx] at hmaster ⊢
        omega
    · rw [hget] at hmaster
      rw [hget] at hpen
      simp only [Option.getD_some] at hpen
      simp only [hpen] at hmaster
      by_cases hgx : gid = x
      · subst hgx
        simp at hmaster ⊢
        omega
      · simp [hgx] at hmaster ⊢
        omega
  have hq_mem : ∀ e ∈ q, ∃ l0, kvGet s.pendingQueue o0 = some l0 ∧ e ∈ l0 := by
    intro e he
    rcases hk : kvGet s.pendingQueue o0 with - | l0
    · rw [hq0] at he
      unfold queueOf at he
      rw [hk] at he
      simp at he
    · refine ⟨l0, rfl, ?_⟩
      rw [hq0] at he
      unfold queueOf at he
      rw [hk] at he
      simpa using he
  refine ⟨?_, ?_, ?_, ?_, ?_, ?_, ?_, ?_, ?_, ?_, ?_, ?_, ?_, ?_, ?_, ?_⟩
  · rw [e9]; exact kvSet_keys_nodup _ _ _ h.marker_keys_nodup
  · rw [e7]; exact kvSet_keys_nodup _ _ _ h.queue_keys_nodup
  · rw [e5]; exact h.log_keys_nodup
  · rw [e2, e10]; exact h.mapping_fresh
  · rw [e4, e10]
    intro kv hkv
    rcases kvSet_mem _ _ _ hkv with hold | rfl
    · exact h.counts_fresh kv hold
    · exact hgfr
  · rw [e6, e10]; exact h.flags_fresh
  · rw [e9, e10]
    intro kv hkv
    rcases kvSet_mem _ _ _ hkv with hold | rfl
    · exact h.markers_fresh kv hold
    · exact hgfr
  · rw [e5, e10]; exact h.logs_fresh
  · rw [e7, e10]
    intro kv hkv e he
    rcases kvSet_mem _ _ _ hkv with hold | rfl
    · exact h.queues_fresh kv hold e he
    · rcases List.mem_append.mp he with h1 | h1
      · obtain ⟨l0, hl0, hel0⟩ := hq_mem e h1
        exact h.queues_fresh (o0, l0) (kvGet_mem _ _ _ hl0) e hel0
      · simp at h1
        rw [h1]
        exact hgfr
  · rw [e2]
    intro kv hkv
    obtain ⟨f1, hf1, hfid⟩ := h.mapping_valid kv hkv
    exact ⟨f1, by rw [e1]; exact hf1, hfid⟩
  · rw [e5]
    intro kv hkv e he
    rw [hflag]
    exact h.log_flag kv hkv e he
  · rw [e5]; exact h.log_nodup
  · -- live_entry
    intro kv hkv i hi e he hcanc
    rw [hstart] at hi
    rw [e7] at hkv
    by_cases hko : kv.1 = o0
    · have hkv2 : kv.2 = q ++ [entry] := by
        have hnodup : ((kvSet s.pendingQueue o0 (q ++ [entry])).map Prod.fst).Nodup :=
          kvSet_keys_nodup _ _ _ h.queue_keys_nodup
        have hget2 := kvGet_eq_of_mem_nodup hnodup (by
          rw [show (kv.1, kv.2) = kv from rfl, hko] at *
          exact hko ▸ hkv)
        rw [hko] at hget2
        rw [kvGet_kvSet_same] at hget2
        simpa using hget2.symm
      rw [hkv2] at he
      rcases Nat.lt_trichotomy i q.length with hilt | hieq | higt
      · rw [List.get?_append hilt] at he
        rcases hk : kvGet s.pendingQueue o0 with - | l0
        · exfalso
          have hqnil : q = [] := by
            rw [hq0]
            unfold queueOf
            rw [hk]
            rfl
          rw [hqnil] at hilt
          simp at hilt
        have hql : q = l0 := by
          rw [hq0]
          unfold queueOf
          rw [hk]
          rfl
        rw [hql] at he
        have hi2 : get_pending_start s o0 ≤ i := by rw [← hko]; exact hi
        obtain ⟨hf2, hm2⟩ := h.live_entry (o0, l0) (kvGet_mem _ _ _ hk) i hi2 e he hcanc
        constructor
        · rw [hflag]
          exact hf2
        · rw [hmark]
          rw [if_neg (by
            intro hp
            have hu : e.unpacker = u := congrArg Prod.fst hp
            have hx : e.fardel_id = gid := congrArg Prod.snd hp
            rw [hu, hx] at hm2
            rw [hm2] at hpen
            simp at hpen)]
          exact hm2
      · rw [hieq, List.get?_concat_length] at he
        simp only [Option.some.injEq] at he
        subst he
        constructor
        · rw [hflag]
          exact hunp
        · rw [hmark]
          rw [if_pos rfl, hieq]
      · rw [List.get?_eq_none.mpr (by simp; omega)] at he
        simp at he
    · have hold : kv ∈ s.pendingQueue := by
        rcases kvSet_mem _ _ _ hkv with h1 | h1
        · exact h1
        · exact absurd (congrArg Prod.fst h1) hko
      obtain ⟨hf2, hm2⟩ := h.live_entry kv hold i hi e he hcanc
      constructor
      · rw [hflag]
        exact hf2
      · rw [hmark]
        rw [if_neg (by
          intro hp
          have hu : e.unpacker = u := congrArg Prod.fst hp
          have hx : e.fardel_id = gid := congrArg Prod.snd hp
          rw [hu, hx] at hm2
          rw [hm2] at hpen
          simp at hpen)]
        exact hm2
  · -- marker_sound
    intro kv hkv hv
    rw [e9] at hkv
    by_cases hku : kv.1 = (u, gid)
    · have hkv2 : kv.2 = { pending_unpack_idx := q.length, value := true } := by
        have hnodup := kvSet_keys_nodup s.myPendingMap (u, gid)
          { pending_unpack_idx := q.length, value := true } h.marker_keys_nodup
        have hget2 := kvGet_eq_of_mem_nodup hnodup (by
          rw [show (kv.1, kv.2) = kv from rfl, hku] at *
          exact hku ▸ hkv)
        rw [hku, kvGet_kvSet_same] at hget2
        simpa using hget2.symm
      refine ⟨o0, i0, ?_, entry, ?_, ?_, ?_, rfl⟩
      · rw [e2]
        have hsnd : kv.1.2 = gid := congrArg Prod.snd hku
        rw [hsnd]
        exact hmap0
      · rw [hqof, if_pos rfl, hkv2]
        exact List.get?_concat_length q entry
      · exact (congrArg Prod.fst hku).symm
      · exact (congrArg Prod.snd hku).symm
    · have hold : kv ∈ s.myPendingMap := by
        rcases kvSet_mem _ _ _ hkv with h1 | h1
        · exact h1
        · exact absurd (congrArg Prod.fst h1) hku
      obtain ⟨o2, i2, hmapv, e, hget, he1, he2, he3⟩ := h.marker_sound kv hold hv
      refine ⟨o2, i2, by rw [e2]; exact hmapv, e, ?_, he1, he2, he3⟩
      rw [hqof]
      by_cases ho2 : o2 = o0
      · rw [if_pos ho2]
        rw [ho2] at hget
        obtain ⟨hn, -⟩ := List.get?_eq_some.mp hget
        rw [List.get?_append hn]
        exact hget
      · rw [if_neg ho2]
        exact hget
  · -- entry_coin
    intro kv hkv e he
    rw [e7] at hkv
    by_cases hko : kv.1 = o0
    · have hkv2 : kv.2 = q ++ [entry] := by
        have hnodup := kvSet_keys_nodup s.pendingQueue o0 (q ++ [entry])
          h.queue_keys_nodup
        have hget2 := kvGet_eq_of_mem_nodup hnodup (by
          rw [show (kv.1, kv.2) = kv from rfl, hko] at *
          exact hko ▸ hkv)
        rw [hko, kvGet_kvSet_same] at hget2
        simpa using hget2.symm
      rw [hkv2] at he
      rcases List.mem_append.mp he with h1 | h1
      · obtain ⟨l0, hl0, hel0⟩ := hq_mem e h1
        obtain ⟨i2, f1, hmapv, hgetf, hc1, hc2⟩ :=
          h.entry_coin (o0, l0) (kvGet_mem _ _ _ hl0) e hel0
        refine ⟨i2, f1, ?_, ?_, hc1, hc2⟩
        · rw [e2, hko]
          exact hmapv
        · rw [e1, hko]
          exact hgetf
      · simp only [List.mem_singleton] at h1
        subst h1
        refine ⟨i0, f, ?_, ?_, hamt, hden⟩
        · rw [e2, hko]
          exact hmap0
        · rw [e1, hko]
          exact hbody0
    · have hold : kv ∈ s.pendingQueue := by
        rcases kvSet_mem _ _ _ hkv with h1 | h1
        · exact h1
        · exact absurd (congrArg Prod.fst h1) hko
      obtain ⟨i2, f1, hmapv, hgetf, hc1, hc2⟩ := h.entry_coin kv hold e he
      exact ⟨i2, f1, by rw [e2]; exact hmapv, by rw [e1]; exact hgetf, hc1, hc2⟩
  · -- count_ge
    intro kv hkv
    rw [hlive, hcount]
    by_cases hx : kv.1.2 = gid
    · rw [hx]
      have := livePendings_le s h gid
      simp only [if_pos rfl]
      simp
      omega
    · rw [if_neg (fun hp => hx hp.symm), if_neg hx]
      exact livePendings_le s h kv.1.2

/-! ### Invariant preservation: cancellation -/

/-- The state effect of a successful `cancel_pending_unpack`: flip the marked
queue entry's `canceled` flag, then clear the purchaser's marker. -/
def cancel_core (s : State) (o u : Addr) (fid : Nat) (e : PendingUnpackApproval) :
    State :=
  let idx := (markerOf s u fid).pending_unpack_idx
  let q1 := (queueOf s o).set idx { e with canceled := true }
  let s2 := { s with pendingQueue := kvSet s.pendingQueue o q1 }
  map_global_id_to_pending_unpacked_by_unpacker s2 fid u idx false

/-- What a successful `cancel_pending_unpack` is: the marker was set, the
marked entry exists, and the result is `cancel_core`. -/
theorem cancel_pending_unpack_ok (s : State) (o u : Addr) (fid : Nat) (s1 : State)
    (heq : cancel_pending_unpack s o u fid = .ok s1) :
    (markerOf s u fid).value = true ∧
    ∃ e, (queueOf s o).get? (markerOf s u fid).pending_unpack_idx = some e ∧
      s1 = cancel_core s o u fid e := by
  unfold cancel_pending_unpack at heq
  by_cases hv : (get_pending_unpacked_status_by_fardel_id s u fid).value
  · rw [if_pos hv] at heq
    rcases hga : get_pending_unpack_approval s o
        (get_pending_unpacked_status_by_fardel_id s u fid).pending_unpack_idx
      with e | ee
    · rw [hga] at heq
      simp at heq
    · rw [hga] at heq
      dsimp only at heq
      simp only [Except.ok.injEq] at heq
      refine ⟨hv, ee, ?_, ?_⟩
      · unfold get_pending_unpack_approval at hga
        rcases hk : kvGet s.pendingQueue o with - | qq
        · rw [hk] at hga
          simp at hga
        · rw [hk] at hga
          dsimp only at hga
          rcases hg : qq.get? (get_pending_unpacked_status_by_fardel_id s u
              fid).pending_unpack_idx with - | e2
          · rw [hg] at hga
            simp at hga
          · rw [hg] at hga
            simp only [Except.ok.injEq] at hga
            subst hga
            unfold queueOf markerOf
            rw [hk]
            simpa using hg
      · rw [← heq]
        unfold cancel_core queueOf markerOf
        rfl
  · rw [if_neg hv] at heq
    simp at heq

theorem decrement_core (s : State) (fid : Nat) :
    (decrement_fardel_unpack_count s fid).fardels = s.fardels ∧
    (decrement_fardel_unpack_count s fid).idFardelMapping = s.idFardelMapping ∧
    (decrement_fardel_unpack_count s fid).unpackedLog = s.unpackedLog ∧
    (decrement_fardel_unpack_count s fid).unpackedMap = s.unpackedMap ∧
    (decrement_fardel_unpack_count s fid).pendingQueue = s.pendingQueue ∧
    (decrement_fardel_unpack_count s fid).pendingStartMap = s.pendingStartMap ∧
    (decrement_fardel_unpack_count s fid).myPendingMap = s.myPendingMap ∧
    (decrement_fardel_unpack_count s fid).fardelCount = s.fardelCount := by
  unfold decrement_fardel_unpack_count
  dsimp only
  split
  · exact ⟨rfl, rfl, rfl, rfl, rfl, rfl, rfl, rfl⟩
  · exact ⟨rfl, rfl, rfl, rfl, rfl, rfl, rfl, rfl⟩

theorem Inv_cancel (s : State) (h : Inv s) (o u : Addr) (fid : Nat) (s1 : State)
    (hok : cancel_pending_unpack s o u fid = .ok s1)
    (hown : get_fardel_owner s fid = .ok o) :
    Inv (decrement_fardel_unpack_count s1 fid) := by
  obtain ⟨hv, e, hget, hs1⟩ := cancel_pending_unpack_ok s o u fid s1 hok
  -- the marker is an actual map member
  have hmem : ((u, fid), markerOf s u fid) ∈ s.myPendingMap := by
    rcases hk : kvGet s.myPendingMap (u, fid) with - | mp0
    · exfalso
      unfold markerOf get_pending_unpacked_status_by_fardel_id at hv
      rw [hk] at hv
      simp at hv
    · have hm0 : markerOf s u fid = mp0 := by
        unfold markerOf get_pending_unpacked_status_by_fardel_id
        rw [hk]
        rfl
      rw [hm0]
      exact kvGet_mem _ _ _ hk
  set mp := markerOf s u fid with hmp
  set idx := mp.pending_unpack_idx with hidx
  set qq := queueOf s o with hqq
  -- marker soundness pins down the marked entry
  obtain ⟨o2, i2, hmap2a, e2, hget2a, he2ua, he2fa, he2c⟩ := h.marker_sound _ hmem hv
  have hmap2 : kvGet s.idFardelMapping fid = some (o2, i2) := hmap2a
  have hget2 : (queueOf s o2).get? idx = some e2 := hget2a
  have he2u : e2.unpacker = u := he2ua
  have he2f : e2.fardel_id = fid := he2fa
  have ho2 : o2 = o := by
    unfold get_fardel_owner at hown
    rw [hmap2] at hown
    simpa using hown
  rw [ho2] at hmap2 hget2
  have hee : e2 = e := by
    have h1 := hget.symm.trans hget2
    simpa using h1.symm
  have heu : e.unpacker = u := by rw [← hee]; exact he2u
  have hef : e.fardel_id = fid := by rw [← hee]; exact he2f
  have hec : e.canceled = false := by rw [← hee]; exact he2c
  have hfr : fid < s.fardelCount := h.markers_fresh _ hmem
  have hidxlt : idx < qq.length := (List.get?_eq_some.mp hget).1
  have hcpos : 1 ≤ countOf s fid :=
    le_trans (livePendings_pos s u fid hv) (livePendings_le s h fid)
  set e' : PendingUnpackApproval := { e with canceled := true } with he'
  set s' := decrement_fardel_unpack_count s1 fid with hs'
  have e1 : s'.fardels = s.fardels := by
    rw [hs', (decrement_core s1 fid).1, hs1]; rfl
  have e2m : s'.idFardelMapping = s.idFardelMapping := by
    rw [hs', (decrement_core s1 fid).2.1, hs1]; rfl
  have e5 : s'.unpackedLog = s.unpackedLog := by
    rw [hs', (decrement_core s1 fid).2.2.1, hs1]; rfl
  have e6 : s'.unpackedMap = s.unpackedMap := by
    rw [hs', (decrement_core s1 fid).2.2.2.1, hs1]; rfl
  have e7 : s'.pendingQueue = kvSet s.pendingQueue o (qq.set idx e') := by
    rw [hs', (decrement_core s1 fid).2.2.2.2.1, hs1]; rfl
  have e8 : s'.pendingStartMap = s.pendingStartMap := by
    rw [hs', (decrement_core s1 fid).2.2.2.2.2.1, hs1]; rfl
  have e9 : s'.myPendingMap = kvSet s.myPendingMap (u, fid)
      { pending_unpack_idx := idx, value := false } := by
    rw [hs', (decrement_core s1 fid).2.2.2.2.2.2.1, hs1]; rfl
  have e10 : s'.fardelCount = s.fardelCount := by
    rw [hs', (decrement_core s1 fid).2.2.2.2.2.2.2, hs1]; rfl
  have hs1count : countOf s1 fid = countOf s fid := by
    rw [hs1]
    unfold countOf get_fardel_unpack_count
    rfl
  have hcount : ∀ x, countOf s' x = if x = fid then countOf s fid - 1
      else countOf s x := by
    intro x
    rw [hs']
    rw [countOf_decrement]
    by_cases hx : x = fid
    · rw [if_pos hx, if_pos hx, hx, hs1count]
    · rw [if_neg hx, if_neg hx, hs1]
      unfold countOf get_fardel_unpack_count
      rfl
  have hflag : ∀ u' x, flagOf s' u' x = flagOf s u' x := by
    intro u' x
    unfold flagOf get_unpacked_status_by_fardel_id
    rw [e6]
  have hmark : ∀ u' x, markerOf s' u' x =
      if (u', x) = (u, fid) then { pending_unpack_idx := idx, value := false }
      else markerOf s u' x := markerOf_of_map_eq u fid idx false e9
  have hqof : ∀ o', queueOf s' o' = if o' = o then qq.set idx e'
      else queueOf s o' := by
    intro o'
    unfold queueOf
    rw [e7]
    by_cases ho : o' = o
    · rw [if_pos ho, ho, kvGet_kvSet_same]
      rfl
    · rw [if_neg ho, kvGet_kvSet_diff _ _ _ _ ho]
  have hstart : ∀ o', get_pending_start s' o' = get_pending_start s o' := by
    intro o'
    unfold get_pending_start
    rw [e8]
  have hlive : ∀ x, livePendings s' x + (if fid = x then 1 else 0) =
      livePendings s x := by
    intro x
    have hmaster := kvSet_filter_length s.myPendingMap (u, fid)
      { pending_unpack_idx := idx, value := false }
      (fun kv => kv.1.2 == x && kv.2.value) h.marker_keys_nodup
    unfold livePendings
    rw [e9]
    have hkget : kvGet s.myPendingMap (u, fid) = some mp :=
      kvGet_eq_of_mem_nodup h.marker_keys_nodup hmem
    rw [hkget] at hmaster
    by_cases hgx : fid = x
    · subst hgx
      simp [hv] at hmaster ⊢
      omega
    · simp [hgx] at hmaster ⊢
      omega
  have hqq_mem : (o, qq) ∈ s.pendingQueue := by
    rcases hk : kvGet s.pendingQueue o with - | l0
    · exfalso
      have : qq = [] := by
        rw [hqq]
        unfold queueOf
        rw [hk]
        rfl
      rw [this] at hidxlt
      simp at hidxlt
    · have : qq = l0 := by
        rw [hqq]
        unfold queueOf
        rw [hk]
        rfl
      rw [this]
      exact kvGet_mem _ _ _ hk
  refine ⟨?_, ?_, ?_, ?_, ?_, ?_, ?_, ?_, ?_, ?_, ?_, ?_, ?_, ?_, ?_, ?_⟩
  · rw [e9]; exact kvSet_keys_nodup _ _ _ h.marker_keys_nodup
  · rw [e7]; exact kvSet_keys_nodup _ _ _ h.queue_keys_nodup
  · rw [e5]; exact h.log_keys_nodup
  · rw [e2m, e10]; exact h.mapping_fresh
  · rw [e10]
    intro kv hkv
    have : kv ∈ s'.numUnpacks := hkv
    rw [hs'] at this
    unfold decrement_fardel_unpack_count at this
    dsimp only at this
    by_cases hlt : (get_fardel_unpack_count s1 fid).getD 0 < 1
    · rw [if_pos hlt] at this
      rw [hs1] at this
      exact h.counts_fresh kv this
    · rw [if_neg hlt] at this
      unfold store_fardel_unpack_count at this
      dsimp only at this
      rcases kvSet_mem _ _ _ this with hold | rfl
      · rw [hs1] at hold
        exact h.counts_fresh kv hold
      · exact hfr
  · rw [e6, e10]; exact h.flags_fresh
  · rw [e9, e10]
    intro kv hkv
    rcases kvSet_mem _ _ _ hkv with hold | rfl
    · exact h.markers_fresh kv hold
    · exact hfr
  · rw [e5, e10]; exact h.logs_fresh
  · rw [e7, e10]
    intro kv hkv ee hee
    rcases kvSet_mem _ _ _ hkv with hold | rfl
    · exact h.queues_fresh kv hold ee hee
    · rcases List.mem_or_eq_of_mem_set hee with h1 | h1
      · exact h.queues_fresh (o, qq) hqq_mem ee h1
      · rw [h1]
        have : e ∈ qq := List.get?_mem hget
        have := h.queues_fresh (o, qq) hqq_mem e this
        simpa [he'] using this
  · rw [e2m]
    intro kv hkv
    obtain ⟨f1, hf1, hfid⟩ := h.mapping_valid kv hkv
    exact ⟨f1, by rw [e1]; exact hf1, hfid⟩
  · rw [e5]
    intro kv hkv ee hee
    rw [hflag]
    exact h.log_flag kv hkv ee hee
  · rw [e5]; exact h.log_nodup
  · -- live_entry
    intro kv hkv i hi ee hee hcanc
    rw [hstart] at hi
    rw [e7] at hkv
    by_cases hko : kv.1 = o
    · have hkv2 : kv.2 = qq.set idx e' := by
        have hnodup := kvSet_keys_nodup s.pendingQueue o (qq.set idx e')
          h.queue_keys_nodup
        have hget3 := kvGet_eq_of_mem_nodup hnodup (by
          rw [show (kv.1, kv.2) = kv from rfl, hko] at *
          exact hko ▸ hkv)
        rw [hko, kvGet_kvSet_same] at hget3
        simpa using hget3.symm
      rw [hkv2] at hee
      by_cases hieq : i = idx
      · rw [hieq, List.get?_set_eq_of_lt _ hidxlt] at hee
        simp only [Option.some.injEq] at hee
        rw [← hee] at hcanc
        simp [he'] at hcanc
      · rw [List.get?_set_ne _ _ (fun hx => hieq hx.symm)] at hee
        have hi2 : get_pending_start s o ≤ i := by rw [← hko]; exact hi
        obtain ⟨hf2, hm2⟩ := h.live_entry (o, qq) hqq_mem i hi2 ee hee hcanc
        constructor
        · rw [hflag]
          exact hf2
        · rw [hmark]
          rw [if_neg (by
            intro hp
            have hu2 : ee.unpacker = u := congrArg Prod.fst hp
            have hx2 : ee.fardel_id = fid := congrArg Prod.snd hp
            rw [hu2, hx2] at hm2
            rw [← hmp] at hm2
            have hidxi : idx = i := by rw [hidx, hm2]
            exact hieq hidxi.symm)]
          exact hm2
    · have hold : kv ∈ s.pendingQueue := by
        rcases kvSet_mem _ _ _ hkv with h1 | h1
        · exact h1
        · exact absurd (congrArg Prod.fst h1) hko
      obtain ⟨hf2, hm2⟩ := h.live_entry kv hold i hi ee hee hcanc
      constructor
      · rw [hflag]
        exact hf2
      · rw [hmark]
        rw [if_neg (by
          intro hp
          have hx2 : ee.fardel_id = fid := congrArg Prod.snd hp
          obtain ⟨i2', f2', hmapv', -⟩ := h.entry_coin kv hold ee (List.get?_mem hee)
          rw [hx2, hmap2] at hmapv'
          have : kv.1 = o := by
            have := Option.some.injEq .. ▸ hmapv'
            exact (congrArg Prod.fst this).symm
          exact hko this)]
        exact hm2
  · -- marker_sound
    intro kv hkv hvv
    rw [e9] at hkv
    by_cases hku : kv.1 = (u, fid)
    · exfalso
      have hkv2 : kv.2 = { pending_unpack_idx := idx, value := false } := by
        have hnodup := kvSet_keys_nodup s.myPendingMap (u, fid)
          { pending_unpack_idx := idx, value := false } h.marker_keys_nodup
        have hget3 := kvGet_eq_of_mem_nodup hnodup (by
          rw [show (kv.1, kv.2) = kv from rfl, hku] at *
          exact hku ▸ hkv)
        rw [hku, kvGet_kvSet_same] at hget3
        simpa using hget3.symm
      rw [hkv2] at hvv
      simp at hvv
    · have hold : kv ∈ s.myPendingMap := by
        rcases kvSet_mem _ _ _ hkv with h1 | h1
        · exact h1
        · exact absurd (congrArg Prod.fst h1) hku
      obtain ⟨o3, i3, hmapv, e3, hget3, he31, he32, he33⟩ := h.marker_sound kv hold hvv
      refine ⟨o3, i3, by rw [e2m]; exact hmapv, e3, ?_, he31, he32, he33⟩
      rw [hqof]
      by_cases ho3 : o3 = o
      · rw [if_pos ho3]
        rw [ho3] at hget3
        by_cases hi3 : kv.2.pending_unpack_idx = idx
        · exfalso
          rw [hi3] at hget3
          have he3e : e3 = e := by
            have h12 : e3 = e2 := by
              have h13 := hget3.symm.trans hget2
              simpa using h13
            rw [h12, hee]
          subst he3e
          apply hku
          have h1 : kv.1.1 = u := by rw [← he31, heu]
          have h2 : kv.1.2 = fid := by rw [← he32, hef]
          exact Prod.ext h1 h2
        · rw [List.get?_set_ne _ _ (fun hx => hi3 hx.symm)]
          exact hget3
      · rw [if_neg ho3]
        exact hget3
  · -- entry_coin
    intro kv hkv ee hee
    rw [e7] at hkv
    by_cases hko : kv.1 = o
    · have hkv2 : kv.2 = qq.set idx e' := by
        have hnodup := kvSet_keys_nodup s.pendingQueue o (qq.set idx e')
          h.queue_keys_nodup
        have hget3 := kvGet_eq_of_mem_nodup hnodup (by
          rw [show (kv.1, kv.2) = kv from rfl, hko] at *
          exact hko ▸ hkv)
        rw [hko, kvGet_kvSet_same] at hget3
        simpa using hget3.symm
      rw [hkv2] at hee
      rcases List.mem_or_eq_of_mem_set hee with h1 | h1
      · obtain ⟨i3, f3, hmapv, hgetf, hc1, hc2⟩ :=
          h.entry_coin (o, qq) hqq_mem ee h1
        refine ⟨i3, f3, ?_, ?_, hc1, hc2⟩
        · rw [e2m, hko]
          exact hmapv
        · rw [e1, hko]
          exact hgetf
      · obtain ⟨i3, f3, hmapv, hgetf, hc1, hc2⟩ :=
          h.entry_coin (o, qq) hqq_mem e (List.get?_mem hget)
        subst h1
        refine ⟨i3, f3, ?_, ?_, by simpa [he'] using hc1, by simpa [he'] using hc2⟩
        · rw [e2m, hko]
          simpa [he'] using hmapv
        · rw [e1, hko]
          exact hgetf
    · have hold : kv ∈ s.pendingQueue := by
        rcases kvSet_mem _ _ _ hkv with h1 | h1
        · exact h1
        · exact absurd (congrArg Prod.fst h1) hko
      obtain ⟨i3, f3, hmapv, hgetf, hc1, hc2⟩ := h.entry_coin kv hold ee hee
      exact ⟨i3, f3, by rw [e2m]; exact hmapv, by rw [e1]; exact hgetf, hc1, hc2⟩
  · -- count_ge
    intro kv hkv
    have hl := hlive kv.1.2
    rw [hcount]
    by_cases hx : kv.1.2 = fid
    · rw [if_pos hx]
      rw [hx] at hl ⊢
      simp at hl
      have := livePendings_le s h fid
      omega
    · rw [if_neg hx]
      rw [if_neg (fun hp => hx hp.symm)] at hl
      have := livePendings_le s h kv.1.2
      omega

/-! ### Invariant preservation: batch approval -/

theorem storeUnpacksFold_nil (s : State) : storeUnpacksFold s [] = s := rfl

theorem storeUnpacksFold_cons (s : State) (e : PendingUnpackApproval)
    (es : List PendingUnpackApproval) :
    storeUnpacksFold s (e :: es) =
      storeUnpacksFold (store_unpack s e.unpacker e.fardel_id) es := rfl

theorem storeUnpacksFold_core (es : List PendingUnpackApproval) :
    ∀ s : State,
    (storeUnpacksFold s es).pendingQueue = s.pendingQueue ∧
    (storeUnpacksFold s es).pendingStartMap = s.pendingStartMap ∧
    (storeUnpacksFold s es).myPendingMap = s.myPendingMap ∧
    (storeUnpacksFold s es).numUnpacks = s.numUnpacks ∧
    (storeUnpacksFold s es).idFardelMapping = s.idFardelMapping ∧
    (storeUnpacksFold s es).fardels = s.fardels ∧
    (storeUnpacksFold s es).fardelCount = s.fardelCount := by
  induction es with
  | nil => intro s; exact ⟨rfl, rfl, rfl, rfl, rfl, rfl, rfl⟩
  | cons e rest ih =>
      intro s
      rw [storeUnpacksFold_cons]
      exact ih (store_unpack s e.unpacker e.fardel_id)

theorem flagOf_storeUnpacksFold (es : List PendingUnpackApproval) :
    ∀ (s : State) (u : Addr) (x : Nat),
    flagOf (storeUnpacksFold s es) u x =
      (flagOf s u x || es.any (fun e => e.unpacker == u && e.fardel_id == x)) := by
  induction es with
  | nil => intro s u x; simp [storeUnpacksFold_nil]
  | cons e rest ih =>
      intro s u x
      rw [storeUnpacksFold_cons, ih]
      rw [flagOf_store_unpack]
      by_cases hp : (u, x) = (e.unpacker, e.fardel_id)
      · rw [if_pos hp]
        have h1 : e.unpacker = u := (congrArg Prod.fst hp).symm
        have h2 : e.fardel_id = x := (congrArg Prod.snd hp).symm
        simp [h1, h2]
      · rw [if_neg hp]
        have hfe : (e.unpacker == u && e.fardel_id == x) = false := by
          rcases Bool.eq_false_or_eq_true (e.unpacker == u && e.fardel_id == x) with hb | hb
          · exfalso
            simp only [Bool.and_eq_true, beq_iff_eq] at hb
            exact hp (by rw [hb.1, hb.2])
          · exact hb
        simp only [List.any_cons, hfe, Bool.false_or]

theorem logOf_storeUnpacksFold (es : List PendingUnpackApproval) :
    ∀ (s : State) (u : Addr),
    logOf (storeUnpacksFold s es) u =
      logOf s u ++ (es.filter (fun e => e.unpacker == u)).map
        (fun e => { fardel_id := e.fardel_id }) := by
  induction es with
  | nil => intro s u; simp [storeUnpacksFold_nil]
  | cons e rest ih =>
      intro s u
      rw [storeUnpacksFold_cons, ih]
      rw [logOf_store_unpack]
      by_cases hu : u = e.unpacker
      · rw [if_pos hu]
        rw [List.filter_cons]
        rw [if_pos (by simp [hu])]
        simp
      · rw [if_neg hu]
        rw [List.filter_cons]
        rw [if_neg (by simp; intro hx; exact hu hx.symm)]

theorem log_keys_nodup_storeUnpacksFold (es : List PendingUnpackApproval) :
    ∀ s : State, (s.unpackedLog.map Prod.fst).Nodup →
      ((storeUnpacksFold s es).unpackedLog.map Prod.fst).Nodup := by
  induction es with
  | nil => intro s hs; exact hs
  | cons e rest ih =>
      intro s hs
      rw [storeUnpacksFold_cons]
      exact ih _ (kvSet_keys_nodup _ _ _ hs)

theorem flags_fresh_storeUnpacksFold (es : List PendingUnpackApproval) :
    ∀ s : State, (∀ kv ∈ s.unpackedMap, kv.1.2 < s.fardelCount) →
      (∀ e ∈ es, e.fardel_id < s.fardelCount) →
      ∀ kv ∈ (storeUnpacksFold s es).unpackedMap,
        kv.1.2 < (storeUnpacksFold s es).fardelCount := by
  induction es with
  | nil => intro s hs _; exact hs
  | cons e rest ih =>
      intro s hs hes
      rw [storeUnpacksFold_cons]
      refine ih _ ?_ ?_
      · intro kv hkv
        rcases kvSet_mem _ _ _ hkv with hold | rfl
        · exact hs kv hold
        · exact hes e (List.mem_cons_self _ _)
      · intro e2 he2
        exact hes e2 (List.mem_cons_of_mem _ he2)

theorem logs_fresh_storeUnpacksFold (es : List PendingUnpackApproval) :
    ∀ s : State, (∀ kv ∈ s.unpackedLog, ∀ e ∈ kv.2, e.fardel_id < s.fardelCount) →
      (∀ e ∈ es, e.fardel_id < s.fardelCount) →
      ∀ kv ∈ (storeUnpacksFold s es).unpackedLog, ∀ e ∈ kv.2,
        e.fardel_id < (storeUnpacksFold s es).fardelCount := by
  induction es with
  | nil => intro s hs _; exact hs
  | cons e rest ih =>
      intro s hs hes
      rw [storeUnpacksFold_cons]
      refine ih _ ?_ ?_
      · intro kv hkv e2 he2
        rcases kvSet_mem _ _ _ hkv with hold | rfl
        · exact hs kv hold e2 he2
        · rcases List.mem_append.mp he2 with h1 | h1
          · rcases hk : kvGet s.unpackedLog e.unpacker with - | l0
            · rw [hk] at h1
              simp at h1
            · rw [hk] at h1
              exact hs (e.unpacker, l0) (kvGet_mem _ _ _ hk) e2 (by simpa using h1)
          · simp at h1
            rw [h1]
            exact hes e (List.mem_cons_self _ _)
      · intro e2 he2
        exact hes e2 (List.mem_cons_of_mem _ he2)

theorem set_pending_start_core (s : State) (o : Addr) (idx : Nat) :
    (set_pending_start s o idx).myPendingMap = s.myPendingMap ∧
    (set_pending_start s o idx).pendingQueue = s.pendingQueue ∧
    (set_pending_start s o idx).unpackedLog = s.unpackedLog ∧
    (set_pending_start s o idx).unpackedMap = s.unpackedMap ∧
    (set_pending_start s o idx).idFardelMapping = s.idFardelMapping ∧
    (set_pending_start s o idx).numUnpacks = s.numUnpacks ∧
    (set_pending_start s o idx).fardels = s.fardels ∧
    (set_pending_start s o idx).fardelCount = s.fardelCount :=
  ⟨rfl, rfl, rfl, rfl, rfl, rfl, rfl, rfl⟩

theorem get_pending_start_set (s : State) (o : Addr) (idx : Nat) (o' : Addr) :
    get_pending_start (set_pending_start s o idx) o' =
      if o' = o then idx else get_pending_start s o' := by
  unfold get_pending_start set_pending_start
  dsimp only
  by_cases ho : o' = o
  · subst ho
    simp [kvGet_kvSet_same]
  · rw [kvGet_kvSet_diff _ _ _ _ ho, if_neg ho]

/-- The loop's final state is the fold of `store_unpack` over the processed
entries (settlement and message accumulation touch no other storage). -/
theorem approve_loop_ok_state (c : Constants) (env : Env)
    (es : List PendingUnpackApproval) :
    ∀ (s : State) (msgs : List BankMsg) (tot : Nat)
      (r : State × List BankMsg × Nat),
      approve_loop c env es s msgs tot = .ok r → r.1 = storeUnpacksFold s es := by
  induction es with
  | nil =>
    intro s msgs tot r heq
    unfold approve_loop at heq
    simp only [Except.ok.injEq] at heq
    subst heq
    rfl
  | cons e rest ih =>
    intro s msgs tot r heq
    unfold approve_loop at heq
    dsimp only at heq
    rcases hs : settleCalc c e.coin.amount with er | pc
    · rw [hs] at heq
      simp at heq
    · rw [hs] at heq
      dsimp only at heq
      rw [storeUnpacksFold_cons]
      exact ih _ _ _ _ heq

/-- A committed `try_approve_pending_unpacks` either returns the state
unchanged (bad `number`) or commits exactly: fold the Unpack-Record writes
over the filtered window, then advance the cursor past the whole window. -/
theorem try_approve_state (s : State) (env : Env) (number : Option Int)
    (s' : State) (resp : HandleResponse)
    (heq : try_approve_pending_unpacks s env number = .ok (s', resp)) :
    s' = s ∨
    s' = set_pending_start
          (storeUnpacksFold s
            ((get_pending_approvals_from_start s env.message_sender
              (number.getD 10).toNat).filter (fun pu => !pu.canceled)))
          env.message_sender
          (get_pending_start s env.message_sender +
            (get_pending_approvals_from_start s env.message_sender
              (number.getD 10).toNat).length) := by
  unfold try_approve_pending_unpacks at heq
  by_cases hn : (number.getD 10) < 1
  · rw [if_pos hn] at heq
    simp only [Except.ok.injEq, Prod.mk.injEq] at heq
    obtain ⟨rfl, -⟩ := heq
    left
    rfl
  · rw [if_neg hn] at heq
    dsimp only at heq
    rcases hloop : approve_loop s.constants env
        ((get_pending_approvals_from_start s env.message_sender
          (number.getD 10).toNat).filter (fun pu => !pu.canceled)) s [] 0 with e | r
    · rw [hloop] at heq
      simp at heq
    · rw [hloop] at heq
      dsimp only at heq
      simp only [Except.ok.injEq, Prod.mk.injEq] at heq
      obtain ⟨rfl, -⟩ := heq
      right
      rw [approve_loop_ok_state s.constants env _ _ _ _ _ hloop]

/-! ### The approval window: what `Inv` says about each processed entry -/

theorem take_get?_lt {α : Type} (l : List α) (n j : Nat) (a : α)
    (h : (l.take n).get? j = some a) : j < n := by
  by_contra hc
  push_neg at hc
  rw [List.get?_eq_getElem?] at h
  rw [List.getElem?_take] at h
  simp [Nat.lt_of_lt_of_le, hc] at h
  omega

theorem take_get?_eq {α : Type} (l : List α) (n j : Nat) (h : j < n) :
    (l.take n).get? j = l.get? j := by
  simp [List.get?_eq_getElem?, List.getElem?_take, h]

theorem drop_get? {α : Type} (l : List α) (i j : Nat) :
    (l.drop i).get? j = l.get? (i + j) := by
  simp [List.get?_eq_getElem?, List.getElem?_drop]

/-- The `j`-th window slot is the queue entry at index `cursor + j`. -/
theorem window_get (s : State) (owner : Addr) (n : Nat) (j : Nat)
    (e : PendingUnpackApproval)
    (hj : (get_pending_approvals_from_start s owner n).get? j = some e) :
    (queueOf s owner).get? (get_pending_start s owner + j) = some e := by
  unfold get_pending_approvals_from_start at hj
  dsimp only at hj
  rw [take_get?_eq _ _ _ (take_get?_lt _ _ _ _ hj)] at hj
  rw [drop_get?] at hj
  exact hj

theorem window_mem_queue (s : State) (owner : Addr) (n : Nat)
    (e : PendingUnpackApproval)
    (he : e ∈ get_pending_approvals_from_start s owner n) :
    e ∈ queueOf s owner := by
  unfold get_pending_approvals_from_start at he
  dsimp only at he
  exact List.mem_of_mem_drop (List.mem_of_mem_take he)

/-- `Inv.live_entry` through the `queueOf` view. -/
theorem queue_live (s : State) (h : Inv s) (o : Addr) (i : Nat)
    (hi : get_pending_start s o ≤ i) (e : PendingUnpackApproval)
    (hget : (queueOf s o).get? i = some e) (hc : e.canceled = false) :
    flagOf s e.unpacker e.fardel_id = false ∧
    markerOf s e.unpacker e.fardel_id = { pending_unpack_idx := i, value := true } := by
  unfold queueOf at hget
  rcases hk : kvGet s.pendingQueue o with - | q
  · rw [hk] at hget
    simp at hget
  · rw [hk] at hget
    exact h.live_entry (o, q) (kvGet_mem _ _ _ hk) i hi e (by simpa using hget) hc

/-- `Inv.entry_coin` through the `queueOf` view. -/
theorem queue_coin (s : State) (h : Inv s) (o : Addr) (e : PendingUnpackApproval)
    (he : e ∈ queueOf s o) :
    ∃ i2 f, kvGet s.idFardelMapping e.fardel_id = some (o, i2) ∧
      ((kvGet s.fardels o).getD []).get? i2 = some f ∧
      e.coin.amount = f.cost ∧ e.coin.denom = DENOM := by
  unfold queueOf at he
  rcases hk : kvGet s.pendingQueue o with - | q
  · rw [hk] at he
    simp at he
  · rw [hk] at he
    exact h.entry_coin (o, q) (kvGet_mem _ _ _ hk) e (by simpa using he)

/-- `Inv.queues_fresh` through the `queueOf` view. -/
theorem queue_fresh (s : State) (h : Inv s) (o : Addr) (e : PendingUnpackApproval)
    (he : e ∈ queueOf s o) : e.fardel_id < s.fardelCount := by
  unfold queueOf at he
  rcases hk : kvGet s.pendingQueue o with - | q
  · rw [hk] at he
    simp at he
  · rw [hk] at he
    exact h.queues_fresh (o, q) (kvGet_mem _ _ _ hk) e (by simpa using he)

/-- Every non-canceled entry of the approval window is live in the queue at a
known index below the advanced cursor: its unpack flag is clear and the
purchaser's marker points exactly at it. -/
theorem window_flag_false (s : State) (h : Inv s) (owner : Addr) (n : Nat)
    (e : PendingUnpackApproval)
    (he : e ∈ (get_pending_approvals_from_start s owner n).filter
      (fun pu => !pu.canceled)) :
    flagOf s e.unpacker e.fardel_id = false ∧
    ∃ i, get_pending_start s owner ≤ i ∧
      i < get_pending_start s owner +
        (get_pending_approvals_from_start s owner n).length ∧
      (queueOf s owner).get? i = some e ∧
      markerOf s e.unpacker e.fardel_id = { pending_unpack_idx := i, value := true } := by
  have hc : e.canceled = false := by
    have := List.of_mem_filter he
    simpa using this
  obtain ⟨j, hj⟩ := List.get?_of_mem (List.mem_of_mem_filter he)
  have hjl : j < (get_pending_approvals_from_start s owner n).length :=
    (List.get?_eq_some.mp hj).1
  have hq := window_get s owner n j e hj
  have hlive := queue_live s h owner (get_pending_start s owner + j)
    (Nat.le_add_right _ _) e hq hc
  exact ⟨hlive.1, get_pending_start s owner + j, Nat.le_add_right _ _,
    by omega, hq, hlive.2⟩

/-- Distinct slots of the filtered window never share a (purchaser, listing)
pair: both markers would have to point at both queue indices at once. -/
theorem window_pair_nodup (s : State) (h : Inv s) (owner : Addr) (n : Nat) :
    (((get_pending_approvals_from_start s owner n).filter
        (fun pu => !pu.canceled)).map
      (fun e => (e.unpacker, e.fardel_id))).Nodup := by
  show (((get_pending_approvals_from_start s owner n).filter
      (fun pu => !pu.canceled)).map
    (fun e => (e.unpacker, e.fardel_id))).Pairwise (· ≠ ·)
  rw [List.pairwise_map]
  have hwin : (get_pending_approvals_from_start s owner n).Pairwise
      (fun a b => a.canceled = false → b.canceled = false →
        (a.unpacker, a.fardel_id) ≠ (b.unpacker, b.fardel_id)) := by
    rw [List.pairwise_iff_getElem]
    intro i j hi hj hij hci hcj hpair
    have hgi : (get_pending_approvals_from_start s owner n).get? i =
        some ((get_pending_approvals_from_start s owner n)[i]) :=
      List.get?_eq_get hi
    have hgj : (get_pending_approvals_from_start s owner n).get? j =
        some ((get_pending_approvals_from_start s owner n)[j]) :=
      List.get?_eq_get hj
    have hqi := window_get s owner n i _ hgi
    have hqj := window_get s owner n j _ hgj
    have hli := queue_live s h owner _ (Nat.le_add_right _ _) _ hqi hci
    have hlj := queue_live s h owner _ (Nat.le_add_right _ _) _ hqj hcj
    have hm : ({ pending_unpack_idx := get_pending_start s owner + i, value := true }
        : MyPendingUnpack) =
        { pending_unpack_idx := get_pending_start s owner + j, value := true } := by
      rw [← hli.2, ← hlj.2]
      have h1 : (get_pending_approvals_from_start s owner n)[i].unpacker =
          (get_pending_approvals_from_start s owner n)[j].unpacker :=
        congrArg Prod.fst hpair
      have h2 : (get_pending_approvals_from_start s owner n)[i].fardel_id =
          (get_pending_approvals_from_start s owner n)[j].fardel_id :=
        congrArg Prod.snd hpair
      rw [h1, h2]
    have : get_pending_start s owner + i = get_pending_start s owner + j :=
      congrArg MyPendingUnpack.pending_unpack_idx hm
    omega
  have hes := hwin.filter (fun pu => !pu.canceled)
  refine hes.imp_of_mem ?_
  intro a b ha hb hab
  have hca : a.canceled = false := by simpa using List.of_mem_filter ha
  have hcb : b.canceled = false := by simpa using List.of_mem_filter hb
  exact hab hca hcb

/-- Per purchaser, the listing ids settled by one batch are pairwise
distinct. -/
theorem window_ids_nodup (s : State) (h : Inv s) (owner : Addr) (n : Nat) (u : Addr) :
    (((((get_pending_approvals_from_start s owner n).filter
        (fun pu => !pu.canceled)).filter (fun e => e.unpacker == u)).map
      (fun e => e.fardel_id))).Nodup := by
  show ((((get_pending_approvals_from_start s owner n).filter
      (fun pu => !pu.canceled)).filter (fun e => e.unpacker == u)).map
    (fun e => e.fardel_id)).Pairwise (· ≠ ·)
  rw [List.pairwise_map]
  have h1 : ((get_pending_approvals_from_start s owner n).filter
      (fun pu => !pu.canceled)).Pairwise
      (fun a b => (a.unpacker, a.fardel_id) ≠ (b.unpacker, b.fardel_id)) :=
    List.pairwise_map.mp (window_pair_nodup s h owner n)
  have h2 := h1.filter (fun e => e.unpacker == u)
  refine h2.imp_of_mem ?_
  intro a b ha hb hab hid
  have hua : a.unpacker = u := by simpa using List.of_mem_filter ha
  have hub : b.unpacker = u := by simpa using List.of_mem_filter hb
  exact hab (by rw [hua, hub, hid])

theorem logOf_eq_of_mem (s : State) (hnd : (s.unpackedLog.map Prod.fst).Nodup)
    {kv : Addr × List UnpackedFardel} (hkv : kv ∈ s.unpackedLog) :
    logOf s kv.1 = kv.2 := by
  unfold logOf
  rw [kvGet_eq_of_mem_nodup hnd (show (kv.1, kv.2) ∈ s.unpackedLog from by
    rw [Prod.mk.eta]; exact hkv)]
  rfl

theorem queueOf_eq_of_mem (s : State) (hnd : (s.pendingQueue.map Prod.fst).Nodup)
    {kv : Addr × List PendingUnpackApproval} (hkv : kv ∈ s.pendingQueue) :
    queueOf s kv.1 = kv.2 := by
  unfold queueOf
  rw [kvGet_eq_of_mem_nodup hnd (show (kv.1, kv.2) ∈ s.pendingQueue from by
    rw [Prod.mk.eta]; exact hkv)]
  rfl

/-- `Inv.log_flag` through the `logOf` view. -/
theorem logOf_flag (s : State) (h : Inv s) (u : Addr) (e : UnpackedFardel)
    (he : e ∈ logOf s u) : flagOf s u e.fardel_id = true := by
  unfold logOf at he
  rcases hk : kvGet s.unpackedLog u with - | l0
  · rw [hk] at he
    simp at he
  · rw [hk] at he
    exact h.log_flag (u, l0) (kvGet_mem _ _ _ hk) e (by simpa using he)

/-- `Inv.log_nodup` through the `logOf` view. -/
theorem logOf_nodup (s : State) (h : Inv s) (u : Addr) :
    ((logOf s u).map UnpackedFardel.fardel_id).Nodup := by
  unfold logOf
  rcases hk : kvGet s.unpackedLog u with - | l0
  · simp
  · exact h.log_nodup (u, l0) (kvGet_mem _ _ _ hk)

/-- The entries one `approve_pending` batch actually settles. -/
def approveWindow (s : State) (owner : Addr) (n : Nat) : List PendingUnpackApproval :=
  (get_pending_approvals_from_start s owner n).filter (fun pu => !pu.canceled)

/-- The state committed by a successful `approve_pending` batch. -/
def approveState (s : State) (owner : Addr) (n : Nat) : State :=
  set_pending_start (storeUnpacksFold s (approveWindow s owner n)) owner
    (get_pending_start s owner + (get_pending_approvals_from_start s owner n).length)

theorem Inv_approve_core (s : State) (h : Inv s) (owner : Addr) (n : Nat) :
    Inv (approveState s owner n) := by
  have hq_s : (approveState s owner n).pendingQueue = s.pendingQueue :=
    ((set_pending_start_core _ _ _).2.1).trans (storeUnpacksFold_core _ s).1
  have hmp_s : (approveState s owner n).myPendingMap = s.myPendingMap :=
    ((set_pending_start_core _ _ _).1).trans (storeUnpacksFold_core _ s).2.2.1
  have him_s : (approveState s owner n).idFardelMapping = s.idFardelMapping :=
    ((set_pending_start_core _ _ _).2.2.2.2.1).trans
      (storeUnpacksFold_core _ s).2.2.2.2.1
  have hnu_s : (approveState s owner n).numUnpacks = s.numUnpacks :=
    ((set_pending_start_core _ _ _).2.2.2.2.2.1).trans
      (storeUnpacksFold_core _ s).2.2.2.1
  have hfa_s : (approveState s owner n).fardels = s.fardels :=
    ((set_pending_start_core _ _ _).2.2.2.2.2.2.1).trans
      (storeUnpacksFold_core _ s).2.2.2.2.2.1
  have hfc_s : (approveState s owner n).fardelCount = s.fardelCount :=
    ((set_pending_start_core _ _ _).2.2.2.2.2.2.2).trans
      (storeUnpacksFold_core _ s).2.2.2.2.2.2
  have hlog_F : (approveState s owner n).unpackedLog =
      (storeUnpacksFold s (approveWindow s owner n)).unpackedLog :=
    (set_pending_start_core _ _ _).2.2.1
  have hmap_F : (approveState s owner n).unpackedMap =
      (storeUnpacksFold s (approveWindow s owner n)).unpackedMap :=
    (set_pending_start_core _ _ _).2.2.2.1
  have hfc_F : (approveState s owner n).fardelCount =
      (storeUnpacksFold s (approveWindow s owner n)).fardelCount :=
    (set_pending_start_core _ _ _).2.2.2.2.2.2.2
  have hflag : ∀ u x, flagOf (approveState s owner n) u x =
      (flagOf s u x || (approveWindow s owner n).any
        fun e => e.unpacker == u && e.fardel_id == x) := by
    intro u x
    have h1 : flagOf (approveState s owner n) u x =
        flagOf (storeUnpacksFold s (approveWindow s owner n)) u x := by
      unfold flagOf get_unpacked_status_by_fardel_id
      rw [hmap_F]
    rw [h1, flagOf_storeUnpacksFold]
  have hlogv : ∀ u, logOf (approveState s owner n) u =
      logOf s u ++ ((approveWindow s owner n).filter
        (fun e => e.unpacker == u)).map
        (fun e => ({ fardel_id := e.fardel_id } : UnpackedFardel)) := by
    intro u
    have h1 : logOf (approveState s owner n) u =
        logOf (storeUnpacksFold s (approveWindow s owner n)) u := by
      unfold logOf
      rw [hlog_F]
    rw [h1, logOf_storeUnpacksFold]
  have hmark : ∀ u x, markerOf (approveState s owner n) u x = markerOf s u x := by
    intro u x
    unfold markerOf get_pending_unpacked_status_by_fardel_id
    rw [hmp_s]
  have hqv : ∀ o, queueOf (approveState s owner n) o = queueOf s o := by
    intro o
    unfold queueOf
    rw [hq_s]
  have hcv : ∀ x, countOf (approveState s owner n) x = countOf s x := by
    intro x
    unfold countOf get_fardel_unpack_count
    rw [hnu_s]
  have hlv : ∀ x, livePendings (approveState s owner n) x = livePendings s x := by
    intro x
    unfold livePendings
    rw [hmp_s]
  have hst : ∀ o', get_pending_start (approveState s owner n) o' =
      if o' = owner then
        get_pending_start s owner + (get_pending_approvals_from_start s owner n).length
      else get_pending_start s o' := by
    intro o'
    unfold approveState
    rw [get_pending_start_set]
    by_cases ho : o' = owner
    · rw [if_pos ho, if_pos ho]
    · rw [if_neg ho, if_neg ho]
      unfold get_pending_start
      rw [(storeUnpacksFold_core _ s).2.1]
  have hWfresh : ∀ e ∈ approveWindow s owner n, e.fardel_id < s.fardelCount := by
    intro e he
    exact queue_fresh s h owner e (window_mem_queue s owner n e
      (List.mem_of_mem_filter he))
  have hAnodup : ((approveState s owner n).unpackedLog.map Prod.fst).Nodup := by
    rw [hlog_F]
    exact log_keys_nodup_storeUnpacksFold _ s h.log_keys_nodup
  refine ⟨?_, ?_, ?_, ?_, ?_, ?_, ?_, ?_, ?_, ?_, ?_, ?_, ?_, ?_, ?_, ?_⟩
  · rw [hmp_s]
    exact h.marker_keys_nodup
  · rw [hq_s]
    exact h.queue_keys_nodup
  · exact hAnodup
  · rw [him_s, hfc_s]
    exact h.mapping_fresh
  · rw [hnu_s, hfc_s]
    exact h.counts_fresh
  · rw [hmap_F, hfc_F]
    exact flags_fresh_storeUnpacksFold _ s h.flags_fresh hWfresh
  · rw [hmp_s, hfc_s]
    exact h.markers_fresh
  · rw [hlog_F, hfc_F]
    exact logs_fresh_storeUnpacksFold _ s h.logs_fresh hWfresh
  · rw [hq_s, hfc_s]
    exact h.queues_fresh
  · rw [him_s, hfa_s]
    exact h.mapping_valid
  · -- log_flag
    intro kv hkv e he
    have hkv2 : logOf (approveState s owner n) kv.1 = kv.2 :=
      logOf_eq_of_mem _ hAnodup hkv
    rw [← hkv2, hlogv kv.1] at he
    rcases List.mem_append.mp he with hold | hnew
    · rw [hflag, logOf_flag s h kv.1 e hold]
      simp
    · obtain ⟨e1, he1, heq1⟩ := List.mem_map.mp hnew
      rw [hflag]
      have hu1 : e1.unpacker = kv.1 := by simpa using List.of_mem_filter he1
      have hf1 : e1.fardel_id = e.fardel_id := by
        rw [← heq1]
      have hany : ((approveWindow s owner n).any
          fun e2 => e2.unpacker == kv.1 && e2.fardel_id == e.fardel_id) = true := by
        refine List.any_eq_true.mpr ⟨e1, List.mem_of_mem_filter he1, ?_⟩
        simp [hu1, hf1]
      rw [hany]
      simp
  · -- log_nodup
    intro kv hkv
    have hkv2 : logOf (approveState s owner n) kv.1 = kv.2 :=
      logOf_eq_of_mem _ hAnodup hkv
    rw [← hkv2, hlogv kv.1, List.map_append]
    refine List.Nodup.append (logOf_nodup s h kv.1) ?_ ?_
    · rw [List.map_map]
      exact window_ids_nodup s h owner n kv.1
    · refine List.disjoint_left.mpr ?_
      intro x hxold hxnew
      obtain ⟨e0, he0, hx0⟩ := List.mem_map.mp hxold
      obtain ⟨em, hem, hx1⟩ := List.mem_map.mp hxnew
      obtain ⟨e1, he1, hmk⟩ := List.mem_map.mp hem
      have hflag0 := logOf_flag s h kv.1 e0 he0
      have hff := (window_flag_false s h owner n e1 (List.mem_of_mem_filter he1)).1
      have hu1 : e1.unpacker = kv.1 := by simpa using List.of_mem_filter he1
      have hx1' : e1.fardel_id = x := by
        rw [← hmk] at hx1
        exact hx1
      have hid : e1.fardel_id = e0.fardel_id := hx1'.trans hx0.symm
      rw [hu1, hid] at hff
      rw [hflag0] at hff
      exact Bool.noConfusion hff
  · -- live_entry
    intro kv hkv i hi e hei hc
    rw [hq_s] at hkv
    rw [hst kv.1] at hi
    have hio : get_pending_start s kv.1 ≤ i := by
      by_cases ho : kv.1 = owner
      · rw [if_pos ho] at hi
        rw [ho]
        omega
      · rwa [if_neg ho] at hi
    have hs_live := h.live_entry kv hkv i hio e hei hc
    rw [hflag, hmark]
    refine ⟨?_, hs_live.2⟩
    rw [hs_live.1, Bool.false_or]
    cases hb : ((approveWindow s owner n).any
        fun e2 => e2.unpacker == e.unpacker && e2.fardel_id == e.fardel_id)
    · rfl
    · exfalso
      obtain ⟨e2, he2, hmatch⟩ := List.any_eq_true.mp hb
      simp only [Bool.and_eq_true, beq_iff_eq] at hmatch
      obtain ⟨hu2, hf2⟩ := hmatch
      obtain ⟨-, i', hge', hlt', hq', hm'⟩ := window_flag_false s h owner n e2 he2
      rw [hu2, hf2] at hm'
      have hii : i = i' := by
        have h12 := hs_live.2.symm.trans hm'
        exact congrArg MyPendingUnpack.pending_unpack_idx h12
      by_cases ho : kv.1 = owner
      · rw [if_pos ho] at hi
        omega
      · have hqeq : queueOf s kv.1 = kv.2 :=
          queueOf_eq_of_mem s h.queue_keys_nodup hkv
        have hmemq : e ∈ queueOf s kv.1 := by
          rw [hqeq]
          exact List.get?_mem hei
        obtain ⟨i2a, fa, hma, -, -, -⟩ := queue_coin s h kv.1 e hmemq
        obtain ⟨i2b, fb, hmb, -, -, -⟩ := queue_coin s h owner e2 (List.get?_mem hq')
        rw [hf2] at hmb
        rw [hma] at hmb
        simp only [Option.some.injEq, Prod.mk.injEq] at hmb
        exact ho hmb.1
  · -- marker_sound
    intro kv hkv hv
    rw [hmp_s] at hkv
    obtain ⟨o, i2, hmapg, e, hget, he1, he2, he3⟩ := h.marker_sound kv hkv hv
    exact ⟨o, i2, by rw [him_s]; exact hmapg, e, by rw [hqv]; exact hget, he1, he2, he3⟩
  · -- entry_coin
    intro kv hkv e he
    rw [hq_s] at hkv
    obtain ⟨i2, f, hmapg, hgf, hc1, hc2⟩ := h.entry_coin kv hkv e he
    exact ⟨i2, f, by rw [him_s]; exact hmapg, by rw [hfa_s]; exact hgf, hc1, hc2⟩
  · -- count_ge
    intro kv hkv
    rw [hmp_s] at hkv
    rw [hlv, hcv]
    exact h.count_ge kv hkv

/-- A committed `approve_pending` call preserves the invariant. -/
theorem Inv_approve (s : State) (h : Inv s) (env : Env) (number : Option Int)
    (s' : State) (resp : HandleResponse)
    (heq : try_approve_pending_unpacks s env number = .ok (s', resp)) : Inv s' := by
  rcases try_approve_state s env number s' resp heq with rfl | hs'
  · exact h
  · rw [hs']
    exact Inv_approve_core s h env.message_sender (number.getD 10).toNat

/-! ### Invariant preservation: the remaining operations -/

/-- Setting the sealed latch preserves the invariant (it reads none of the
invariant's namespaces). -/
theorem Inv_seal (s : State) (h : Inv s) (g : Nat) : Inv (seal_fardel s g) :=
  h.of_core_eq rfl rfl rfl rfl rfl rfl rfl rfl rfl

/-- A committed `try_unpack_fardel` call preserves the invariant: rejections
at most set the sealed latch, the pending path is `Inv_pending_unpack`, the
direct path is `Inv_direct_unpack`. -/
theorem Inv_unpack (s : State) (h : Inv s) (env : Env) (fardel_hash : Nat)
    (s' : State) (resp : HandleResponse)
    (heq : try_unpack_fardel s env fardel_hash = some (.ok (s', resp))) : Inv s' := by
  cases henv : env.sent_funds with
  | nil =>
    unfold try_unpack_fardel at heq
    rw [henv] at heq
    simp at heq
  | cons coin0 rest =>
    by_cases hden : coin0.denom = DENOM
    case neg =>
      rw [unpack_eval_wrong_denom s env fardel_hash coin0 rest henv hden] at heq
      simp only [Option.some.injEq, Except.ok.injEq, Prod.mk.injEq] at heq
      obtain ⟨rfl, rfl⟩ := heq
      exact h
    case pos =>
    rcases hfar : get_fardel_by_hash s fardel_hash with e | fopt
    · rw [unpack_eval_not_found s env fardel_hash coin0 rest henv hden e hfar] at heq
      simp only [Option.some.injEq, Except.ok.injEq, Prod.mk.injEq] at heq
      obtain ⟨rfl, rfl⟩ := heq
      exact h
    rcases fopt with _ | f
    · rw [unpack_eval_not_found_none s env fardel_hash coin0 rest henv hden hfar] at heq
      simp only [Option.some.injEq, Except.ok.injEq, Prod.mk.injEq] at heq
      obtain ⟨rfl, rfl⟩ := heq
      exact h
    rcases hown : get_fardel_owner s f.global_id with e | owner
    · rw [unpack_eval_no_owner s env fardel_hash coin0 rest f henv hden hfar e hown] at heq
      simp at heq
    cases hblk : (is_banned s owner || is_deactivated s owner
        || is_blocked_by s owner env.message_sender)
    case true =>
      rw [unpack_eval_blocked s env fardel_hash coin0 rest f owner henv hden hfar hown
        hblk] at heq
      simp at heq
    case false =>
    cases hunp : (get_unpacked_status_by_fardel_id s env.message_sender
        f.global_id).unpacked
    case true =>
      rw [unpack_eval_already_unpacked s env fardel_hash coin0 rest f owner henv hden hfar
        hown hblk hunp] at heq
      simp only [Option.some.injEq, Except.ok.injEq, Prod.mk.injEq] at heq
      obtain ⟨rfl, rfl⟩ := heq
      exact h
    case false =>
    cases hpen : (get_pending_unpacked_status_by_fardel_id s env.message_sender
        f.global_id).value
    case true =>
      rw [unpack_eval_already_pending s env fardel_hash coin0 rest f owner henv hden hfar
        hown hblk hunp hpen] at heq
      simp only [Option.some.injEq, Except.ok.injEq, Prod.mk.injEq] at heq
      obtain ⟨rfl, rfl⟩ := heq
      exact h
    case false =>
    cases hsea : get_sealed_status s f.global_id
    case true =>
      rw [unpack_eval_sealed s env fardel_hash coin0 rest f owner henv hden hfar hown hblk
        hunp hpen hsea] at heq
      simp only [Option.some.injEq, Except.ok.injEq, Prod.mk.injEq] at heq
      obtain ⟨rfl, rfl⟩ := heq
      exact h
    case false =>
    by_cases hexp : 0 < f.seal_time ∧ f.seal_time < env.block_time
    case pos =>
      rw [unpack_eval_expired s env fardel_hash coin0 rest f owner henv hden hfar hown hblk
        hunp hpen hsea hexp] at heq
      simp only [Option.some.injEq, Except.ok.injEq, Prod.mk.injEq] at heq
      obtain ⟨rfl, rfl⟩ := heq
      exact Inv_seal s h f.global_id
    case neg =>
    cases hsold : sold_out s f
    case true =>
      rw [unpack_eval_sold_out s env fardel_hash coin0 rest f owner henv hden hfar hown
        hblk hunp hpen hsea hexp hsold] at heq
      cases happ : f.approval_req
      case true =>
        rw [happ] at heq
        simp only [if_true, Option.some.injEq, Except.ok.injEq, Prod.mk.injEq] at heq
        obtain ⟨rfl, rfl⟩ := heq
        exact h
      case false =>
        rw [happ] at heq
        simp only [if_false, Option.some.injEq, Except.ok.injEq, Prod.mk.injEq] at heq
        obtain ⟨rfl, rfl⟩ := heq
        exact Inv_seal s h f.global_id
    case false =>
    by_cases hamt : coin0.amount = f.cost
    case neg =>
      rw [unpack_eval_payment_mismatch s env fardel_hash coin0 rest f owner henv hden hfar
        hown hblk hunp hpen hsea hexp hsold hamt] at heq
      simp only [Option.some.injEq, Except.ok.injEq, Prod.mk.injEq] at heq
      obtain ⟨rfl, rfl⟩ := heq
      exact h
    case pos =>
    cases happ : f.approval_req
    case true =>
      rw [unpack_eval_pending_path s env fardel_hash coin0 rest f owner henv hden hfar hown
        hblk hunp hpen hsea hexp hsold hamt happ] at heq
      simp only [Option.some.injEq, Except.ok.injEq, Prod.mk.injEq] at heq
      obtain ⟨rfl, rfl⟩ := heq
      exact Inv_pending_unpack s h env.message_sender f fardel_hash owner coin0
        env.block_time hfar hown hunp hpen hamt hden
    case false =>
    rcases hsettle : settleCalc s.constants f.cost with e | pc
    · rw [unpack_eval_settle_err s env fardel_hash coin0 rest f owner henv hden hfar hown
        hblk hunp hpen hsea hexp hsold hamt happ e hsettle] at heq
      simp at heq
    · rw [unpack_eval_direct_path s env fardel_hash coin0 rest f owner henv hden hfar hown
        hblk hunp hpen hsea hexp hsold hamt happ pc hsettle] at heq
      simp only [Option.some.injEq, Except.ok.injEq, Prod.mk.injEq] at heq
      obtain ⟨rfl, rfl⟩ := heq
      exact Inv_direct_unpack s h env.message_sender f fardel_hash hfar hunp hpen

/-- A committed `try_cancel_pending` call preserves the invariant. -/
theorem Inv_try_cancel (s : State) (h : Inv s) (env : Env) (fh : Nat)
    (s' : State) (resp : HandleResponse)
    (heq : try_cancel_pending s env fh = .ok (s', resp)) : Inv s' := by
  unfold try_cancel_pending at heq
  rcases hgid : get_global_id_by_hash s fh with e | fid
  · rw [hgid] at heq
    simp at heq
  rw [hgid] at heq
  dsimp only at heq
  rcases hown : get_fardel_owner s fid with e | owner
  · rw [hown] at heq
    simp at heq
  rw [hown] at heq
  dsimp only at heq
  rcases hgf : get_fardel_by_global_id s fid with e | fo
  · rw [hgf] at heq
    simp at heq
  rw [hgf] at heq
  dsimp only at heq
  rcases hcan : cancel_pending_unpack s owner env.message_sender fid with e | s1
  · rw [hcan] at heq
    simp at heq
  rw [hcan] at heq
  dsimp only at heq
  simp only [Except.ok.injEq, Prod.mk.injEq] at heq
  obtain ⟨rfl, -⟩ := heq
  exact Inv_cancel s h owner env.message_sender fid s1 hcan hown

/-- A committed `try_seal_fardel` call preserves the invariant. -/
theorem Inv_try_seal (s : State) (h : Inv s) (env : Env) (fh : Nat)
    (s' : State) (resp : HandleResponse)
    (heq : try_seal_fardel s env fh = .ok (s', resp)) : Inv s' := by
  unfold try_seal_fardel at heq
  rcases hfar : get_fardel_by_hash s fh with e | fo
  · rw [hfar] at heq
    simp only [Except.ok.injEq, Prod.mk.injEq] at heq
    obtain ⟨rfl, -⟩ := heq
    exact h
  rw [hfar] at heq
  dsimp only at heq
  rcases hgid : get_global_id_by_hash s fh with e | gid
  · rw [hgid] at heq
    simp at heq
  rw [hgid] at heq
  dsimp only at heq
  rcases hown : get_fardel_owner s gid with e | owner
  · rw [hown] at heq
    simp at heq
  rw [hown] at heq
  dsimp only at heq
  by_cases ho : owner = env.message_sender
  · rw [if_pos ho] at heq
    simp only [Except.ok.injEq, Prod.mk.injEq] at heq
    obtain ⟨rfl, -⟩ := heq
    exact Inv_seal s h gid
  · rw [if_neg ho] at heq
    simp only [Except.ok.injEq, Prod.mk.injEq] at heq
    obtain ⟨rfl, -⟩ := heq
    exact h

/-- A committed `try_hide_fardel` call preserves the invariant. -/
theorem Inv_try_hide (s : State) (h : Inv s) (env : Env) (fh : Nat)
    (s' : State) (resp : HandleResponse)
    (heq : try_hide_fardel s env fh = .ok (s', resp)) : Inv s' := by
  unfold try_hide_fardel at heq
  rcases hfar : get_fardel_by_hash s fh with e | fo
  · rw [hfar] at heq
    simp only [Except.ok.injEq, Prod.mk.injEq] at heq
    obtain ⟨rfl, -⟩ := heq
    exact h
  rw [hfar] at heq
  dsimp only at heq
  rcases hgid : get_global_id_by_hash s fh with e | gid
  · rw [hgid] at heq
    simp at heq
  rw [hgid] at heq
  dsimp only at heq
  rcases hown : get_fardel_owner s gid with e | owner
  · rw [hown] at heq
    simp at heq
  rw [hown] at heq
  dsimp only at heq
  by_cases ho : owner = env.message_sender
  · rw [if_pos ho] at heq
    simp only [Except.ok.injEq, Prod.mk.injEq] at heq
    obtain ⟨rfl, -⟩ := heq
    exact h.of_core_eq rfl rfl rfl rfl rfl rfl rfl rfl rfl
  · rw [if_neg ho] at heq
    simp only [Except.ok.injEq, Prod.mk.injEq] at heq
    obtain ⟨rfl, -⟩ := heq
    exact h

/-- A committed `try_unhide_fardel` call preserves the invariant. -/
theorem Inv_try_unhide (s : State) (h : Inv s) (env : Env) (fh : Nat)
    (s' : State) (resp : HandleResponse)
    (heq : try_unhide_fardel s env fh = .ok (s', resp)) : Inv s' := by
  unfold try_unhide_fardel at heq
  rcases hfar : get_fardel_by_hash s fh with e | fo
  · rw [hfar] at heq
    simp only [Except.ok.injEq, Prod.mk.injEq] at heq
    obtain ⟨rfl, -⟩ := heq
    exact h
  rw [hfar] at heq
  dsimp only at heq
  rcases hgid : get_global_id_by_hash s fh with e | gid
  · rw [hgid] at heq
    simp at heq
  rw [hgid] at heq
  dsimp only at heq
  rcases hown : get_fardel_owner s gid with e | owner
  · rw [hown] at heq
    simp at heq
  rw [hown] at heq
  dsimp only at heq
  by_cases ho : owner = env.message_sender
  · rw [if_pos ho] at heq
    simp only [Except.ok.injEq, Prod.mk.injEq] at heq
    obtain ⟨rfl, -⟩ := heq
    exact h.of_core_eq rfl rfl rfl rfl rfl rfl rfl rfl rfl
  · rw [if_neg ho] at heq
    simp only [Except.ok.injEq, Prod.mk.injEq] at heq
    obtain ⟨rfl, -⟩ := heq
    exact h

/-- A committed `try_remove_fardel` call preserves the invariant. -/
theorem Inv_try_remove (s : State) (h : Inv s) (env : Env) (fh : Nat) (b : Bool)
    (s' : State) (resp : HandleResponse)
    (heq : try_remove_fardel s env fh b = .ok (s', resp)) : Inv s' := by
  unfold try_remove_fardel at heq
  by_cases hadm : env.message_sender ≠ s.constants.admin
  · rw [if_pos hadm] at heq
    simp at heq
  rw [if_neg hadm] at heq
  rcases hfar : get_fardel_by_hash s fh with e | fo
  · rw [hfar] at heq
    simp only [Except.ok.injEq, Prod.mk.injEq] at heq
    obtain ⟨rfl, -⟩ := heq
    exact h
  rw [hfar] at heq
  dsimp only at heq
  rcases hgid : get_global_id_by_hash s fh with e | gid
  · rw [hgid] at heq
    simp at heq
  rw [hgid] at heq
  dsimp only at heq
  cases b
  · rw [if_neg (by simp)] at heq
    simp only [Except.ok.injEq, Prod.mk.injEq] at heq
    obtain ⟨rfl, -⟩ := heq
    exact h.of_core_eq rfl rfl rfl rfl rfl rfl rfl rfl rfl
  · rw [if_pos rfl] at heq
    simp only [Except.ok.injEq, Prod.mk.injEq] at heq
    obtain ⟨rfl, -⟩ := heq
    exact h.of_core_eq rfl rfl rfl rfl rfl rfl rfl rfl rfl

/-- Every operation preserves the invariant. -/
theorem Inv_execOp (s : State) (h : Inv s) (op : Op) : Inv (execOp s op) := by
  cases op with
  | carry env hash pm tg cd c n a st =>
    exact Inv_store_fardel s h hash env.message_sender pm tg cd c n a st env.block_time
  | unpack env fh =>
    simp only [execOp]
    rcases hr : try_unpack_fardel s env fh with - | r
    · exact h
    rcases r with e | p
    · exact h
    · exact Inv_unpack s h env fh p.1 p.2 (by rw [hr])
  | approve env number =>
    simp only [execOp]
    rcases hr : try_approve_pending_unpacks s env number with e | p
    · exact h
    · exact Inv_approve s h env number p.1 p.2 (by rw [hr])
  | cancel env fh =>
    simp only [execOp]
    rcases hr : try_cancel_pending s env fh with e | p
    · exact h
    · exact Inv_try_cancel s h env fh p.1 p.2 (by rw [hr])
  | sealF env fh =>
    simp only [execOp]
    rcases hr : try_seal_fardel s env fh with e | p
    · exact h
    · exact Inv_try_seal s h env fh p.1 p.2 (by rw [hr])
  | hideF env fh =>
    simp only [execOp]
    rcases hr : try_hide_fardel s env fh with e | p
    · exact h
    · exact Inv_try_hide s h env fh p.1 p.2 (by rw [hr])
  | unhideF env fh =>
    simp only [execOp]
    rcases hr : try_unhide_fardel s env fh with e | p
    · exact h
    · exact Inv_try_unhide s h env fh p.1 p.2 (by rw [hr])
  | removeF env fh b =>
    simp only [execOp]
    rcases hr : try_remove_fardel s env fh b with e | p
    · exact h
    · exact Inv_try_remove s h env fh b p.1 p.2 (by rw [hr])
  | ban account b =>
    exact h.of_core_eq rfl rfl rfl rfl rfl rfl rfl rfl rfl
  | deactivate account b =>
    exact h.of_core_eq rfl rfl rfl rfl rfl rfl rfl rfl rfl
  | blockAcct blocker blocked b =>
    exact h.of_core_eq rfl rfl rfl rfl rfl rfl rfl rfl rfl

/-- Every reachable state satisfies the invariant. -/
theorem Inv_of_reachable (c : Constants) (s : State) (hr : Reachable c s) : Inv s := by
  induction hr with
  | init => exact Inv_initState c
  | step op hprev ih => exact Inv_execOp _ ih op

/-! ### `units_consumed` across every operation: who can decrement it -/

theorem countOf_approveState (s : State) (owner : Addr) (n x : Nat) :
    countOf (approveState s owner n) x = countOf s x := by
  have hnum : (approveState s owner n).numUnpacks = s.numUnpacks :=
    ((set_pending_start_core _ _ _).2.2.2.2.2.1).trans
      (storeUnpacksFold_core _ s).2.2.2.1
  unfold countOf get_fardel_unpack_count
  rw [hnum]

theorem countOf_store_fardel_1 (s : State) (hash : Nat) (o : Addr) (pm : String)
    (tg : List String) (cd : String) (cst n : Nat) (a : Bool) (st t x : Nat) :
    countOf (store_fardel s hash o pm tg cd cst n a st t).1 x =
      if x = s.fardelCount then 0 else countOf s x := by
  have hnum : (store_fardel s hash o pm tg cd cst n a st t).1.numUnpacks =
      kvSet s.numUnpacks s.fardelCount 0 := rfl
  unfold countOf get_fardel_unpack_count
  rw [hnum]
  by_cases hx : x = s.fardelCount
  · subst hx
    simp [kvGet_kvSet_same]
  · rw [kvGet_kvSet_diff _ _ _ _ hx, if_neg hx]

/-- The counter slot of the about-to-be-assigned id is still unwritten. -/
theorem countOf_count_fresh (s : State) (h : Inv s) : countOf s s.fardelCount = 0 := by
  unfold countOf get_fardel_unpack_count
  rcases hk : kvGet s.numUnpacks s.fardelCount with - | v
  · rfl
  · exfalso
    have := h.counts_fresh (s.fardelCount, v) (kvGet_mem _ _ _ hk)
    omega

/-- A committed `try_unpack_fardel` never decreases any `units_consumed`
counter. -/
theorem unpack_count_mono (s : State) (env : Env) (fardel_hash : Nat)
    (s' : State) (resp : HandleResponse)
    (heq : try_unpack_fardel s env fardel_hash = some (.ok (s', resp))) (x : Nat) :
    countOf s x ≤ countOf s' x := by
  cases henv : env.sent_funds with
  | nil =>
    unfold try_unpack_fardel at heq
    rw [henv] at heq
    simp at heq
  | cons coin0 rest =>
    by_cases hden : coin0.denom = DENOM
    case neg =>
      rw [unpack_eval_wrong_denom s env fardel_hash coin0 rest henv hden] at heq
      simp only [Option.some.injEq, Except.ok.injEq, Prod.mk.injEq] at heq
      obtain ⟨rfl, rfl⟩ := heq
      exact Nat.le_refl _
    case pos =>
    rcases hfar : get_fardel_by_hash s fardel_hash with e | fopt
    · rw [unpack_eval_not_found s env fardel_hash coin0 rest henv hden e hfar] at heq
      simp only [Option.some.injEq, Except.ok.injEq, Prod.mk.injEq] at heq
      obtain ⟨rfl, rfl⟩ := heq
      exact Nat.le_refl _
    rcases fopt with _ | f
    · rw [unpack_eval_not_found_none s env fardel_hash coin0 rest henv hden hfar] at heq
      simp only [Option.some.injEq, Except.ok.injEq, Prod.mk.injEq] at heq
      obtain ⟨rfl, rfl⟩ := heq
      exact Nat.le_refl _
    rcases hown : get_fardel_owner s f.global_id with e | owner
    · rw [unpack_eval_no_owner s env fardel_hash coin0 rest f henv hden hfar e hown] at heq
      simp at heq
    cases hblk : (is_banned s owner || is_deactivated s owner
        || is_blocked_by s owner env.message_sender)
    case true =>
      rw [unpack_eval_blocked s env fardel_hash coin0 rest f owner henv hden hfar hown
        hblk] at heq
      simp at heq
    case false =>
    cases hunp : (get_unpacked_status_by_fardel_id s env.message_sender
        f.global_id).unpacked
    case true =>
      rw [unpack_eval_already_unpacked s env fardel_hash coin0 rest f owner henv hden hfar
        hown hblk hunp] at heq
      simp only [Option.some.injEq, Except.ok.injEq, Prod.mk.injEq] at heq
      obtain ⟨rfl, rfl⟩ := heq
      exact Nat.le_refl _
    case false =>
    cases hpen : (get_pending_unpacked_status_by_fardel_id s env.message_sender
        f.global_id).value
    case true =>
      rw [unpack_eval_already_pending s env fardel_hash coin0 rest f owner henv hden hfar
        hown hblk hunp hpen] at heq
      simp only [Option.some.injEq, Except.ok.injEq, Prod.mk.injEq] at heq
      obtain ⟨rfl, rfl⟩ := heq
      exact Nat.le_refl _
    case false =>
    cases hsea : get_sealed_status s f.global_id
    case true =>
      rw [unpack_eval_sealed s env fardel_hash coin0 rest f owner henv hden hfar hown hblk
        hunp hpen hsea] at heq
      simp only [Option.some.injEq, Except.ok.injEq, Prod.mk.injEq] at heq
      obtain ⟨rfl, rfl⟩ := heq
      exact Nat.le_refl _
    case false =>
    by_cases hexp : 0 < f.seal_time ∧ f.seal_time < env.block_time
    case pos =>
      rw [unpack_eval_expired s env fardel_hash coin0 rest f owner henv hden hfar hown hblk
        hunp hpen hsea hexp] at heq
      simp only [Option.some.injEq, Except.ok.injEq, Prod.mk.injEq] at heq
      obtain ⟨rfl, rfl⟩ := heq
      exact Nat.le_of_eq rfl
    case neg =>
    cases hsold : sold_out s f
    case true =>
      rw [unpack_eval_sold_out s env fardel_hash coin0 rest f owner henv hden hfar hown
        hblk hunp hpen hsea hexp hsold] at heq
      cases happ : f.approval_req
      case true =>
        rw [happ] at heq
        simp only [if_true, Option.some.injEq, Except.ok.injEq, Prod.mk.injEq] at heq
        obtain ⟨rfl, rfl⟩ := heq
        exact Nat.le_refl _
      case false =>
        rw [happ] at heq
        simp only [if_false, Option.some.injEq, Except.ok.injEq, Prod.mk.injEq] at heq
        obtain ⟨rfl, rfl⟩ := heq
        exact Nat.le_of_eq rfl
    case false =>
    by_cases hamt : coin0.amount = f.cost
    case neg =>
      rw [unpack_eval_payment_mismatch s env fardel_hash coin0 rest f owner henv hden hfar
        hown hblk hunp hpen hsea hexp hsold hamt] at heq
      simp only [Option.some.injEq, Except.ok.injEq, Prod.mk.injEq] at heq
      obtain ⟨rfl, rfl⟩ := heq
      exact Nat.le_refl _
    case pos =>
    cases happ : f.approval_req
    case true =>
      rw [unpack_eval_pending_path s env fardel_hash coin0 rest f owner henv hden hfar hown
        hblk hunp hpen hsea hexp hsold hamt happ] at heq
      simp only [Option.some.injEq, Except.ok.injEq, Prod.mk.injEq] at heq
      obtain ⟨rfl, rfl⟩ := heq
      rw [countOf_increment]
      by_cases hx : x = f.global_id
      · rw [if_pos hx]
        have h0 : countOf (store_pending_unpack s owner env.message_sender f.global_id
            coin0 env.block_time) x = countOf s x := rfl
        omega
      · rw [if_neg hx]
        exact Nat.le_of_eq rfl
    case false =>
    rcases hsettle : settleCalc s.constants f.cost with e | pc
    · rw [unpack_eval_settle_err s env fardel_hash coin0 rest f owner henv hden hfar hown
        hblk hunp hpen hsea hexp hsold hamt happ e hsettle] at heq
      simp at heq
    · rw [unpack_eval_direct_path s env fardel_hash coin0 rest f owner henv hden hfar hown
        hblk hunp hpen hsea hexp hsold hamt happ pc hsettle] at heq
      simp only [Option.some.injEq, Except.ok.injEq, Prod.mk.injEq] at heq
      obtain ⟨rfl, rfl⟩ := heq
      rw [countOf_increment]
      by_cases hx : x = f.global_id
      · rw [if_pos hx]
        have h0 : countOf (store_unpack s env.message_sender f.global_id) x =
            countOf s x := rfl
        omega
      · rw [if_neg hx]
        exact Nat.le_of_eq rfl

/-- A committed `try_seal_fardel` does not touch any counter. -/
theorem try_seal_countOf (s : State) (env : Env) (fh : Nat) (s' : State)
    (resp : HandleResponse) (heq : try_seal_fardel s env fh = .ok (s', resp)) (x : Nat) :
    countOf s' x = countOf s x := by
  unfold try_seal_fardel at heq
  rcases hfar : get_fardel_by_hash s fh with e | fo
  · rw [hfar] at heq
    simp only [Except.ok.injEq, Prod.mk.injEq] at heq
    obtain ⟨rfl, -⟩ := heq
    rfl
  rw [hfar] at heq
  dsimp only at heq
  rcases hgid : get_global_id_by_hash s fh with e | gid
  · rw [hgid] at heq
    simp at heq
  rw [hgid] at heq
  dsimp only at heq
  rcases hown : get_fardel_owner s gid with e | owner
  · rw [hown] at heq
    simp at heq
  rw [hown] at heq
  dsimp only at heq
  by_cases ho : owner = env.message_sender
  · rw [if_pos ho] at heq
    simp only [Except.ok.injEq, Prod.mk.injEq] at heq
    obtain ⟨rfl, -⟩ := heq
    rfl
  · rw [if_neg ho] at heq
    simp only [Except.ok.injEq, Prod.mk.injEq] at heq
    obtain ⟨rfl, -⟩ := heq
    rfl

/-- A committed `try_hide_fardel` does not touch any counter. -/
theorem try_hide_countOf (s : State) (env : Env) (fh : Nat) (s' : State)
    (resp : HandleResponse) (heq : try_hide_fardel s env fh = .ok (s', resp)) (x : Nat) :
    countOf s' x = countOf s x := by
  unfold try_hide_fardel at heq
  rcases hfar : get_fardel_by_hash s fh with e | fo
  · rw [hfar] at heq
    simp only [Except.ok.injEq, Prod.mk.injEq] at heq
    obtain ⟨rfl, -⟩ := heq
    rfl
  rw [hfar] at heq
  dsimp only at heq
  rcases hgid : get_global_id_by_hash s fh with e | gid
  · rw [hgid] at heq
    simp at heq
  rw [hgid] at heq
  dsimp only at heq
  rcases hown : get_fardel_owner s gid with e | owner
  · rw [hown] at heq
    simp at heq
  rw [hown] at heq
  dsimp only at heq
  by_cases ho : owner = env.message_sender
  · rw [if_pos ho] at heq
    simp only [Except.ok.injEq, Prod.mk.injEq] at heq
    obtain ⟨rfl, -⟩ := heq
    rfl
  · rw [if_neg ho] at heq
    simp only [Except.ok.injEq, Prod.mk.injEq] at heq
    obtain ⟨rfl, -⟩ := heq
    rfl

/-- A committed `try_unhide_fardel` does not touch any counter. -/
theorem try_unhide_countOf (s : State) (env : Env) (fh : Nat) (s' : State)
    (resp : HandleResponse) (heq : try_unhide_fardel s env fh = .ok (s', resp))
    (x : Nat) : countOf s' x = countOf s x := by
  unfold try_unhide_fardel at heq
  rcases hfar : get_fardel_by_hash s fh with e | fo
  · rw [hfar] at heq
    simp only [Except.ok.injEq, Prod.mk.injEq] at heq
    obtain ⟨rfl, -⟩ := heq
    rfl
  rw [hfar] at heq
  dsimp only at heq
  rcases hgid : get_global_id_by_hash s fh with e | gid
  · rw [hgid] at heq
    simp at heq
  rw [hgid] at heq
  dsimp only at heq
  rcases hown : get_fardel_owner s gid with e | owner
  · rw [hown] at heq
    simp at heq
  rw [hown] at heq
  dsimp only at heq
  by_cases ho : owner = env.message_sender
  · rw [if_pos ho] at heq
    simp only [Except.ok.injEq, Prod.mk.injEq] at heq
    obtain ⟨rfl, -⟩ := heq
    rfl
  · rw [if_neg ho] at heq
    simp only [Except.ok.injEq, Prod.mk.injEq] at heq
    obtain ⟨rfl, -⟩ := heq
    rfl

/-- A committed `try_remove_fardel` does not touch any counter. -/
theorem try_remove_countOf (s : State) (env : Env) (fh : Nat) (b : Bool) (s' : State)
    (resp : HandleResponse) (heq : try_remove_fardel s env fh b = .ok (s', resp))
    (x : Nat) : countOf s' x = countOf s x := by
  unfold try_remove_fardel at heq
  by_cases hadm : env.message_sender ≠ s.constants.admin
  · rw [if_pos hadm] at heq
    simp at heq
  rw [if_neg hadm] at heq
  rcases hfar : get_fardel_by_hash s fh with e | fo
  · rw [hfar] at heq
    simp only [Except.ok.injEq, Prod.mk.injEq] at heq
    obtain ⟨rfl, -⟩ := heq
    rfl
  rw [hfar] at heq
  dsimp only at heq
  rcases hgid : get_global_id_by_hash s fh with e | gid
  · rw [hgid] at heq
    simp at heq
  rw [hgid] at heq
  dsimp only at heq
  cases b
  · rw [if_neg (by simp)] at heq
    simp only [Except.ok.injEq, Prod.mk.injEq] at heq
    obtain ⟨rfl, -⟩ := heq
    rfl
  · rw [if_pos rfl] at heq
    simp only [Except.ok.injEq, Prod.mk.injEq] at heq
    obtain ⟨rfl, -⟩ := heq
    rfl

/-! ## Claim C5: at-most-once unlock -/

/-- A refund instruction from the contract to the caller over `amt` uscrt. -/
def refundMsgOf (env : Env) (amt : Nat) : BankMsg :=
  { from_address := env.contract_address, to_address := env.message_sender,
    amount := [{ denom := DENOM, amount := amt }] }

/-- The fixture listing body stored for public id 42. -/
def fardel42 : StoredFardel :=
  { global_id := 0, hash_id := 42, public_message := "pm", tags := [],
    contents_data := "secret", cost := 100, countable := 1, approval_req := true,
    seal_time := 0, timestamp := 1 }

/-- C5.  At-most-once unlock: in every reachable state the per-purchaser
Unpack-Record ledger never repeats a listing id — so across any sequence of
operations at most one Unpack Record ever exists per (purchaser, listing)
pair — and a `request_unpack` by a purchaser whose Unpack Record already
exists (in particular a second request after settlement) is rejected with the
already-unpacked failure, the state unchanged. -/
theorem at_most_once_unlock (c : Constants) (s : State) (hr : Reachable c s)
    (u : Addr) :
    ((logOf s u).map UnpackedFardel.fardel_id).Nodup ∧
    (∀ (env : Env) (coin0 : Coin) (rest : List Coin) (fh : Nat) (f : StoredFardel)
      (owner : Addr),
      env.message_sender = u →
      env.sent_funds = coin0 :: rest →
      coin0.denom = DENOM →
      get_fardel_by_hash s fh = .ok (some f) →
      get_fardel_owner s f.global_id = .ok owner →
      (is_banned s owner || is_deactivated s owner
        || is_blocked_by s owner u) = false →
      flagOf s u f.global_id = true →
      try_unpack_fardel s env fh =
        some (.ok (s, failResp "You have already unpacked this fardel."))) := by
  have h := Inv_of_reachable c s hr
  refine ⟨logOf_nodup s h u, ?_⟩
  intro env coin0 rest fh f owner hm henv hden hfar hown hblk hflag
  subst hm
  exact unpack_eval_already_unpacked s env fh coin0 rest f owner henv hden hfar hown
    hblk hflag

/-- Witness for C5: in the settled fixture state purchaser 2's ledger holds no
repeated listing id, and their repeat request is rejected with the
already-unpacked failure. -/
theorem at_most_once_unlock_witness :
    ((logOf settledState 2).map UnpackedFardel.fardel_id).Nodup ∧
    try_unpack_fardel settledState (callEnv 2 100 7) 42 =
      some (.ok (settledState, failResp "You have already unpacked this fardel.")) := by
  have h := at_most_once_unlock testConstants settledState
    (.step _ (.step _ (.step _ .init))) 2
  exact ⟨h.1, h.2 (callEnv 2 100 7) { denom := DENOM, amount := 100 } [] 42 fardel42 1
    rfl rfl rfl rfl rfl rfl rfl⟩

/-! ## Claim C6: cancellation semantics -/

/-- C6.  `cancel_pending` in every reachable state: (1) if the caller has no
currently-pending marker for the resolved listing, the call fails (the
engine's no-pending failure, and the transaction reverts); (2) a committed
call marks the caller's queue entry `canceled`, clears the caller's pending
marker, decrements the listing's `units_consumed` by exactly one, and
responds `Success` with a single refund instruction returning the entry's
held amount to the caller; (3) no other operation ever decreases any
`units_consumed` counter. -/
theorem cancel_pending_spec (c : Constants) (s : State) (hr : Reachable c s) :
    (∀ (env : Env) (fh : Nat) (fid : Nat) (owner : Addr) (fo : Option StoredFardel),
      get_global_id_by_hash s fh = .ok fid →
      get_fardel_owner s fid = .ok owner →
      get_fardel_by_global_id s fid = .ok fo →
      (markerOf s env.message_sender fid).value = false →
      try_cancel_pending s env fh =
        .error (.generic "Cannot cancel unpack that is not pending.")) ∧
    (∀ (env : Env) (fh : Nat) (s' : State) (resp : HandleResponse),
      try_cancel_pending s env fh = .ok (s', resp) →
      ∃ fid owner i e,
        get_global_id_by_hash s fh = .ok fid ∧
        get_fardel_owner s fid = .ok owner ∧
        markerOf s env.message_sender fid =
          { pending_unpack_idx := i, value := true } ∧
        (queueOf s owner).get? i = some e ∧
        e.unpacker = env.message_sender ∧ e.fardel_id = fid ∧ e.canceled = false ∧
        queueOf s' owner = (queueOf s owner).set i { e with canceled := true } ∧
        markerOf s' env.message_sender fid =
          { pending_unpack_idx := i, value := false } ∧
        countOf s fid = countOf s' fid + 1 ∧
        resp.status = .success ∧
        resp.messages = [refundMsgOf env e.coin.amount]) ∧
    (∀ (op : Op) (x : Nat), (∀ env2 fh2, op ≠ Op.cancel env2 fh2) →
      countOf s x ≤ countOf (execOp s op) x) := by
  have hinv := Inv_of_reachable c s hr
  refine ⟨?_, ?_, ?_⟩
  · -- (1): no pending marker → the call errors out
    intro env fh fid owner fo hgid hown hgf hmv
    have hcan : cancel_pending_unpack s owner env.message_sender fid =
        .error (.generic "Cannot cancel unpack that is not pending.") := by
      have hmv' : (get_pending_unpacked_status_by_fardel_id s env.message_sender
          fid).value = false := hmv
      simp [cancel_pending_unpack, hmv']
    unfold try_cancel_pending
    rw [hgid]
    dsimp only
    rw [hown]
    dsimp only
    rw [hgf]
    dsimp only
    rw [hcan]
  · -- (2): the committed cancellation's exact effect
    intro env fh s' resp heq
    unfold try_cancel_pending at heq
    rcases hgid : get_global_id_by_hash s fh with e0 | fid
    · rw [hgid] at heq
      simp at heq
    rw [hgid] at heq
    dsimp only at heq
    rcases hown : get_fardel_owner s fid with e0 | owner
    · rw [hown] at heq
      simp at heq
    rw [hown] at heq
    dsimp only at heq
    have hown' := hown
    unfold get_fardel_owner at hown'
    rcases hmp : kvGet s.idFardelMapping fid with - | mp
    · rw [hmp] at hown'
      simp at hown'
    rw [hmp] at hown'
    simp only [Except.ok.injEq] at hown'
    obtain ⟨fb, hfb, hfbid⟩ := hinv.mapping_valid (fid, mp) (kvGet_mem _ _ _ hmp)
    have hfb' : ((kvGet s.fardels mp.1).getD []).get? mp.2 = some fb := hfb
    have hgfb : get_fardel_by_global_id s fid = .ok (some fb) := by
      unfold get_fardel_by_global_id
      rw [hmp]
      dsimp only
      rcases hfl : kvGet s.fardels mp.1 with - | lst
      · rw [hfl] at hfb'
        simp at hfb'
      · rw [hfl] at hfb'
        simp only [Option.getD_some] at hfb'
        dsimp only
        rw [hfb']
    rw [hgfb] at heq
    dsimp only at heq
    rcases hcan : cancel_pending_unpack s owner env.message_sender fid with e0 | s1
    · rw [hcan] at heq
      simp at heq
    rw [hcan] at heq
    dsimp only at heq
    simp only [Except.ok.injEq, Prod.mk.injEq] at heq
    obtain ⟨hs', hresp⟩ := heq
    subst hs'
    subst hresp
    obtain ⟨hv, e, hget, hs1⟩ := cancel_pending_unpack_ok s owner env.message_sender
      fid s1 hcan
    -- locate the marker in the map
    have hmem : ((env.message_sender, fid), markerOf s env.message_sender fid) ∈
        s.myPendingMap := by
      rcases hk : kvGet s.myPendingMap (env.message_sender, fid) with - | mp0
      · exfalso
        unfold markerOf get_pending_unpacked_status_by_fardel_id at hv
        rw [hk] at hv
        simp at hv
      · have hm0 : markerOf s env.message_sender fid = mp0 := by
          unfold markerOf get_pending_unpacked_status_by_fardel_id
          rw [hk]
          rfl
        rw [hm0]
        exact kvGet_mem _ _ _ hk
    obtain ⟨o2, i22, hmap2, e2, hget2, he2u, he2f, he2c⟩ :=
      hinv.marker_sound _ hmem hv
    have hmap2' : kvGet s.idFardelMapping fid = some (o2, i22) := hmap2
    rw [hmp] at hmap2'
    simp only [Option.some.injEq] at hmap2'
    have ho2 : o2 = owner := by
      rw [← hown']
      rw [hmap2']
    have hget2' : (queueOf s owner).get?
        (markerOf s env.message_sender fid).pending_unpack_idx = some e2 := by
      rw [← ho2]
      exact hget2
    have he2e : e2 = e := by
      have := hget2'.symm.trans hget
      simpa using this
    subst he2e
    have heu : e2.unpacker = env.message_sender := he2u
    have hef : e2.fardel_id = fid := he2f
    have hec : e2.canceled = false := he2c
    -- the held coin equals the listing's price
    obtain ⟨i2b, f2, hmb, hgb, hcamt, -⟩ :=
      queue_coin s hinv owner e2 (List.get?_mem hget)
    rw [hef, hmp] at hmb
    simp only [Option.some.injEq] at hmb
    have hf2 : f2 = fb := by
      rw [hmb] at hfb'
      have h12 := hgb.symm.trans hfb'
      simpa using h12
    subst hf2
    -- assemble the existential
    refine ⟨fid, owner, (markerOf s env.message_sender fid).pending_unpack_idx, e2,
      rfl, hown, ?_, hget, heu, hef, hec, ?_, ?_, ?_, rfl, ?_⟩
    · rw [← hv]
    · -- the queue entry is marked canceled
      have hq' : queueOf (decrement_fardel_unpack_count s1 fid) owner =
          queueOf s1 owner := by
        unfold queueOf
        rw [(decrement_core s1 fid).2.2.2.2.1]
      rw [hq', hs1]
      unfold cancel_core map_global_id_to_pending_unpacked_by_unpacker queueOf
      dsimp only
      simp [kvGet_kvSet_same]
    · -- the marker is cleared
      unfold markerOf get_pending_unpacked_status_by_fardel_id
      rw [(decrement_core s1 fid).2.2.2.2.2.2.1, hs1]
      unfold cancel_core map_global_id_to_pending_unpacked_by_unpacker
      dsimp only
      simp [kvGet_kvSet_same]
      rfl
    · -- the counter drops by exactly one
      rw [countOf_decrement, if_pos rfl]
      have hcs1 : countOf s1 fid = countOf s fid := by
        rw [hs1]
        rfl
      rw [hcs1]
      have hpos : 0 < livePendings s fid := livePendings_pos s env.message_sender fid hv
      have hle := livePendings_le s hinv fid
      omega
    · -- the refund returns the held amount
      rw [hcamt]
      rfl
  · -- (3): nothing but `cancel` ever decrements a counter
    intro op x hnc
    cases op with
    | carry env hash pm tg cd cst n a st =>
      simp only [execOp]
      rw [countOf_store_fardel_1]
      by_cases hx : x = s.fardelCount
      · rw [if_pos hx, hx, countOf_count_fresh s hinv]
      · rw [if_neg hx]
    | unpack env fh =>
      simp only [execOp]
      rcases hr2 : try_unpack_fardel s env fh with - | r
      · exact Nat.le_refl _
      rcases r with e0 | p
      · exact Nat.le_refl _
      · exact unpack_count_mono s env fh p.1 p.2 (by rw [hr2]) x
    | approve env number =>
      simp only [execOp]
      rcases hr2 : try_approve_pending_unpacks s env number with e0 | p
      · exact Nat.le_refl _
      · show countOf s x ≤ countOf p.1 x
        rcases try_approve_state s env number p.1 p.2 (by rw [hr2]) with hs2 | hs2
        · rw [hs2]
        · rw [hs2]
          exact Nat.le_of_eq
            (countOf_approveState s env.message_sender (number.getD 10).toNat x).symm
    | cancel env fh => exact absurd rfl (hnc env fh)
    | sealF env fh =>
      simp only [execOp]
      rcases hr2 : try_seal_fardel s env fh with e0 | p
      · exact Nat.le_refl _
      · exact Nat.le_of_eq (try_seal_countOf s env fh p.1 p.2 (by rw [hr2]) x).symm
    | hideF env fh =>
      simp only [execOp]
      rcases hr2 : try_hide_fardel s env fh with e0 | p
      · exact Nat.le_refl _
      · exact Nat.le_of_eq (try_hide_countOf s env fh p.1 p.2 (by rw [hr2]) x).symm
    | unhideF env fh =>
      simp only [execOp]
      rcases hr2 : try_unhide_fardel s env fh with e0 | p
      · exact Nat.le_refl _
      · exact Nat.le_of_eq (try_unhide_countOf s env fh p.1 p.2 (by rw [hr2]) x).symm
    | removeF env fh b =>
      simp only [execOp]
      rcases hr2 : try_remove_fardel s env fh b with e0 | p
      · exact Nat.le_refl _
      · exact Nat.le_of_eq (try_remove_countOf s env fh b p.1 p.2 (by rw [hr2]) x).symm
    | ban account b => exact Nat.le_refl _
    | deactivate account b => exact Nat.le_refl _
    | blockAcct blocker blocked b => exact Nat.le_refl _

/-- ...after purchaser 2 cancels the still-pending request (the legitimate
pre-approval cancellation). -/
def cancelBeforeApproveState : State :=
  execOp pendingState (.cancel (callEnv 2 100 4) 42)

/-- The response of that legitimate cancellation: refund of the held 100. -/
def cancelRefundResp : HandleResponse :=
  { messages := [refundMsgOf (callEnv 2 100 4) 100], status := .success, msg := none }

/-- Witness for C6: at the pending fixture state, purchaser 3 (no pending
entry) is rejected; purchaser 2's committed cancellation has the exact
claimed effect; and the owner's batch approval does not decrease the
counter. -/
theorem cancel_pending_spec_witness :
    (try_cancel_pending pendingState (callEnv 3 100 99) 42 =
      .error (.generic "Cannot cancel unpack that is not pending.")) ∧
    (∃ fid owner i e,
      get_global_id_by_hash pendingState 42 = .ok fid ∧
      get_fardel_owner pendingState fid = .ok owner ∧
      markerOf pendingState 2 fid = { pending_unpack_idx := i, value := true } ∧
      (queueOf pendingState owner).get? i = some e ∧
      e.unpacker = 2 ∧ e.fardel_id = fid ∧ e.canceled = false ∧
      queueOf cancelBeforeApproveState owner =
        (queueOf pendingState owner).set i { e with canceled := true } ∧
      markerOf cancelBeforeApproveState 2 fid =
        { pending_unpack_idx := i, value := false } ∧
      countOf pendingState fid = countOf cancelBeforeApproveState fid + 1 ∧
      cancelRefundResp.status = .success ∧
      cancelRefundResp.messages = [refundMsgOf (callEnv 2 100 4) e.coin.amount]) ∧
    countOf pendingState 0 ≤
      countOf (execOp pendingState (.approve (callEnv 1 100 3) none)) 0 := by
  have h := cancel_pending_spec testConstants pendingState
    (.step _ (.step _ .init))
  refine ⟨h.1 (callEnv 3 100 99) 42 0 1 (some fardel42) rfl rfl rfl rfl, ?_, ?_⟩
  · exact h.2.1 (callEnv 2 100 4) 42 cancelBeforeApproveState cancelRefundResp rfl
  · exact h.2.2 (.approve (callEnv 1 100 3) none) 0
      (fun env2 fh2 hcon => Op.noConfusion hcon)

end Fardels
